import Mathlib

/-!
Verification of the Aimsun TCP bridge of the `flow` repository.

The development shallowly embeds the bridge protocol code:

* `flow/config.py` — wire constants;
* `flow/utils/aimsun/TCP_comms.py` — the framed message codec
  (`send_formatted_message` / `get_formatted_message`);
* `flow/utils/aimsun/run.py` — the server-side (Aimsun interpreter)
  per-step command loop `simulation_step` and the vehicle enter/exit
  callbacks;
* `flow/utils/aimsun/api.py` — the client (`WolfAimsunAPI`), in
  particular the per-method format declarations, `simulation_reset`
  and `accept_aimsun_connection`.

Modelling conventions:

* Python byte strings and text strings are `List Nat` (byte values,
  resp. Unicode code points).
* Python `float` values travelling through the value-level dispatch
  model are exact rationals; the quantisation performed by the
  byte-level `struct` codec (`'f'` = IEEE binary32) is modelled
  separately by `round32` on dyadic mantissa/exponent pairs.
* The TCP connection is modelled as a lock-step message-aligned
  channel: the protocol is strictly synchronous (each `send` is
  matched by exactly one `recv` of the peer before any further
  `send`), so each `conn.recv` returns exactly one sent payload.
  A closed/aborted connection is modelled by the inbound list running
  out; the resulting `recv` failure (Python raises a socket error, or
  `int(b'')` raises) is modelled as `none` / an error flag.
-/

set_option maxRecDepth 100000

/-! ## Constants from `flow/config.py` (byte values of the literals) -/

/-- Number of characters in a packet when sending a string. -/
def PACKET_SIZE : Nat := 256

/-- Transfer-status token `b'Wolf0'`: transfer complete. -/
def TRANSFER_DONE : List Nat := [87, 111, 108, 102, 48]

/-- Transfer-status token `b'Wolf1'`: more data follows. -/
def TRANSFER_CONTINUE : List Nat := [87, 111, 108, 102, 49]

/-- Standard status-response byte string `b'StatResp'`. -/
def STATRESP : List Nat := [83, 116, 97, 116, 82, 101, 115, 112]

/-- Client identifier `b'run.py_and_api.py'` presented by the run-api client. -/
def RUN_API_ID : List Nat :=
  [114, 117, 110, 46, 112, 121, 95, 97, 110, 100, 95, 97, 112, 105, 46, 112, 121]

/-- Client identifier `b'load.py_and_generate.py'` of the network-loader client. -/
def NETWORK_LOAD_ID : List Nat :=
  [108, 111, 97, 100, 46, 112, 121, 95, 97, 110, 100, 95, 103, 101, 110, 101,
   114, 97, 116, 101, 46, 112, 121]

/-! ## Opcode constants

Modelled from the spec: `flow/utils/aimsun/constants.py` is imported by both
`run.py` and `api.py` but is not among the provided sources.  The spec states
the opcode space is "a small closed integer enumeration shared by both ends";
accordingly the opcodes are modelled as distinct natural numbers.  No claim
depends on the concrete numeric values, only on their distinctness. -/

def SIMULATION_STEP : Nat := 0
def SIMULATION_RESET : Nat := 1
def SIMULATION_TERMINATE : Nat := 2
def GET_EDGE_NAME : Nat := 3
def ADD_VEHICLE : Nat := 4
def REMOVE_VEHICLE : Nat := 5
def VEH_SET_SPEED : Nat := 6
def VEH_SET_LANE : Nat := 7
def VEH_SET_ROUTE : Nat := 8
def VEH_SET_COLOR : Nat := 9
def VEH_GET_ENTERED_IDS : Nat := 10
def VEH_GET_EXITED_IDS : Nat := 11
def VEH_GET_TYPE_ID : Nat := 12
def VEH_GET_STATIC : Nat := 13
def VEH_GET_DYNAMIC : Nat := 14
def VEH_GET_ACC : Nat := 15
def VEH_GET_LEADER : Nat := 16
def VEH_GET_FOLLOWER : Nat := 17
def VEH_GET_NEXT_SECTION : Nat := 18
def VEH_GET_ROUTE : Nat := 19
def VEH_GET_TYPE_NAME : Nat := 20
def VEH_GET_LENGTH : Nat := 21
def VEH_SET_TRACKED : Nat := 22
def VEH_SET_NO_TRACKED : Nat := 23
def TL_GET_IDS : Nat := 24
def TL_SET_STATE : Nat := 25
def TL_GET_STATE : Nat := 26
def VEH_GET_TRACKING : Nat := 27

/-- The opcodes handled by a branch of `simulation_step` in
`flow/utils/aimsun/run.py` (every `elif` of the dispatch chain). -/
def knownOpcodes : List Nat :=
  [SIMULATION_STEP, SIMULATION_RESET, SIMULATION_TERMINATE, GET_EDGE_NAME,
   ADD_VEHICLE, REMOVE_VEHICLE, VEH_SET_SPEED, VEH_SET_LANE, VEH_SET_ROUTE,
   VEH_SET_COLOR, VEH_GET_ENTERED_IDS, VEH_GET_EXITED_IDS, VEH_GET_TYPE_ID,
   VEH_GET_STATIC, VEH_GET_DYNAMIC, VEH_GET_ACC, VEH_GET_LEADER,
   VEH_GET_FOLLOWER, VEH_GET_NEXT_SECTION, VEH_GET_ROUTE, VEH_GET_TYPE_NAME,
   VEH_GET_LENGTH, VEH_SET_TRACKED, VEH_SET_NO_TRACKED, TL_GET_IDS,
   TL_SET_STATE, TL_GET_STATE]

/-! ## Decimal rendering and parsing

Models Python `str(n : int)` and `int(s : str)` as used by the
entered/exited-vehicle drain (`':'.join(str(veh) ...)` on the server in
`run.py`, `[int(v) for v in veh_ids.split(':')]` on the client in `api.py`). -/

/-- Fuel-indexed decimal digit loop; `natToDec` supplies the number itself as
fuel, which suffices since the argument drops by a factor of ten each step. -/
def natToDecFuel : Nat → Nat → List Nat
  | 0, n => [48 + n]
  | fuel + 1, n =>
    if n < 10 then [48 + n] else natToDecFuel fuel (n / 10) ++ [48 + n % 10]

/-- Decimal digits (as character codes, most significant first) of a natural
number; models `str` on a non-negative Python int. -/
def natToDec (n : Nat) : List Nat := natToDecFuel n n

/-- Decimal rendering of a Python int, with a leading `'-'` (code 45) when
negative; models `str(n)`. -/
def intToDec (n : Int) : List Nat :=
  if n < 0 then 45 :: natToDec n.natAbs else natToDec n.toNat

/-- Value of a list of decimal digit character codes; models `int(s)` on a
string of digits. -/
def parseNatDigits (l : List Nat) : Nat :=
  l.foldl (fun a d => a * 10 + (d - 48)) 0

/-- Models Python `int(s)` on an optionally `'-'`-signed digit string. -/
def parseDec (l : List Nat) : Int :=
  if l.head? = some 45 then -(parseNatDigits l.tail : Int)
  else (parseNatDigits l : Int)

theorem natToDecFuel_congr :
    ∀ f1 f2 n, n ≤ f1 → n ≤ f2 → natToDecFuel f1 n = natToDecFuel f2 n := by
  intro f1
  induction f1 with
  | zero =>
    intro f2 n h1 h2
    have : n = 0 := by omega
    subst this
    cases f2 <;> simp [natToDecFuel]
  | succ f1 ih =>
    intro f2 n h1 h2
    by_cases hn : n < 10
    · cases f2 with
      | zero =>
        have : n = 0 := by omega
        subst this
        simp [natToDecFuel]
      | succ g2 => simp [natToDecFuel, if_pos hn]
    · cases f2 with
      | zero => omega
      | succ g2 =>
        simp only [natToDecFuel, if_neg hn]
        rw [ih g2 (n / 10) (by omega) (by omega)]

theorem natToDec_lt (n : Nat) (h : n < 10) : natToDec n = [48 + n] := by
  show natToDecFuel n n = _
  match n with
  | 0 => rfl
  | m + 1 => simp [natToDecFuel, if_pos h]

theorem natToDec_ge (n : Nat) (h : 10 ≤ n) :
    natToDec n = natToDec (n / 10) ++ [48 + n % 10] := by
  obtain ⟨m, rfl⟩ : ∃ m, n = m + 1 := ⟨n - 1, by omega⟩
  show natToDecFuel (m + 1) (m + 1) = _
  simp only [natToDecFuel, if_neg (by omega : ¬(m + 1 < 10))]
  rw [natToDecFuel_congr m ((m + 1) / 10) ((m + 1) / 10) (by omega) le_rfl]
  rfl

theorem natToDec_ne_nil (n : Nat) : natToDec n ≠ [] := by
  by_cases h : n < 10
  · rw [natToDec_lt n h]; simp
  · rw [natToDec_ge n (by omega)]; simp

theorem natToDec_mem (n : Nat) : ∀ d ∈ natToDec n, 48 ≤ d ∧ d < 58 := by
  induction n using Nat.strong_induction_on with
  | _ n ih =>
    by_cases h : n < 10
    · rw [natToDec_lt n h]
      intro d hd; simp at hd; omega
    · rw [natToDec_ge n (by omega)]
      intro d hd
      simp only [List.mem_append, List.mem_singleton] at hd
      rcases hd with hx | hx
      · exact ih (n / 10) (Nat.div_lt_self (by omega) (by omega)) d hx
      · omega

theorem parseNatDigits_append_last (l : List Nat) (x : Nat) :
    parseNatDigits (l ++ [x]) = parseNatDigits l * 10 + (x - 48) := by
  simp [parseNatDigits, List.foldl_append]

theorem parseNatDigits_natToDec (n : Nat) : parseNatDigits (natToDec n) = n := by
  induction n using Nat.strong_induction_on with
  | _ n ih =>
    by_cases h : n < 10
    · rw [natToDec_lt n h]
      simp [parseNatDigits]
    · rw [natToDec_ge n (by omega), parseNatDigits_append_last,
        ih (n / 10) (Nat.div_lt_self (by omega) (by omega))]
      omega

theorem parseDec_intToDec (n : Int) : parseDec (intToDec n) = n := by
  rcases lt_or_le n 0 with h | h
  · have he : intToDec n = 45 :: natToDec n.natAbs := by rw [intToDec, if_pos h]
    rw [he, parseDec]
    simp only [List.head?_cons, List.tail_cons]
    rw [if_pos trivial, parseNatDigits_natToDec]
    omega
  · simp only [intToDec, if_neg (not_lt.mpr h), parseDec]
    have hne := natToDec_ne_nil n.toNat
    have hmem := natToDec_mem n.toNat
    rcases hd : natToDec n.toNat with _ | ⟨d, t⟩
    · exact absurd hd hne
    · have hdmem : 48 ≤ d ∧ d < 58 := hmem d (by rw [hd]; simp)
      rw [if_neg (by simp; omega)]
      rw [← hd, parseNatDigits_natToDec]
      omega

/-! ## UTF-8 encoding and decoding

Models Python `str.encode()` and `bytes.decode('utf-8')` as used by the
string path of `send_formatted_message` / `get_formatted_message` in
`TCP_comms.py`.  `utf8EncodeChar` is meaningful on Unicode scalar values
(Python's `encode` raises on lone surrogates); `utf8Decode` is the strict
decoder: it rejects truncated sequences, stray continuation bytes,
overlong forms, surrogates and values above `0x10FFFF`, returning `none`
where Python raises `UnicodeDecodeError`. -/

/-- A Unicode scalar value: what a well-formed Python `str` character holds
and what `str.encode()` accepts. -/
def ScalarValue (c : Nat) : Prop := c < 0x110000 ∧ (c < 0xD800 ∨ 0xE000 ≤ c)

instance (c : Nat) : Decidable (ScalarValue c) := by
  unfold ScalarValue; infer_instance

/-- UTF-8 bytes of a single code point. -/
def utf8EncodeChar (c : Nat) : List Nat :=
  if c < 0x80 then [c]
  else if c < 0x800 then [0xC0 + c / 0x40, 0x80 + c % 0x40]
  else if c < 0x10000 then
    [0xE0 + c / 0x1000, 0x80 + c / 0x40 % 0x40, 0x80 + c % 0x40]
  else
    [0xF0 + c / 0x40000, 0x80 + c / 0x1000 % 0x40, 0x80 + c / 0x40 % 0x40,
     0x80 + c % 0x40]

/-- UTF-8 bytes of a string of code points; models `message.encode()`. -/
def utf8Encode (s : List Nat) : List Nat := (s.map utf8EncodeChar).flatten

theorem utf8Encode_nil : utf8Encode [] = [] := rfl

theorem utf8Encode_cons (c : Nat) (s : List Nat) :
    utf8Encode (c :: s) = utf8EncodeChar c ++ utf8Encode s := by
  simp [utf8Encode]

theorem utf8Encode_append (s t : List Nat) :
    utf8Encode (s ++ t) = utf8Encode s ++ utf8Encode t := by
  simp [utf8Encode]

theorem utf8EncodeChar_length_pos (c : Nat) : 0 < (utf8EncodeChar c).length := by
  rw [utf8EncodeChar]
  split
  · simp
  · split
    · simp
    · split <;> simp

/-- Decode one UTF-8-encoded code point off the front of a byte list,
returning it with the remaining bytes; the per-character core of strict
`bytes.decode('utf-8')`.  `none` stands for `UnicodeDecodeError`: truncated
sequences, stray continuation bytes, overlong forms, surrogates and values
above `0x10FFFF` are rejected, as CPython does. -/
def utf8DecodeChar1 : List Nat → Option (Nat × List Nat)
  | [] => none
  | b :: rest =>
    if b < 0x80 then some (b, rest)
    else if b < 0xC2 then none
    else if b < 0xE0 then
      match rest with
      | b2 :: r2 =>
        if 0x80 ≤ b2 ∧ b2 < 0xC0 then
          some ((b - 0xC0) * 0x40 + (b2 - 0x80), r2)
        else none
      | [] => none
    else if b < 0xF0 then
      match rest with
      | b2 :: b3 :: r3 =>
        if (0x80 ≤ b2 ∧ b2 < 0xC0) ∧ (0x80 ≤ b3 ∧ b3 < 0xC0)
            ∧ ¬(b = 0xE0 ∧ b2 < 0xA0) ∧ ¬(b = 0xED ∧ 0xA0 ≤ b2) then
          some ((b - 0xE0) * 0x1000 + (b2 - 0x80) * 0x40 + (b3 - 0x80), r3)
        else none
      | _ => none
    else if b < 0xF5 then
      match rest with
      | b2 :: b3 :: b4 :: r4 =>
        if (0x80 ≤ b2 ∧ b2 < 0xC0) ∧ (0x80 ≤ b3 ∧ b3 < 0xC0) ∧ (0x80 ≤ b4 ∧ b4 < 0xC0)
            ∧ ¬(b = 0xF0 ∧ b2 < 0x90) ∧ ¬(b = 0xF4 ∧ 0x90 ≤ b2) then
          some ((b - 0xF0) * 0x40000 + (b2 - 0x80) * 0x1000
                + (b3 - 0x80) * 0x40 + (b4 - 0x80), r4)
        else none
      | _ => none
    else none

theorem utf8DecodeChar1_length (l : List Nat) (c : Nat) (r : List Nat)
    (h : utf8DecodeChar1 l = some (c, r)) : r.length < l.length := by
  match l with
  | [] => simp [utf8DecodeChar1] at h
  | [b] =>
    simp only [utf8DecodeChar1] at h
    split_ifs at h <;> simp_all <;> omega
  | [b, b2] =>
    simp only [utf8DecodeChar1] at h
    split_ifs at h <;> simp_all <;> omega
  | [b, b2, b3] =>
    simp only [utf8DecodeChar1] at h
    split_ifs at h <;> simp_all <;> omega
  | b :: b2 :: b3 :: b4 :: r4 =>
    simp only [utf8DecodeChar1] at h
    split_ifs at h <;> simp_all <;> omega

/-- Fuel-indexed strict UTF-8 decoding loop; `utf8Decode` supplies the byte
count as fuel, which always suffices since each step consumes at least one
byte. -/
def utf8DecodeFuel : Nat → List Nat → Option (List Nat)
  | _, [] => some []
  | 0, _ :: _ => none
  | fuel + 1, b :: rest =>
    match utf8DecodeChar1 (b :: rest) with
    | none => none
    | some (c, r) => (utf8DecodeFuel fuel r).map (fun t => c :: t)

/-- Strict UTF-8 decoding of a whole byte string; models
`data.decode('utf-8')`, with `none` for `UnicodeDecodeError`. -/
def utf8Decode (l : List Nat) : Option (List Nat) := utf8DecodeFuel l.length l

theorem utf8DecodeFuel_congr :
    ∀ f1 f2 l, l.length ≤ f1 → l.length ≤ f2 →
      utf8DecodeFuel f1 l = utf8DecodeFuel f2 l := by
  intro f1
  induction f1 with
  | zero =>
    intro f2 l h1 h2
    have : l = [] := List.length_eq_zero.mp (by omega)
    subst this
    cases f2 <;> rfl
  | succ f1 ih =>
    intro f2 l h1 h2
    match l with
    | [] => cases f2 <;> rfl
    | b :: rest =>
      match f2 with
      | 0 => simp at h2
      | g2 + 1 =>
        simp only [utf8DecodeFuel]
        rcases hh : utf8DecodeChar1 (b :: rest) with _ | ⟨c, r⟩
        · rfl
        · have hr := utf8DecodeChar1_length _ _ _ hh
          simp only [List.length_cons] at hr h1 h2
          simp only [ih g2 r (by omega) (by omega)]

theorem utf8Decode_ne_nil (l : List Nat) (hne : l ≠ []) :
    utf8Decode l =
      match utf8DecodeChar1 l with
      | none => none
      | some (c, r) => (utf8Decode r).map (fun t => c :: t) := by
  match l with
  | [] => exact absurd rfl hne
  | b :: rest =>
    show utf8DecodeFuel (b :: rest).length (b :: rest) = _
    simp only [List.length_cons, utf8DecodeFuel]
    rcases hh : utf8DecodeChar1 (b :: rest) with _ | ⟨c, r⟩
    · rfl
    · have hr := utf8DecodeChar1_length _ _ _ hh
      simp only [List.length_cons] at hr
      simp only [utf8DecodeFuel_congr rest.length r.length r (by omega) le_rfl]
      rfl

theorem utf8Decode_nil : utf8Decode [] = some [] := rfl

/-- Decoding an encoded scalar value consumes exactly its bytes and yields the
code point back, whatever follows. -/
theorem utf8DecodeChar1_encodeChar (c : Nat) (h : ScalarValue c) (rest : List Nat) :
    utf8DecodeChar1 (utf8EncodeChar c ++ rest) = some (c, rest) := by
  obtain ⟨h1, h2⟩ := h
  by_cases hc1 : c < 0x80
  · rw [utf8EncodeChar, if_pos hc1]
    simp only [List.cons_append, List.nil_append, utf8DecodeChar1]
    rw [if_pos hc1]
  · by_cases hc2 : c < 0x800
    · rw [utf8EncodeChar, if_neg hc1, if_pos hc2]
      simp only [List.cons_append, List.nil_append, utf8DecodeChar1]
      rw [if_neg (by omega), if_neg (by omega), if_pos (by omega), if_pos (by omega)]
      have hv : (0xC0 + c / 0x40 - 0xC0) * 0x40 + (0x80 + c % 0x40 - 0x80) = c := by
        omega
      rw [hv]
    · by_cases hc3 : c < 0x10000
      · rw [utf8EncodeChar, if_neg hc1, if_neg hc2, if_pos hc3]
        simp only [List.cons_append, List.nil_append, utf8DecodeChar1]
        rw [if_neg (by omega), if_neg (by omega), if_neg (by omega),
          if_pos (by omega), if_pos (by omega)]
        have hv : (0xE0 + c / 0x1000 - 0xE0) * 0x1000
            + (0x80 + c / 0x40 % 0x40 - 0x80) * 0x40 + (0x80 + c % 0x40 - 0x80) = c := by
          omega
        rw [hv]
      · rw [utf8EncodeChar, if_neg hc1, if_neg hc2, if_neg hc3]
        simp only [List.cons_append, List.nil_append, utf8DecodeChar1]
        rw [if_neg (by omega), if_neg (by omega), if_neg (by omega),
          if_neg (by omega), if_pos (by omega), if_pos (by omega)]
        have hv : (0xF0 + c / 0x40000 - 0xF0) * 0x40000
            + (0x80 + c / 0x1000 % 0x40 - 0x80) * 0x1000
            + (0x80 + c / 0x40 % 0x40 - 0x80) * 0x40 + (0x80 + c % 0x40 - 0x80) = c := by
          omega
        rw [hv]

theorem utf8EncodeChar_ne_nil (c : Nat) : utf8EncodeChar c ≠ [] := by
  intro hx
  have := utf8EncodeChar_length_pos c
  rw [hx] at this
  simp at this

theorem utf8Decode_encodeChar (c : Nat) (h : ScalarValue c) (rest : List Nat) :
    utf8Decode (utf8EncodeChar c ++ rest) = (utf8Decode rest).map (fun t => c :: t) := by
  have hne : utf8EncodeChar c ++ rest ≠ [] := by
    simp [utf8EncodeChar_ne_nil c]
  rw [utf8Decode_ne_nil _ hne, utf8DecodeChar1_encodeChar c h rest]

/-- Round trip of the full encoder and strict decoder on well-formed strings. -/
theorem utf8Decode_encode (s : List Nat) (h : ∀ c ∈ s, ScalarValue c) :
    utf8Decode (utf8Encode s) = some s := by
  induction s with
  | nil => exact utf8Decode_nil
  | cons c t ih =>
    rw [utf8Encode_cons, utf8Decode_encodeChar c (h c (by simp)) (utf8Encode t)]
    rw [ih (fun x hx => h x (by simp [hx]))]
    rfl

/-- ASCII bytes decode to themselves. -/
theorem utf8DecodeChar1_ascii (b : Nat) (hb : b < 0x80) (t : List Nat) :
    utf8DecodeChar1 (b :: t) = some (b, t) := by
  simp only [utf8DecodeChar1]
  rw [if_pos hb]

theorem utf8Decode_ascii (bs : List Nat) (h : ∀ b ∈ bs, b < 0x80) :
    utf8Decode bs = some bs := by
  induction bs with
  | nil => exact utf8Decode_nil
  | cons b t ih =>
    have hb : b < 0x80 := h b (by simp)
    rw [utf8Decode_ne_nil _ (by simp), utf8DecodeChar1_ascii b hb t]
    simp [ih (fun x hx => h x (by simp [hx]))]

/-- ASCII code points encode to themselves. -/
theorem utf8Encode_ascii (s : List Nat) (h : ∀ c ∈ s, c < 0x80) :
    utf8Encode s = s := by
  induction s with
  | nil => rfl
  | cons c t ih =>
    rw [utf8Encode_cons, utf8EncodeChar, if_pos (h c (by simp))]
    rw [ih (fun x hx => h x (by simp [hx]))]
    rfl

/-! ## Chunked string transfer (`TCP_comms.py`, format `'str'`)

`send_formatted_message(conn, 'str', s)` encodes `s` to UTF-8 bytes and, while
more than `PACKET_SIZE` bytes remain, sends a `PACKET_SIZE`-byte chunk
followed (after a status response) by a `TRANSFER_CONTINUE` token; the final
chunk is followed by `TRANSFER_DONE`.  `get_formatted_message(conn, 'str')`
loops: receive a chunk, decode it as UTF-8, concatenate, send a status probe,
read the status token, stop when it equals `TRANSFER_DONE`.

The lock-step exchange is modelled as the list of (chunk, status-token) pairs
an iteration of the receiving loop consumes; the interleaved `STATRESP`
acknowledgements on the reverse channel carry no data and are left implicit.
A truncated wire (connection closed before the `DONE` exchange) makes the
receiver's next `recv` fail, modelled by `none`. -/

/-- Fuel-indexed chunking loop of `send_formatted_message` for `'str'`;
`sendStrChunks` supplies the byte count as fuel, which suffices since each
iteration consumes `PACKET_SIZE` bytes. -/
def sendStrChunksFuel : Nat → List Nat → List (List Nat × List Nat)
  | 0, msg => [(msg, TRANSFER_DONE)]
  | fuel + 1, msg =>
    if PACKET_SIZE < msg.length then
      (msg.take PACKET_SIZE, TRANSFER_CONTINUE)
        :: sendStrChunksFuel fuel (msg.drop PACKET_SIZE)
    else [(msg, TRANSFER_DONE)]

/-- The (chunk, token) pairs produced by the `'str'` sending loop on a byte
string. -/
def sendStrChunks (msg : List Nat) : List (List Nat × List Nat) :=
  sendStrChunksFuel msg.length msg

/-- Wire trace of `send_formatted_message(conn, 'str', s)`: encode to UTF-8,
then chunk. -/
def sendStr (s : List Nat) : List (List Nat × List Nat) :=
  sendStrChunks (utf8Encode s)

/-- Receiving loop of `get_formatted_message(conn, 'str')`: decode each
chunk, accumulate, stop on `TRANSFER_DONE`.  `none` models an exception
(UnicodeDecodeError on a chunk, or a socket error once the wire is
exhausted). -/
def getStrLoop : List (List Nat × List Nat) → Option (List Nat)
  | [] => none
  | (chunk, tok) :: rest =>
    match utf8Decode chunk with
    | none => none
    | some piece =>
      if tok = TRANSFER_DONE then some piece
      else (getStrLoop rest).map (fun t => piece ++ t)

theorem PACKET_SIZE_pos : 0 < PACKET_SIZE := by decide

theorem sendStrChunksFuel_congr :
    ∀ f1 f2 msg, msg.length ≤ f1 → msg.length ≤ f2 →
      sendStrChunksFuel f1 msg = sendStrChunksFuel f2 msg := by
  have hp := PACKET_SIZE_pos
  intro f1
  induction f1 with
  | zero =>
    intro f2 msg h1 h2
    have : msg = [] := List.length_eq_zero.mp (by omega)
    subst this
    cases f2 <;> simp [sendStrChunksFuel, PACKET_SIZE]
  | succ f1 ih =>
    intro f2 msg h1 h2
    by_cases hl : PACKET_SIZE < msg.length
    · match f2 with
      | 0 => omega
      | g2 + 1 =>
        simp only [sendStrChunksFuel, if_pos hl]
        rw [ih g2 (msg.drop PACKET_SIZE)
          (by simp only [List.length_drop]; omega)
          (by simp only [List.length_drop]; omega)]
    · match f2 with
      | 0 =>
        have : msg = [] := List.length_eq_zero.mp (by omega)
        subst this
        simp [sendStrChunksFuel, PACKET_SIZE]
      | g2 + 1 => simp only [sendStrChunksFuel, if_neg hl]

theorem sendStrChunks_long (msg : List Nat) (h : PACKET_SIZE < msg.length) :
    sendStrChunks msg =
      (msg.take PACKET_SIZE, TRANSFER_CONTINUE)
        :: sendStrChunks (msg.drop PACKET_SIZE) := by
  have hp := PACKET_SIZE_pos
  show sendStrChunksFuel msg.length msg = _
  rcases hm : msg.length with _ | m
  · omega
  · simp only [sendStrChunksFuel, if_pos h]
    rw [sendStrChunksFuel_congr m (msg.drop PACKET_SIZE).length (msg.drop PACKET_SIZE)
      (by simp only [List.length_drop]; omega) le_rfl]
    rfl

theorem sendStrChunks_short (msg : List Nat) (h : ¬ PACKET_SIZE < msg.length) :
    sendStrChunks msg = [(msg, TRANSFER_DONE)] := by
  show sendStrChunksFuel msg.length msg = _
  rcases hm : msg.length with _ | m
  · rfl
  · simp only [sendStrChunksFuel, if_neg h]

/-- The sending loop on a byte string made of an aligned sequence of
`PACKET_SIZE`-byte chunks plus a final short chunk produces exactly those
chunks, `TRANSFER_CONTINUE`-tagged except the `TRANSFER_DONE`-tagged last. -/
theorem sendStrChunks_segments :
    ∀ (init : List (List Nat)) (last : List Nat),
      (∀ t ∈ init, t.length = PACKET_SIZE) →
      0 < last.length → last.length ≤ PACKET_SIZE →
      sendStrChunks ((init ++ [last]).flatten) =
        init.map (fun t => (t, TRANSFER_CONTINUE)) ++ [(last, TRANSFER_DONE)] := by
  intro init
  induction init with
  | nil =>
    intro last _ h1 h2
    simp only [List.nil_append, List.flatten_cons, List.flatten_nil,
      List.append_nil, List.map_nil]
    rw [sendStrChunks_short last (by omega)]
  | cons t init ih =>
    intro last hinit h1 h2
    have ht : t.length = PACKET_SIZE := hinit t (by simp)
    have hrest : 0 < ((init ++ [last]).flatten).length := by
      simp only [List.flatten_append, List.flatten_cons, List.flatten_nil,
        List.append_nil, List.length_append]
      omega
    have hlong : PACKET_SIZE < ((t :: init ++ [last]).flatten).length := by
      simp only [List.cons_append, List.flatten_cons, List.length_append]
      omega
    rw [show ((t :: init ++ [last]).flatten) = t ++ (init ++ [last]).flatten by
      simp]
    rw [sendStrChunks_long _ (by
      rw [List.length_append]; omega)]
    rw [← ht, List.take_left, List.drop_left]
    rw [ih last (fun x hx => hinit x (by simp [hx])) h1 h2]
    simp

/-- The receiving loop on an encoded aligned wire returns the concatenation
of the decoded segments. -/
theorem getStrLoop_encoded_segments :
    ∀ (init : List (List Nat)) (last : List Nat),
      (∀ t ∈ init, ∀ c ∈ t, ScalarValue c) → (∀ c ∈ last, ScalarValue c) →
      getStrLoop ((init.map fun t => (utf8Encode t, TRANSFER_CONTINUE))
          ++ [(utf8Encode last, TRANSFER_DONE)])
        = some ((init ++ [last]).flatten) := by
  intro init
  induction init with
  | nil =>
    intro last _ hlast
    simp only [List.map_nil, List.nil_append, List.flatten_cons,
      List.flatten_nil, List.append_nil, getStrLoop]
    rw [utf8Decode_encode last hlast]
    simp
  | cons t init ih =>
    intro last hinit hlast
    have hdec : utf8Decode (utf8Encode t) = some t :=
      utf8Decode_encode t (hinit t (by simp))
    have hne : TRANSFER_CONTINUE ≠ TRANSFER_DONE := by decide
    simp only [List.map_cons, List.cons_append, getStrLoop, hdec, if_neg hne]
    rw [show (List.map (fun t => (utf8Encode t, TRANSFER_CONTINUE)) init).append
          [(utf8Encode last, TRANSFER_DONE)]
        = List.map (fun t => (utf8Encode t, TRANSFER_CONTINUE)) init
          ++ [(utf8Encode last, TRANSFER_DONE)] from rfl]
    rw [ih last (fun x hx => hinit x (by simp [hx])) hlast]
    simp

theorem utf8Encode_flatten (xs : List (List Nat)) :
    utf8Encode xs.flatten = (xs.map utf8Encode).flatten := by
  induction xs with
  | nil => rfl
  | cons x xs ih =>
    simp only [List.flatten_cons, utf8Encode_append, ih, List.map_cons]

/-! ## Claim C1: chunked string round trip -/

/-- C1 counterexample input: 255 `'a'` characters, one `'¢'` (U+00A2, two
UTF-8 bytes), one `'a'`.  257 characters, 258 UTF-8 bytes: the first 256-byte
chunk ends in the middle of the `'¢'` sequence, so the receiver's per-chunk
`data.decode('utf-8')` fails. -/
def c1CounterStr : List Nat := List.replicate 255 97 ++ [162, 97]

/-- C1 (counterexample): a string longer than `PACKET_SIZE` whose chunked
transfer does not reconstruct the original string: the receive loop errors
(`none`) because a two-byte character straddles the chunk boundary. -/
theorem c1_str_roundtrip_counterexample :
    PACKET_SIZE < c1CounterStr.length ∧
      getStrLoop (sendStr c1CounterStr) ≠ some c1CounterStr := by
  constructor
  · decide
  · decide

/-- C1 (amended): for every well-formed string longer than `PACKET_SIZE`
whose UTF-8 encoding splits at each `PACKET_SIZE`-byte chunk boundary on a
character boundary (witnessed by segments `init ++ [last]` of the string
whose encodings fill the chunks exactly), sending with
`send_formatted_message(conn, 'str', s)` and receiving with
`get_formatted_message(conn, 'str')` reconstructs `s` exactly. -/
theorem str_roundtrip_chunk_aligned (s : List Nat) (init : List (List Nat))
    (last : List Nat)
    (hs : s = (init ++ [last]).flatten)
    (hvalid : ∀ c ∈ s, ScalarValue c)
    (hlong : PACKET_SIZE < s.length)
    (hinit : ∀ t ∈ init, (utf8Encode t).length = PACKET_SIZE)
    (hlast1 : 0 < (utf8Encode last).length)
    (hlast2 : (utf8Encode last).length ≤ PACKET_SIZE) :
    getStrLoop (sendStr s) = some s := by
  have hmem : ∀ t ∈ init ++ [last], ∀ c ∈ t, ScalarValue c := by
    intro t ht c hc
    exact hvalid c (by rw [hs]; exact List.mem_flatten.mpr ⟨t, ht, hc⟩)
  rw [sendStr, hs, utf8Encode_flatten, List.map_append, List.map_cons,
    List.map_nil]
  rw [sendStrChunks_segments (init.map utf8Encode) (utf8Encode last)
    (by intro t ht; obtain ⟨x, hx, rfl⟩ := List.mem_map.mp ht; exact hinit x hx)
    hlast1 hlast2]
  rw [List.map_map]
  have : ((fun t => (t, TRANSFER_CONTINUE)) ∘ utf8Encode)
      = fun t => (utf8Encode t, TRANSFER_CONTINUE) := rfl
  rw [this]
  rw [getStrLoop_encoded_segments init last
    (fun t ht => hmem t (by simp [ht])) (hmem last (by simp))]

/-- C1 (witness): the amended round trip at a concrete 257-character ASCII
string, aligned as one full 256-byte chunk plus one final byte. -/
theorem str_roundtrip_chunk_aligned_witness :
    PACKET_SIZE < (List.replicate 257 97 : List Nat).length ∧
      getStrLoop (sendStr (List.replicate 257 97)) =
        some (List.replicate 257 97) :=
  ⟨by decide,
   str_roundtrip_chunk_aligned (List.replicate 257 97) [List.replicate 256 97]
     [97] (by decide) (by decide) (by decide) (by decide) (by decide)
     (by decide)⟩

/-! ## Claim C3: a truncated transfer never yields a string -/

theorem getStrLoop_no_done (w : List (List Nat × List Nat))
    (h : ∀ p ∈ w, p.2 ≠ TRANSFER_DONE) : getStrLoop w = none := by
  induction w with
  | nil => rfl
  | cons p rest ih =>
    obtain ⟨chunk, tok⟩ := p
    have htok : tok ≠ TRANSFER_DONE := h (chunk, tok) (by simp)
    rcases hd : utf8Decode chunk with _ | piece
    · simp only [getStrLoop, hd]
    · simp only [getStrLoop, hd, if_neg htok]
      rw [ih (fun q hq => h q (by simp [hq]))]
      rfl

theorem sendStrChunks_proper_prefix_tokens :
    ∀ msg w rest, sendStrChunks msg = w ++ rest → rest ≠ [] →
      ∀ p ∈ w, p.2 = TRANSFER_CONTINUE := by
  have hp := PACKET_SIZE_pos
  suffices H : ∀ n, ∀ msg : List Nat, msg.length ≤ n →
      ∀ w rest, sendStrChunks msg = w ++ rest → rest ≠ [] →
        ∀ p ∈ w, p.2 = TRANSFER_CONTINUE by
    intro msg
    exact H msg.length msg le_rfl
  intro n
  induction n with
  | zero =>
    intro msg hlen w rest heq hrest p hpw
    rw [sendStrChunks_short msg (by omega)] at heq
    match w with
    | [] => simp at hpw
    | q :: w2 =>
      rw [List.cons_append] at heq
      injection heq with h1 h2
      have : rest = [] := by
        have := congrArg List.length h2
        simp at this
        exact List.length_eq_zero.mp (by omega)
      exact absurd this hrest
  | succ n ih =>
    intro msg hlen w rest heq hrest p hpw
    by_cases hl : PACKET_SIZE < msg.length
    · rw [sendStrChunks_long msg hl] at heq
      match w with
      | [] => simp at hpw
      | q :: w2 =>
        rw [List.cons_append] at heq
        injection heq with h1 h2
        rcases List.mem_cons.mp hpw with rfl | hp2
        · rw [← h1]
        · exact ih (msg.drop PACKET_SIZE)
            (by simp only [List.length_drop]; omega) w2 rest h2 hrest p hp2
    · rw [sendStrChunks_short msg hl] at heq
      match w with
      | [] => simp at hpw
      | q :: w2 =>
        rw [List.cons_append] at heq
        injection heq with h1 h2
        have : rest = [] := by
          have := congrArg List.length h2
          simp at this
          exact List.length_eq_zero.mp (by omega)
        exact absurd this hrest

/-- C3: if the connection drops mid-transfer — the receiver sees only a
proper prefix `w` of the sender's wire trace — then
`get_formatted_message(conn, 'str')` fails with a transport-level error
(`none`); it never returns a truncated string as a normal result. -/
theorem get_str_truncated_is_error (s : List Nat)
    (w rest : List (List Nat × List Nat))
    (hsplit : sendStr s = w ++ rest) (hrest : rest ≠ []) :
    getStrLoop w = none := by
  apply getStrLoop_no_done
  intro p hpw
  rw [sendStrChunks_proper_prefix_tokens (utf8Encode s) w rest hsplit hrest p hpw]
  decide

/-- C3 (witness): receiving only the first exchange of the transfer of a
300-character string yields an error, not a truncated string. -/
theorem get_str_truncated_is_error_witness :
    sendStr (List.replicate 300 97) =
        (sendStr (List.replicate 300 97)).take 1
          ++ (sendStr (List.replicate 300 97)).drop 1 ∧
      (sendStr (List.replicate 300 97)).drop 1 ≠ [] ∧
      getStrLoop ((sendStr (List.replicate 300 97)).take 1) = none :=
  ⟨(List.take_append_drop 1 _).symm, by decide,
   get_str_truncated_is_error (List.replicate 300 97) _ _
     (List.take_append_drop 1 _).symm (by decide)⟩

/-! ## Fixed-width codec (`struct.Struct(format).pack` / `.unpack`)

The non-`'str'`/`'dict'` path of `send_formatted_message` packs the values
with `struct.Struct(format)` and sends the fixed-size frame;
`get_formatted_message` receives `unpacker.size` bytes and unpacks them
(returning a tuple).  Modelled per format character:

* `'i'` — 4-byte two's-complement int (little-endian byte order; both ends
  run on the same host, so the byte order cancels in the round trip);
  `struct.pack` raises `struct.error` outside the int32 range, modelled as
  `none`.
* `'?'` — a single byte, nonzero decoding to `True`.
* `'f'` — IEEE binary32.  Python floats are dyadic rationals; they are
  modelled as mantissa/exponent pairs (`Dyadic`, value `m * 2^e`, ignoring
  signed zero, infinities and NaN, which no bridge payload produces).
  Packing rounds the value to binary32 (round to nearest, ties to even) —
  `round32` — and raises `OverflowError` (`none`) when the result does not
  fit; unpacking returns the stored binary32 value exactly. -/

/-- Result of `struct.pack('i', n)`. -/
def packInt32 (n : Int) : Option (List Nat) :=
  if -(2^31) ≤ n ∧ n < 2^31 then
    some [(n % 2^32).toNat % 256, (n % 2^32).toNat / 256 % 256,
          (n % 2^32).toNat / 65536 % 256, (n % 2^32).toNat / 16777216 % 256]
  else none

/-- Result of `struct.unpack('i', bs)` (`none` when the frame has the wrong
size, where Python raises `struct.error`). -/
def unpackInt32 (bs : List Nat) : Option Int :=
  match bs with
  | [b0, b1, b2, b3] =>
    some (if ((b0 + 256 * b1 + 65536 * b2 + 16777216 * b3 : Nat) : Int) < 2^31
          then ((b0 + 256 * b1 + 65536 * b2 + 16777216 * b3 : Nat) : Int)
          else ((b0 + 256 * b1 + 65536 * b2 + 16777216 * b3 : Nat) : Int) - 2^32)
  | _ => none

/-- Result of `struct.pack('?', v)`. -/
def packBool (v : Bool) : List Nat := [if v then 1 else 0]

/-- Result of `struct.unpack('?', bs)`. -/
def unpackBool (bs : List Nat) : Option Bool :=
  match bs with
  | [b] => some (b != 0)
  | _ => none

/-- A dyadic rational `m * 2^e`: the exact value of a Python float. -/
structure Dyadic where
  m : Int
  e : Int
deriving DecidableEq

/-- Exact rational value of a dyadic. -/
def Dyadic.toRat (d : Dyadic) : ℚ := (d.m : ℚ) * (2 : ℚ) ^ d.e

/-- Fuel-indexed bit length; `bitlen` supplies the number itself as fuel. -/
def bitlenFuel : Nat → Nat → Nat
  | 0, _ => 0
  | fuel + 1, n => if n = 0 then 0 else bitlenFuel fuel (n / 2) + 1

/-- Number of binary digits of a natural number. -/
def bitlen (n : Nat) : Nat := bitlenFuel n n

/-- Round a dyadic value to IEEE binary32 (round to nearest, ties to even);
`none` models the `OverflowError` of `struct.pack('f', v)` when `|v|` rounds
to at least `2^128`. -/
def round32 (d : Dyadic) : Option Dyadic :=
  if d.m = 0 then some ⟨0, 0⟩
  else
    let a := d.m.natAbs
    let L := bitlen a
    let E : Int := (L : Int) - 1 + d.e
    let t : Int := if -126 ≤ E then E - 23 else -149
    let shift : Int := d.e - t
    let mr : Nat :=
      if 0 ≤ shift then a * 2 ^ shift.toNat
      else
        let k := (-shift).toNat
        let q := a / 2 ^ k
        let r := a % 2 ^ k
        let half := 2 ^ (k - 1)
        if half < r ∨ (r = half ∧ q % 2 = 1) then q + 1 else q
    if 128 < (bitlen mr : Int) + t then none
    else some ⟨if d.m < 0 then -(mr : Int) else (mr : Int), t⟩

/-- Value-level frame of `struct.pack('f', v)`: the binary32 value stored in
the four bytes. -/
def packFloat32 (d : Dyadic) : Option Dyadic := round32 d

/-- `struct.unpack('f', frame)` returns the stored binary32 value exactly
(as a Python double). -/
def unpackFloat32 (d : Dyadic) : Dyadic := d

/-- Round a dyadic value to IEEE binary64 (round to nearest, ties to even);
`none` on overflow to `2^1024`.  The values a Python float can hold are
exactly the fixed points `round64 d = some d` (plus the specials), and the
fixed-point form is canonical: one dyadic per double, mantissa aligned at
the unit in the last place. -/
def round64 (d : Dyadic) : Option Dyadic :=
  if d.m = 0 then some ⟨0, 0⟩
  else
    let a := d.m.natAbs
    let L := bitlen a
    let E : Int := (L : Int) - 1 + d.e
    let t : Int := if -1022 ≤ E then E - 52 else -1074
    let shift : Int := d.e - t
    let mr : Nat :=
      if 0 ≤ shift then a * 2 ^ shift.toNat
      else
        let k := (-shift).toNat
        let q := a / 2 ^ k
        let r := a % 2 ^ k
        let half := 2 ^ (k - 1)
        if half < r ∨ (r = half ∧ q % 2 = 1) then q + 1 else q
    if 1024 < (bitlen mr : Int) + t then none
    else some ⟨if d.m < 0 then -(mr : Int) else (mr : Int), t⟩

/-- A Python float as carried by the JSON layer of the dict path: a finite
binary64 value (canonical dyadic), an infinity, or a NaN (signed zero
collapses to zero). -/
inductive JFloat where
  | finite (d : Dyadic)
  | inf
  | ninf
  | nan
deriving DecidableEq

/-- Round-half-even of `N / D` for `D > 0`. -/
def rheDiv (N D : Nat) : Nat :=
  let q := N / D
  let r := N % D
  if D < 2 * r ∨ (2 * r = D ∧ q % 2 = 1) then q + 1 else q

/-- Round `num / den` at unit-in-the-last-place exponent `t`: round half to
even, renormalise a mantissa carry, `none` past the binary64 range. -/
def roundWithT (num den : Nat) (t : Int) : Option (Nat × Int) :=
  let mr0 : Nat :=
    if 0 ≤ t then rheDiv num (den * 2 ^ t.toNat)
    else rheDiv (num * 2 ^ (-t).toNat) den
  let mr : Nat := if mr0 = 2 ^ 53 then 2 ^ 52 else mr0
  let t2 : Int := if mr0 = 2 ^ 53 then t + 1 else t
  if 1024 < (bitlen mr : Int) + t2 then none else some (mr, t2)

/-- Correctly-rounded conversion of the positive rational `num / den` to
binary64, as (mantissa, exponent of the unit in the last place); `none` on
overflow.  Models the conversion CPython's `float()` applies to a decimal
literal. -/
def roundPosRat64 (num den : Nat) : Option (Nat × Int) :=
  let s : Int := (bitlen num : Int) - bitlen den
  let E : Int :=
    if 0 ≤ s then (if den * 2 ^ s.toNat ≤ num then s else s - 1)
    else (if den ≤ num * 2 ^ (-s).toNat then s else s - 1)
  roundWithT num den (if -1022 ≤ E then E - 52 else -1074)

/-- `float()` on a decoded decimal literal `±mant * 10^e10`: correctly
rounded to binary64, overflowing to the infinities, zero canonicalised. -/
def decToFloat (neg : Bool) (mant : Nat) (e10 : Int) : JFloat :=
  if mant = 0 then .finite ⟨0, 0⟩
  else
    let num := if 0 ≤ e10 then mant * 10 ^ e10.toNat else mant
    let den := if 0 ≤ e10 then 1 else 10 ^ (-e10).toNat
    match roundPosRat64 num den with
    | none => if neg then .ninf else .inf
    | some (mr, t) =>
      if mr = 0 then .finite ⟨0, 0⟩
      else .finite ⟨if neg then -(mr : Int) else (mr : Int), t⟩

theorem dyadic_toRat_eq_iff (m1 m2 e1 e2 : Int) (h : e1 ≤ e2) :
    Dyadic.toRat ⟨m1, e1⟩ = Dyadic.toRat ⟨m2, e2⟩ ↔
      m1 = m2 * 2 ^ (e2 - e1).toNat := by
  have h2 : ((2:ℚ) ^ e1) ≠ 0 := zpow_ne_zero _ (by norm_num)
  set k := (e2 - e1).toNat with hk
  have he : e2 = e1 + (k : ℤ) := by omega
  unfold Dyadic.toRat
  rw [he, zpow_add₀ (by norm_num : (2:ℚ) ≠ 0), zpow_natCast]
  constructor
  · intro hEq
    have hEq2 : (m1 : ℚ) = m2 * 2 ^ k := by
      apply mul_right_cancel₀ h2
      rw [hEq]; ring
    exact_mod_cast hEq2
  · intro hEq
    have hEq2 : (m1 : ℚ) = ((m2 * 2 ^ k : Int) : ℚ) := by exact_mod_cast hEq
    rw [hEq2]
    push_cast
    ring

/-- C9: round trip of the fixed-width formats, as amended: `'i'` round-trips
on the int32 range, `'?'` always, `'f'` exactly when the value is already
representable in binary32 (rounding does not change it). -/
theorem fixed_width_roundtrip :
    (∀ n : Int, -(2^31) ≤ n → n < 2^31 → (packInt32 n).bind unpackInt32 = some n)
    ∧ (∀ v : Bool, unpackBool (packBool v) = some v)
    ∧ (∀ d : Dyadic, (round32 d).map Dyadic.toRat = some d.toRat →
        (packFloat32 d).map (fun x => (unpackFloat32 x).toRat) = some d.toRat) := by
  refine ⟨?_, ?_, ?_⟩
  · intro n h1 h2
    rw [packInt32, if_pos ⟨h1, h2⟩]
    simp only [Option.bind, unpackInt32, Option.some.injEq]
    split_ifs with h3 <;> omega
  · intro v
    cases v <;> rfl
  · intro d h
    exact h

/-- C9 counterexample: the claim fails as universally stated.  `2^31` is a
Python int but `struct.pack('i', 2**31)` raises; the double `0.1` (exact
value `3602879701896397 * 2^-55`) is quantised by the `'f'` transit to
`13421773 * 2^-27`, a different value. -/
theorem fixed_width_roundtrip_counterexample :
    packInt32 (2^31) = none
    ∧ (round32 ⟨3602879701896397, -55⟩).map Dyadic.toRat
        ≠ some (Dyadic.toRat ⟨3602879701896397, -55⟩) := by
  constructor
  · decide
  · have h1 : round32 ⟨3602879701896397, -55⟩ = some ⟨13421773, -27⟩ := by decide
    rw [h1]
    show some (Dyadic.toRat ⟨13421773, -27⟩)
        ≠ some (Dyadic.toRat ⟨3602879701896397, -55⟩)
    intro h
    have h2 := Option.some.inj h
    have h3 := (dyadic_toRat_eq_iff 3602879701896397 13421773 (-55) (-27)
      (by omega)).mp h2.symm
    rw [show ((-27 : Int) - -55).toNat = 28 from rfl] at h3
    norm_num at h3

/-- C9 (witness): round trips at `n = -7`, `v = true`, `d = 1.5`
(binary32-representable). -/
theorem fixed_width_roundtrip_witness :
    (packInt32 (-7)).bind unpackInt32 = some (-7)
    ∧ unpackBool (packBool true) = some true
    ∧ (packFloat32 ⟨3, -1⟩).map (fun x => (unpackFloat32 x).toRat)
        = some (Dyadic.toRat ⟨3, -1⟩) := by
  refine ⟨fixed_width_roundtrip.1 (-7) (by decide) (by decide),
    fixed_width_roundtrip.2.1 true,
    fixed_width_roundtrip.2.2 ⟨3, -1⟩ ?_⟩
  have h1 : round32 ⟨3, -1⟩ = some ⟨12582912, -23⟩ := by decide
  rw [h1]
  show some (Dyadic.toRat ⟨12582912, -23⟩) = some (Dyadic.toRat ⟨3, -1⟩)
  exact congrArg some ((dyadic_toRat_eq_iff 12582912 3 (-23) (-1)
    (by omega)).mpr (by rw [show ((-1 : Int) - -23).toNat = 22 from rfl]; norm_num))

/-! ## Value-level model of the server command loop (`run.py`)

`simulation_step(s)` loops: send a ready `STATRESP`, receive a command
opcode, dispatch on it (each known branch sends an acknowledging `STATRESP`,
optionally reads a typed payload — or a filler `STATRESP` when there is
none — executes Aimsun API calls, and optionally sends a typed response);
the loop exits when `step_done` is set.

The model works at the level of already-decoded messages (the byte-level
codecs are modelled separately above): the inbound direction is a list of
`InMsg` items consumed in order, the outbound direction a list of `OutMsg`,
and the Aimsun API is an oracle `Sim` whose effectful calls are recorded as
a `SimCall` trace.  Python floats are carried as exact rationals here.
A payload of the wrong shape makes the Python code raise out of
`simulation_step` (struct/KeyError); this is the `err` flag.  An exhausted
inbound list models a peer that sends nothing more (the loop blocks). -/

/-- A JSON-like value as produced by `json.loads` (numbers restricted to
integers; strings are code-point lists). -/
inductive JVal where
  | null
  | bool (b : Bool)
  | int (n : Int)
  | float (f : JFloat)
  | str (s : List Nat)
  | arr (elems : List JVal)
  | obj (members : List ((List Nat) × JVal))

/-- Python `d[key]` on a string-keyed dict, as an association-list lookup. -/
def jlookup : List ((List Nat) × JVal) → List Nat → Option JVal
  | [], _ => none
  | (k, v) :: rest, key => if k = key then some v else jlookup rest key

/-- Python truthiness of a JSON value (`if tracked:` and `keys or
valid_keys` in the handler). -/
def jtruthy : JVal → Bool
  | .null => false
  | .bool b => b
  | .int n => n != 0
  | .float (.finite d) => d.m != 0
  | .float _ => true
  | .str s => s != []
  | .arr l => !l.isEmpty
  | .obj l => !l.isEmpty

/-- A fixed-width scalar travelling through a `struct`-packed frame. -/
inductive Scalar where
  | i (n : Int)
  | f (q : ℚ)
  | b (v : Bool)

/-- A decoded formatted message (argument/result of
`send_formatted_message` / `get_formatted_message`). -/
inductive Msg where
  | sc (vals : List Scalar)
  | str (s : List Nat)
  | dict (d : List ((List Nat) × JVal))

/-- One inbound item consumed by an iteration of the server loop. -/
inductive InMsg where
  | cmd (c : Nat)
  | pay (m : Msg)
  | ack

/-- One outbound item produced by the server loop. -/
inductive OutMsg where
  | statresp
  | msg (m : Msg)

/-- An effectful Aimsun API call made by a handler branch. -/
inductive SimCall where
  | putVehTrafficFlow (edge lane typeId : Int) (pos speed : ℚ)
      (nextSection : Int) (tracking : Bool)
  | vehTrackedRemove (veh : Int)
  | vehTrackedModifySpeed (veh : Int) (speed : ℚ)
  | vehTrackedModifyLane (veh target : Int)
  | vehSetAsTracked (veh : Int)
  | vehSetAsNoTracked (veh : Int)
  | changeStateMetering (meter state : Int)
  | setSimulationOrder (code : Int)

/-- Oracle for the query side of the Aimsun API (`AKI…`/`ECI…` getters and
the catalog lookups).  The `…InfDict` fields return the result of
`aimsun_struct.to_dict` on the fetched struct, with `none` for the
`(RuntimeError, KeyError)` case of the `try` in the handler. -/
structure Sim where
  findSectionByName : List Nat → Option Int
  putVehTrafficFlow : Int → Int → Int → ℚ → ℚ → Int → Bool → Int
  vehTypeInternalPos : List Nat → Int
  staticInfDict : Int → Bool → Option JVal → Option (List ((List Nat) × JVal))
  dynamicInfDict : Int → Bool → Option JVal → Option (List ((List Nat) × JVal))
  accInfDict : Int → Bool → Option JVal → Option (List ((List Nat) × JVal))
  leaderId : Int → Int
  followerId : Int → Int
  nextSectionOf : Int → Int → Int
  typeNameOf : Int → List Nat
  vehLength : Int → ℚ
  numMeterings : Nat
  meteringId : Nat → Int
  meteringStateOf : List Scalar → Int

/-- The module-level mutable state of `run.py`: the entered/exited vehicle
buffers and the `sim_reset` flag. -/
structure ServerState where
  entered : List Int
  exited : List Int
  simReset : Bool

/-- `AAPIEnterVehicle(idveh, idsection)`: append to the entered buffer. -/
def aapiEnterVehicle (idveh : Int) (st : ServerState) : ServerState :=
  { st with entered := st.entered ++ [idveh] }

/-- `AAPIExitVehicle(idveh, idsection)`: append to the exited buffer. -/
def aapiExitVehicle (idveh : Int) (st : ServerState) : ServerState :=
  { st with exited := st.exited ++ [idveh] }

/-- Server-side rendering of an id-list drain response:
`':'.join(str(veh) for veh in vehs)` when non-empty, else `'-1'`. -/
def idsOutput (ids : List Int) : List Nat :=
  if ids = [] then [45, 49]
  else [58].intercalate (ids.map intToDec)

/-- Client-side decoding of a drain response (`get_entered_ids` /
`get_exited_ids` in `api.py`): `[]` on `'-1'`, else split on `':'` and parse
each piece as an int. -/
def parseIdsOutput (s : List Nat) : List Int :=
  if s = [45, 49] then []
  else (s.splitOn 58).map parseDec

/-- Response of the `TL_GET_IDS` branch: metering ids `1..numMeterings`
joined with `':'`, or `'-1'` when there are none. -/
def tlIdsOutput (sim : Sim) : List Nat :=
  if sim.numMeterings = 0 then [45, 49]
  else [58].intercalate
    ((List.range sim.numMeterings).map (fun i => intToDec (sim.meteringId (i + 1))))

/-- The key strings of the `VEH_GET_STATIC`/`DYNAMIC`/`ACC` config dicts. -/
def vehIdKey : List Nat := [118, 101, 104, 95, 105, 100]
def trackedKey : List Nat := [116, 114, 97, 99, 107, 101, 100]
def keysKey : List Nat := [107, 101, 121, 115]
def reportKey : List Nat := [114, 101, 112, 111, 114, 116]

/-- Result of one handler branch: outbound items (after the per-iteration
ready token), recorded Aimsun calls, how many inbound items were consumed,
the new state, the `step_done` flag, and whether the branch raised. -/
structure HandleResult where
  out : List OutMsg
  calls : List SimCall
  consumed : Nat
  state : ServerState
  stepDone : Bool
  err : Bool

/-- An aborted iteration (exception out of `simulation_step`, or a blocked
read with nothing inbound). -/
def handleErr (out : List OutMsg) (st : ServerState) : HandleResult :=
  ⟨out, [], 0, st, false, true⟩

/-- The result of the `to_dict` call with its `try`/`except` fallback
`{'report': -1}`. -/
def infDictOut (r : Option (List ((List Nat) × JVal))) :
    List ((List Nat) × JVal) :=
  match r with
  | some d => d
  | none => [(reportKey, .int (-1))]

/-! Each branch of the `elif` chain of `simulation_step` is modelled by its
own definition; `handleCommand` is the chain itself. -/

/-- `SIMULATION_STEP` branch. -/
def stepBranch (inp : List InMsg) (st : ServerState) : HandleResult :=
  match inp with
  | _ :: _ => ⟨[.statresp], [], 1, st, true, false⟩
  | [] => handleErr [.statresp] st

/-- `SIMULATION_RESET` branch: sets `sim_reset` and issues simulation order 2
(rewind/restart the replication). -/
def resetBranch (inp : List InMsg) (st : ServerState) : HandleResult :=
  match inp with
  | _ :: _ =>
    ⟨[.statresp], [.setSimulationOrder 2], 1,
      { st with simReset := true }, true, false⟩
  | [] => handleErr [.statresp] st

/-- `SIMULATION_TERMINATE` branch: issues simulation order 1 (cancel). -/
def terminateBranch (inp : List InMsg) (st : ServerState) : HandleResult :=
  match inp with
  | _ :: _ => ⟨[.statresp], [.setSimulationOrder 1], 1, st, true, false⟩
  | [] => handleErr [.statresp] st

/-- `GET_EDGE_NAME` branch: reads a `'str'` edge name, answers the catalog
id or `-1` in `'i'`. -/
def getEdgeNameBranch (sim : Sim) (inp : List InMsg) (st : ServerState) :
    HandleResult :=
  match inp with
  | .pay (.str e) :: _ =>
    ⟨[.statresp, .msg (.sc [.i (match sim.findSectionByName e with
        | some i => i
        | none => -1)])], [], 1, st, false, false⟩
  | _ => handleErr [.statresp] st

/-- `ADD_VEHICLE` branch: reads `'i i i f f i ?'` and calls
`AKIPutVehTrafficFlow(edge, lane+1, type_id, pos, speed, next_section,
tracking)`. -/
def addVehicleBranch (sim : Sim) (inp : List InMsg) (st : ServerState) :
    HandleResult :=
  match inp with
  | .pay (.sc [.i edge, .i lane, .i typeId, .f pos, .f speed,
      .i nextSec, .b tracking]) :: _ =>
    ⟨[.statresp, .msg (.sc [.i (sim.putVehTrafficFlow edge (lane + 1) typeId
        pos speed nextSec tracking)])],
      [.putVehTrafficFlow edge (lane + 1) typeId pos speed nextSec tracking],
      1, st, false, false⟩
  | _ => handleErr [.statresp] st

/-- `REMOVE_VEHICLE` branch. -/
def removeVehicleBranch (inp : List InMsg) (st : ServerState) : HandleResult :=
  match inp with
  | .pay (.sc [.i veh]) :: _ =>
    ⟨[.statresp, .msg (.sc [.i 0])], [.vehTrackedRemove veh], 1, st,
      false, false⟩
  | _ => handleErr [.statresp] st

/-- `VEH_SET_SPEED` branch: reads `'i f'` and calls
`AKIVehTrackedModifySpeed(veh_id, speed * 3.6)`. -/
def vehSetSpeedBranch (inp : List InMsg) (st : ServerState) : HandleResult :=
  match inp with
  | .pay (.sc [.i veh, .f speed]) :: _ =>
    ⟨[.statresp, .msg (.sc [.i 0])],
      [.vehTrackedModifySpeed veh (speed * 3.6)], 1, st, false, false⟩
  | _ => handleErr [.statresp] st

/-- `VEH_SET_LANE` branch. -/
def vehSetLaneBranch (inp : List InMsg) (st : ServerState) : HandleResult :=
  match inp with
  | .pay (.sc [.i veh, .i target]) :: _ =>
    ⟨[.statresp, .msg (.sc [.i 0])], [.vehTrackedModifyLane veh target],
      1, st, false, false⟩
  | _ => handleErr [.statresp] st

/-- `VEH_SET_ROUTE` branch (a TODO stub in the source: reads the filler
status response and answers 0). -/
def vehSetRouteBranch (inp : List InMsg) (st : ServerState) : HandleResult :=
  match inp with
  | _ :: _ => ⟨[.statresp, .msg (.sc [.i 0])], [], 1, st, false, false⟩
  | [] => handleErr [.statresp] st

/-- `VEH_SET_COLOR` branch (a TODO stub: reads `'i i i i'`, then another
status response, answers 0). -/
def vehSetColorBranch (inp : List InMsg) (st : ServerState) : HandleResult :=
  match inp with
  | .pay (.sc [.i _, .i _, .i _, .i _]) :: _ :: _ =>
    ⟨[.statresp, .msg (.sc [.i 0])], [], 2, st, false, false⟩
  | _ => handleErr [.statresp] st

/-- `VEH_GET_ENTERED_IDS` branch: renders and sends the entered buffer and
clears it. -/
def vehGetEnteredIdsBranch (inp : List InMsg) (st : ServerState) :
    HandleResult :=
  match inp with
  | _ :: _ =>
    ⟨[.statresp, .msg (.str (idsOutput st.entered))], [], 1,
      { st with entered := [] }, false, false⟩
  | [] => handleErr [.statresp] st

/-- `VEH_GET_EXITED_IDS` branch: renders and sends the exited buffer and
clears it. -/
def vehGetExitedIdsBranch (inp : List InMsg) (st : ServerState) :
    HandleResult :=
  match inp with
  | _ :: _ =>
    ⟨[.statresp, .msg (.str (idsOutput st.exited))], [], 1,
      { st with exited := [] }, false, false⟩
  | [] => handleErr [.statresp] st

/-- `VEH_GET_TYPE_ID` branch. -/
def vehGetTypeIdBranch (sim : Sim) (inp : List InMsg) (st : ServerState) :
    HandleResult :=
  match inp with
  | .pay (.str tid) :: _ =>
    ⟨[.statresp, .msg (.sc [.i (sim.vehTypeInternalPos tid)])], [], 1, st,
      false, false⟩
  | _ => handleErr [.statresp] st

/-- `VEH_GET_STATIC` branch: reads a `'dict'` config (`veh_id`, `tracked`,
`keys`), fetches the static info, and answers the `to_dict` result (or
`{'report': -1}` on failure) as a `'dict'`.  A missing `veh_id`/`tracked`
key raises (KeyError), aborting the loop. -/
def vehGetStaticBranch (sim : Sim) (inp : List InMsg) (st : ServerState) :
    HandleResult :=
  match inp with
  | .pay (.dict d) :: _ =>
    match jlookup d vehIdKey, jlookup d trackedKey with
    | some (.int veh), some tv =>
      ⟨[.statresp, .msg (.dict (infDictOut
          (sim.staticInfDict veh (jtruthy tv) (jlookup d keysKey))))],
        [], 1, st, false, false⟩
    | _, _ => handleErr [.statresp] st
  | _ => handleErr [.statresp] st

/-- `VEH_GET_DYNAMIC` branch (same shape as `VEH_GET_STATIC`). -/
def vehGetDynamicBranch (sim : Sim) (inp : List InMsg) (st : ServerState) :
    HandleResult :=
  match inp with
  | .pay (.dict d) :: _ =>
    match jlookup d vehIdKey, jlookup d trackedKey with
    | some (.int veh), some tv =>
      ⟨[.statresp, .msg (.dict (infDictOut
          (sim.dynamicInfDict veh (jtruthy tv) (jlookup d keysKey))))],
        [], 1, st, false, false⟩
    | _, _ => handleErr [.statresp] st
  | _ => handleErr [.statresp] st

/-- `VEH_GET_ACC` branch (same shape as `VEH_GET_STATIC`). -/
def vehGetAccBranch (sim : Sim) (inp : List InMsg) (st : ServerState) :
    HandleResult :=
  match inp with
  | .pay (.dict d) :: _ =>
    match jlookup d vehIdKey, jlookup d trackedKey with
    | some (.int veh), some tv =>
      ⟨[.statresp, .msg (.dict (infDictOut
          (sim.accInfDict veh (jtruthy tv) (jlookup d keysKey))))],
        [], 1, st, false, false⟩
    | _, _ => handleErr [.statresp] st
  | _ => handleErr [.statresp] st

/-- `VEH_GET_LEADER` branch. -/
def vehGetLeaderBranch (sim : Sim) (inp : List InMsg) (st : ServerState) :
    HandleResult :=
  match inp with
  | .pay (.sc [.i veh]) :: _ =>
    ⟨[.statresp, .msg (.sc [.i (sim.leaderId veh)])], [], 1, st,
      false, false⟩
  | _ => handleErr [.statresp] st

/-- `VEH_GET_FOLLOWER` branch. -/
def vehGetFollowerBranch (sim : Sim) (inp : List InMsg) (st : ServerState) :
    HandleResult :=
  match inp with
  | .pay (.sc [.i veh]) :: _ =>
    ⟨[.statresp, .msg (.sc [.i (sim.followerId veh)])], [], 1, st,
      false, false⟩
  | _ => handleErr [.statresp] st

/-- `VEH_GET_NEXT_SECTION` branch. -/
def vehGetNextSectionBranch (sim : Sim) (inp : List InMsg) (st : ServerState) :
    HandleResult :=
  match inp with
  | .pay (.sc [.i veh, .i sec]) :: _ =>
    ⟨[.statresp, .msg (.sc [.i (sim.nextSectionOf veh sec)])], [], 1, st,
      false, false⟩
  | _ => handleErr [.statresp] st

/-- `VEH_GET_ROUTE` branch (a TODO stub: only the acknowledgement is sent,
nothing is read and no response is produced). -/
def vehGetRouteBranch (st : ServerState) : HandleResult :=
  ⟨[.statresp], [], 0, st, false, false⟩

/-- `VEH_GET_TYPE_NAME` branch. -/
def vehGetTypeNameBranch (sim : Sim) (inp : List InMsg) (st : ServerState) :
    HandleResult :=
  match inp with
  | .pay (.sc [.i veh]) :: _ =>
    ⟨[.statresp, .msg (.str (sim.typeNameOf veh))], [], 1, st,
      false, false⟩
  | _ => handleErr [.statresp] st

/-- `VEH_GET_LENGTH` branch. -/
def vehGetLengthBranch (sim : Sim) (inp : List InMsg) (st : ServerState) :
    HandleResult :=
  match inp with
  | .pay (.sc [.i veh]) :: _ =>
    ⟨[.statresp, .msg (.sc [.f (sim.vehLength veh)])], [], 1, st,
      false, false⟩
  | _ => handleErr [.statresp] st

/-- `VEH_SET_TRACKED` branch. -/
def vehSetTrackedBranch (inp : List InMsg) (st : ServerState) : HandleResult :=
  match inp with
  | .pay (.sc [.i veh]) :: _ =>
    ⟨[.statresp, .msg (.sc [.i 0])], [.vehSetAsTracked veh], 1, st,
      false, false⟩
  | _ => handleErr [.statresp] st

/-- `VEH_SET_NO_TRACKED` branch. -/
def vehSetNoTrackedBranch (inp : List InMsg) (st : ServerState) :
    HandleResult :=
  match inp with
  | .pay (.sc [.i veh]) :: _ =>
    ⟨[.statresp, .msg (.sc [.i 0])], [.vehSetAsNoTracked veh], 1, st,
      false, false⟩
  | _ => handleErr [.statresp] st

/-- `TL_GET_IDS` branch. -/
def tlGetIdsBranch (sim : Sim) (inp : List InMsg) (st : ServerState) :
    HandleResult :=
  match inp with
  | _ :: _ =>
    ⟨[.statresp, .msg (.str (tlIdsOutput sim))], [], 1, st, false, false⟩
  | [] => handleErr [.statresp] st

/-- `TL_SET_STATE` branch: reads `'i i i'` and calls
`ECIChangeStateMeteringById(meter_aimsun_id, state, …)`. -/
def tlSetStateBranch (inp : List InMsg) (st : ServerState) : HandleResult :=
  match inp with
  | .pay (.sc [.i meter, .i _, .i state]) :: _ =>
    ⟨[.statresp, .msg (.sc [.i 0])], [.changeStateMetering meter state],
      1, st, false, false⟩
  | _ => handleErr [.statresp] st

/-- `TL_GET_STATE` branch.  The source forgets to unpack the 1-tuple
returned by `get_formatted_message(s, 'i')` and passes the tuple on; the
oracle therefore takes the whole scalar tuple. -/
def tlGetStateBranch (sim : Sim) (inp : List InMsg) (st : ServerState) :
    HandleResult :=
  match inp with
  | .pay (.sc l) :: _ =>
    ⟨[.statresp, .msg (.sc [.i (sim.meteringStateOf l)])], [], 1, st,
      false, false⟩
  | _ => handleErr [.statresp] st

/-- Unknown-opcode branch: answer the sentinel `-1001` in `'i'` and keep
looping. -/
def unknownBranch (st : ServerState) : HandleResult :=
  ⟨[.msg (.sc [.i (-1001)])], [], 0, st, false, false⟩

/-- One iteration of the dispatch chain of `simulation_step` on a received
command `c`, mirroring the `elif` chain of `run.py` branch by branch. -/
def handleCommand (sim : Sim) (c : Nat) (inp : List InMsg) (st : ServerState) :
    HandleResult :=
  if c = SIMULATION_STEP then stepBranch inp st
  else if c = SIMULATION_RESET then resetBranch inp st
  else if c = SIMULATION_TERMINATE then terminateBranch inp st
  else if c = GET_EDGE_NAME then getEdgeNameBranch sim inp st
  else if c = ADD_VEHICLE then addVehicleBranch sim inp st
  else if c = REMOVE_VEHICLE then removeVehicleBranch inp st
  else if c = VEH_SET_SPEED then vehSetSpeedBranch inp st
  else if c = VEH_SET_LANE then vehSetLaneBranch inp st
  else if c = VEH_SET_ROUTE then vehSetRouteBranch inp st
  else if c = VEH_SET_COLOR then vehSetColorBranch inp st
  else if c = VEH_GET_ENTERED_IDS then vehGetEnteredIdsBranch inp st
  else if c = VEH_GET_EXITED_IDS then vehGetExitedIdsBranch inp st
  else if c = VEH_GET_TYPE_ID then vehGetTypeIdBranch sim inp st
  else if c = VEH_GET_STATIC then vehGetStaticBranch sim inp st
  else if c = VEH_GET_DYNAMIC then vehGetDynamicBranch sim inp st
  else if c = VEH_GET_ACC then vehGetAccBranch sim inp st
  else if c = VEH_GET_LEADER then vehGetLeaderBranch sim inp st
  else if c = VEH_GET_FOLLOWER then vehGetFollowerBranch sim inp st
  else if c = VEH_GET_NEXT_SECTION then vehGetNextSectionBranch sim inp st
  else if c = VEH_GET_ROUTE then vehGetRouteBranch st
  else if c = VEH_GET_TYPE_NAME then vehGetTypeNameBranch sim inp st
  else if c = VEH_GET_LENGTH then vehGetLengthBranch sim inp st
  else if c = VEH_SET_TRACKED then vehSetTrackedBranch inp st
  else if c = VEH_SET_NO_TRACKED then vehSetNoTrackedBranch inp st
  else if c = TL_GET_IDS then tlGetIdsBranch sim inp st
  else if c = TL_SET_STATE then tlSetStateBranch inp st
  else if c = TL_GET_STATE then tlGetStateBranch sim inp st
  else unknownBranch st

/-- Result of running the per-step command loop on an inbound list. -/
structure RunResult where
  out : List OutMsg
  calls : List SimCall
  state : ServerState

/-- The `while not step_done` loop of `simulation_step`: send the ready
token, read a command, dispatch; keep looping until a branch sets
`step_done` or raises.  An inbound item that is not a command makes
`int(command)` raise, aborting the loop. -/
def simulationStep (sim : Sim) : List InMsg → ServerState → RunResult
  | [], st => ⟨[.statresp], [], st⟩
  | .cmd c :: rest, st =>
    let r := handleCommand sim c rest st
    if r.err || r.stepDone then ⟨.statresp :: r.out, r.calls, r.state⟩
    else
      let rr := simulationStep sim (rest.drop r.consumed) r.state
      ⟨.statresp :: r.out ++ rr.out, r.calls ++ rr.calls, rr.state⟩
  | _ :: _, st => ⟨[.statresp], [], st⟩
  termination_by l => l.length
  decreasing_by
    simp only [List.length_drop, List.length_cons]
    omega

/-- A trivial Aimsun oracle instance, used to instantiate witnesses. -/
def simNull : Sim :=
  { findSectionByName := fun _ => none
    putVehTrafficFlow := fun _ _ _ _ _ _ _ => 0
    vehTypeInternalPos := fun _ => 0
    staticInfDict := fun _ _ _ => none
    dynamicInfDict := fun _ _ _ => none
    accInfDict := fun _ _ _ => none
    leaderId := fun _ => 0
    followerId := fun _ => 0
    nextSectionOf := fun _ _ => 0
    typeNameOf := fun _ => []
    vehLength := fun _ => 0
    numMeterings := 0
    meteringId := fun _ => 0
    meteringStateOf := fun _ => 0 }

theorem simulationStep_cons_cmd (sim : Sim) (c : Nat) (rest : List InMsg)
    (st : ServerState) :
    simulationStep sim (.cmd c :: rest) st =
      (let r := handleCommand sim c rest st
       if r.err || r.stepDone then ⟨.statresp :: r.out, r.calls, r.state⟩
       else
         let rr := simulationStep sim (rest.drop r.consumed) r.state
         ⟨.statresp :: r.out ++ rr.out, r.calls ++ rr.calls, rr.state⟩) := by
  rw [simulationStep]

theorem handleCommand_unknown (sim : Sim) (c : Nat) (inp : List InMsg)
    (st : ServerState) (h : c ∉ knownOpcodes) :
    handleCommand sim c inp st =
      ⟨[.msg (.sc [.i (-1001)])], [], 0, st, false, false⟩ := by
  simp only [knownOpcodes, List.mem_cons, List.not_mem_nil, or_false,
    not_or] at h
  obtain ⟨h1, h2, h3, h4, h5, h6, h7, h8, h9, h10, h11, h12, h13, h14, h15,
    h16, h17, h18, h19, h20, h21, h22, h23, h24, h25, h26, h27⟩ := h
  unfold handleCommand
  rw [if_neg h1, if_neg h2, if_neg h3, if_neg h4, if_neg h5, if_neg h6,
    if_neg h7, if_neg h8, if_neg h9, if_neg h10, if_neg h11, if_neg h12,
    if_neg h13, if_neg h14, if_neg h15, if_neg h16, if_neg h17, if_neg h18,
    if_neg h19, if_neg h20, if_neg h21, if_neg h22, if_neg h23, if_neg h24,
    if_neg h25, if_neg h26, if_neg h27]
  rfl

/-- C4: on an opcode outside the command table the dispatcher replies with
the sentinel `-1001` (as an `'i'` message), raises nothing, changes no
state, and the loop goes on to process the rest of the inbound commands
exactly as it would have without the unknown command. -/
theorem unknown_opcode_sentinel_and_live (sim : Sim) (c : Nat)
    (rest : List InMsg) (st : ServerState) (h : c ∉ knownOpcodes) :
    simulationStep sim (.cmd c :: rest) st =
      ⟨.statresp :: .msg (.sc [.i (-1001)]) :: (simulationStep sim rest st).out,
       (simulationStep sim rest st).calls,
       (simulationStep sim rest st).state⟩ := by
  rw [simulationStep_cons_cmd, handleCommand_unknown sim c rest st h]
  simp

/-- C4 (witness): opcode 1000 is unknown; the server answers `-1001` and the
following `VEH_GET_LEADER` command is processed normally. -/
theorem unknown_opcode_sentinel_and_live_witness :
    (1000 : Nat) ∉ knownOpcodes ∧
    simulationStep simNull
        [.cmd 1000, .cmd VEH_GET_LEADER, .pay (.sc [.i 5])] ⟨[], [], false⟩ =
      ⟨.statresp :: .msg (.sc [.i (-1001)]) ::
        (simulationStep simNull [.cmd VEH_GET_LEADER, .pay (.sc [.i 5])]
          ⟨[], [], false⟩).out,
       (simulationStep simNull [.cmd VEH_GET_LEADER, .pay (.sc [.i 5])]
          ⟨[], [], false⟩).calls,
       (simulationStep simNull [.cmd VEH_GET_LEADER, .pay (.sc [.i 5])]
          ⟨[], [], false⟩).state⟩ :=
  ⟨by decide,
   unknown_opcode_sentinel_and_live simNull 1000
     [.cmd VEH_GET_LEADER, .pay (.sc [.i 5])] ⟨[], [], false⟩ (by decide)⟩

theorem getEdgeNameBranch_stepDone (sim : Sim) (inp : List InMsg) (st : ServerState) :
    (getEdgeNameBranch sim inp st).stepDone = false := by
  unfold getEdgeNameBranch
  repeat' split
  all_goals rfl

theorem addVehicleBranch_stepDone (sim : Sim) (inp : List InMsg) (st : ServerState) :
    (addVehicleBranch sim inp st).stepDone = false := by
  unfold addVehicleBranch
  repeat' split
  all_goals rfl

theorem vehGetTypeIdBranch_stepDone (sim : Sim) (inp : List InMsg) (st : ServerState) :
    (vehGetTypeIdBranch sim inp st).stepDone = false := by
  unfold vehGetTypeIdBranch
  repeat' split
  all_goals rfl

theorem vehGetStaticBranch_stepDone (sim : Sim) (inp : List InMsg) (st : ServerState) :
    (vehGetStaticBranch sim inp st).stepDone = false := by
  unfold vehGetStaticBranch
  repeat' split
  all_goals rfl

theorem vehGetDynamicBranch_stepDone (sim : Sim) (inp : List InMsg) (st : ServerState) :
    (vehGetDynamicBranch sim inp st).stepDone = false := by
  unfold vehGetDynamicBranch
  repeat' split
  all_goals rfl

theorem vehGetAccBranch_stepDone (sim : Sim) (inp : List InMsg) (st : ServerState) :
    (vehGetAccBranch sim inp st).stepDone = false := by
  unfold vehGetAccBranch
  repeat' split
  all_goals rfl

theorem vehGetLeaderBranch_stepDone (sim : Sim) (inp : List InMsg) (st : ServerState) :
    (vehGetLeaderBranch sim inp st).stepDone = false := by
  unfold vehGetLeaderBranch
  repeat' split
  all_goals rfl

theorem vehGetFollowerBranch_stepDone (sim : Sim) (inp : List InMsg) (st : ServerState) :
    (vehGetFollowerBranch sim inp st).stepDone = false := by
  unfold vehGetFollowerBranch
  repeat' split
  all_goals rfl

theorem vehGetNextSectionBranch_stepDone (sim : Sim) (inp : List InMsg) (st : ServerState) :
    (vehGetNextSectionBranch sim inp st).stepDone = false := by
  unfold vehGetNextSectionBranch
  repeat' split
  all_goals rfl

theorem vehGetTypeNameBranch_stepDone (sim : Sim) (inp : List InMsg) (st : ServerState) :
    (vehGetTypeNameBranch sim inp st).stepDone = false := by
  unfold vehGetTypeNameBranch
  repeat' split
  all_goals rfl

theorem vehGetLengthBranch_stepDone (sim : Sim) (inp : List InMsg) (st : ServerState) :
    (vehGetLengthBranch sim inp st).stepDone = false := by
  unfold vehGetLengthBranch
  repeat' split
  all_goals rfl

theorem tlGetIdsBranch_stepDone (sim : Sim) (inp : List InMsg) (st : ServerState) :
    (tlGetIdsBranch sim inp st).stepDone = false := by
  unfold tlGetIdsBranch
  repeat' split
  all_goals rfl

theorem tlGetStateBranch_stepDone (sim : Sim) (inp : List InMsg) (st : ServerState) :
    (tlGetStateBranch sim inp st).stepDone = false := by
  unfold tlGetStateBranch
  repeat' split
  all_goals rfl

theorem removeVehicleBranch_stepDone (inp : List InMsg) (st : ServerState) :
    (removeVehicleBranch inp st).stepDone = false := by
  unfold removeVehicleBranch
  repeat' split
  all_goals rfl

theorem vehSetSpeedBranch_stepDone (inp : List InMsg) (st : ServerState) :
    (vehSetSpeedBranch inp st).stepDone = false := by
  unfold vehSetSpeedBranch
  repeat' split
  all_goals rfl

theorem vehSetLaneBranch_stepDone (inp : List InMsg) (st : ServerState) :
    (vehSetLaneBranch inp st).stepDone = false := by
  unfold vehSetLaneBranch
  repeat' split
  all_goals rfl

theorem vehSetRouteBranch_stepDone (inp : List InMsg) (st : ServerState) :
    (vehSetRouteBranch inp st).stepDone = false := by
  unfold vehSetRouteBranch
  repeat' split
  all_goals rfl

theorem vehSetColorBranch_stepDone (inp : List InMsg) (st : ServerState) :
    (vehSetColorBranch inp st).stepDone = false := by
  unfold vehSetColorBranch
  repeat' split
  all_goals rfl

theorem vehGetEnteredIdsBranch_stepDone (inp : List InMsg) (st : ServerState) :
    (vehGetEnteredIdsBranch inp st).stepDone = false := by
  unfold vehGetEnteredIdsBranch
  repeat' split
  all_goals rfl

theorem vehGetExitedIdsBranch_stepDone (inp : List InMsg) (st : ServerState) :
    (vehGetExitedIdsBranch inp st).stepDone = false := by
  unfold vehGetExitedIdsBranch
  repeat' split
  all_goals rfl

theorem vehSetTrackedBranch_stepDone (inp : List InMsg) (st : ServerState) :
    (vehSetTrackedBranch inp st).stepDone = false := by
  unfold vehSetTrackedBranch
  repeat' split
  all_goals rfl

theorem vehSetNoTrackedBranch_stepDone (inp : List InMsg) (st : ServerState) :
    (vehSetNoTrackedBranch inp st).stepDone = false := by
  unfold vehSetNoTrackedBranch
  repeat' split
  all_goals rfl

theorem tlSetStateBranch_stepDone (inp : List InMsg) (st : ServerState) :
    (tlSetStateBranch inp st).stepDone = false := by
  unfold tlSetStateBranch
  repeat' split
  all_goals rfl

theorem vehGetRouteBranch_stepDone (st : ServerState) :
    (vehGetRouteBranch st).stepDone = false := rfl

theorem unknownBranch_stepDone (st : ServerState) :
    (unknownBranch st).stepDone = false := rfl

theorem stepBranch_done (inp : List InMsg) (st : ServerState)
    (h : (stepBranch inp st).err = false) : (stepBranch inp st).stepDone = true := by
  cases inp with
  | nil => exact Bool.noConfusion h
  | cons i rest => rfl

theorem resetBranch_done (inp : List InMsg) (st : ServerState)
    (h : (resetBranch inp st).err = false) : (resetBranch inp st).stepDone = true := by
  cases inp with
  | nil => exact Bool.noConfusion h
  | cons i rest => rfl

theorem terminateBranch_done (inp : List InMsg) (st : ServerState)
    (h : (terminateBranch inp st).err = false) :
    (terminateBranch inp st).stepDone = true := by
  cases inp with
  | nil => exact Bool.noConfusion h
  | cons i rest => rfl

/-- C6: a normally-processed command sets `step_done` — making the per-step
command loop exit back to the simulator's scheduler — exactly when its
opcode is the step, terminate or reset opcode; every other opcode leaves
`step_done` unset so the loop waits for the next command. -/
theorem loop_exit_iff (sim : Sim) (c : Nat) (inp : List InMsg)
    (st : ServerState) (h : (handleCommand sim c inp st).err = false) :
    (handleCommand sim c inp st).stepDone = true ↔
      (c = SIMULATION_STEP ∨ c = SIMULATION_TERMINATE ∨ c = SIMULATION_RESET) := by
  rcases hH : handleCommand sim c inp st with ⟨out, calls, consumed, st2, sd, er⟩
  rw [hH] at h
  show sd = true ↔ _
  unfold handleCommand at hH
  by_cases e1 : c = SIMULATION_STEP
  · rw [if_pos e1] at hH
    have her : (stepBranch inp st).err = false := by rw [hH]; exact h
    have hsd := stepBranch_done inp st her
    rw [hH] at hsd
    exact ⟨fun _ => Or.inl e1, fun _ => hsd⟩
  rw [if_neg e1] at hH
  by_cases e2 : c = SIMULATION_RESET
  · rw [if_pos e2] at hH
    have her : (resetBranch inp st).err = false := by rw [hH]; exact h
    have hsd := resetBranch_done inp st her
    rw [hH] at hsd
    exact ⟨fun _ => Or.inr (Or.inr e2), fun _ => hsd⟩
  rw [if_neg e2] at hH
  by_cases e3 : c = SIMULATION_TERMINATE
  · rw [if_pos e3] at hH
    have her : (terminateBranch inp st).err = false := by rw [hH]; exact h
    have hsd := terminateBranch_done inp st her
    rw [hH] at hsd
    exact ⟨fun _ => Or.inr (Or.inl e3), fun _ => hsd⟩
  rw [if_neg e3] at hH
  by_cases e4 : c = GET_EDGE_NAME
  · rw [if_pos e4] at hH
    have hsd2 : sd = false := by
      have hsd := getEdgeNameBranch_stepDone sim inp st
      rw [hH] at hsd
      exact hsd
    refine ⟨fun ht => ?_, fun hc => ?_⟩
    · rw [hsd2] at ht; exact Bool.noConfusion ht
    · rcases hc with rfl | rfl | rfl
      · exact absurd rfl e1
      · exact absurd rfl e3
      · exact absurd rfl e2
  rw [if_neg e4] at hH
  by_cases e5 : c = ADD_VEHICLE
  · rw [if_pos e5] at hH
    have hsd2 : sd = false := by
      have hsd := addVehicleBranch_stepDone sim inp st
      rw [hH] at hsd
      exact hsd
    refine ⟨fun ht => ?_, fun hc => ?_⟩
    · rw [hsd2] at ht; exact Bool.noConfusion ht
    · rcases hc with rfl | rfl | rfl
      · exact absurd rfl e1
      · exact absurd rfl e3
      · exact absurd rfl e2
  rw [if_neg e5] at hH
  by_cases e6 : c = REMOVE_VEHICLE
  · rw [if_pos e6] at hH
    have hsd2 : sd = false := by
      have hsd := removeVehicleBranch_stepDone inp st
      rw [hH] at hsd
      exact hsd
    refine ⟨fun ht => ?_, fun hc => ?_⟩
    · rw [hsd2] at ht; exact Bool.noConfusion ht
    · rcases hc with rfl | rfl | rfl
      · exact absurd rfl e1
      · exact absurd rfl e3
      · exact absurd rfl e2
  rw [if_neg e6] at hH
  by_cases e7 : c = VEH_SET_SPEED
  · rw [if_pos e7] at hH
    have hsd2 : sd = false := by
      have hsd := vehSetSpeedBranch_stepDone inp st
      rw [hH] at hsd
      exact hsd
    refine ⟨fun ht => ?_, fun hc => ?_⟩
    · rw [hsd2] at ht; exact Bool.noConfusion ht
    · rcases hc with rfl | rfl | rfl
      · exact absurd rfl e1
      · exact absurd rfl e3
      · exact absurd rfl e2
  rw [if_neg e7] at hH
  by_cases e8 : c = VEH_SET_LANE
  · rw [if_pos e8] at hH
    have hsd2 : sd = false := by
      have hsd := vehSetLaneBranch_stepDone inp st
      rw [hH] at hsd
      exact hsd
    refine ⟨fun ht => ?_, fun hc => ?_⟩
    · rw [hsd2] at ht; exact Bool.noConfusion ht
    · rcases hc with rfl | rfl | rfl
      · exact absurd rfl e1
      · exact absurd rfl e3
      · exact absurd rfl e2
  rw [if_neg e8] at hH
  by_cases e9 : c = VEH_SET_ROUTE
  · rw [if_pos e9] at hH
    have hsd2 : sd = false := by
      have hsd := vehSetRouteBranch_stepDone inp st
      rw [hH] at hsd
      exact hsd
    refine ⟨fun ht => ?_, fun hc => ?_⟩
    · rw [hsd2] at ht; exact Bool.noConfusion ht
    · rcases hc with rfl | rfl | rfl
      · exact absurd rfl e1
      · exact absurd rfl e3
      · exact absurd rfl e2
  rw [if_neg e9] at hH
  by_cases e10 : c = VEH_SET_COLOR
  · rw [if_pos e10] at hH
    have hsd2 : sd = false := by
      have hsd := vehSetColorBranch_stepDone inp st
      rw [hH] at hsd
      exact hsd
    refine ⟨fun ht => ?_, fun hc => ?_⟩
    · rw [hsd2] at ht; exact Bool.noConfusion ht
    · rcases hc with rfl | rfl | rfl
      · exact absurd rfl e1
      · exact absurd rfl e3
      · exact absurd rfl e2
  rw [if_neg e10] at hH
  by_cases e11 : c = VEH_GET_ENTERED_IDS
  · rw [if_pos e11] at hH
    have hsd2 : sd = false := by
      have hsd := vehGetEnteredIdsBranch_stepDone inp st
      rw [hH] at hsd
      exact hsd
    refine ⟨fun ht => ?_, fun hc => ?_⟩
    · rw [hsd2] at ht; exact Bool.noConfusion ht
    · rcases hc with rfl | rfl | rfl
      · exact absurd rfl e1
      · exact absurd rfl e3
      · exact absurd rfl e2
  rw [if_neg e11] at hH
  by_cases e12 : c = VEH_GET_EXITED_IDS
  · rw [if_pos e12] at hH
    have hsd2 : sd = false := by
      have hsd := vehGetExitedIdsBranch_stepDone inp st
      rw [hH] at hsd
      exact hsd
    refine ⟨fun ht => ?_, fun hc => ?_⟩
    · rw [hsd2] at ht; exact Bool.noConfusion ht
    · rcases hc with rfl | rfl | rfl
      · exact absurd rfl e1
      · exact absurd rfl e3
      · exact absurd rfl e2
  rw [if_neg e12] at hH
  by_cases e13 : c = VEH_GET_TYPE_ID
  · rw [if_pos e13] at hH
    have hsd2 : sd = false := by
      have hsd := vehGetTypeIdBranch_stepDone sim inp st
      rw [hH] at hsd
      exact hsd
    refine ⟨fun ht => ?_, fun hc => ?_⟩
    · rw [hsd2] at ht; exact Bool.noConfusion ht
    · rcases hc with rfl | rfl | rfl
      · exact absurd rfl e1
      · exact absurd rfl e3
      · exact absurd rfl e2
  rw [if_neg e13] at hH
  by_cases e14 : c = VEH_GET_STATIC
  · rw [if_pos e14] at hH
    have hsd2 : sd = false := by
      have hsd := vehGetStaticBranch_stepDone sim inp st
      rw [hH] at hsd
      exact hsd
    refine ⟨fun ht => ?_, fun hc => ?_⟩
    · rw [hsd2] at ht; exact Bool.noConfusion ht
    · rcases hc with rfl | rfl | rfl
      · exact absurd rfl e1
      · exact absurd rfl e3
      · exact absurd rfl e2
  rw [if_neg e14] at hH
  by_cases e15 : c = VEH_GET_DYNAMIC
  · rw [if_pos e15] at hH
    have hsd2 : sd = false := by
      have hsd := vehGetDynamicBranch_stepDone sim inp st
      rw [hH] at hsd
      exact hsd
    refine ⟨fun ht => ?_, fun hc => ?_⟩
    · rw [hsd2] at ht; exact Bool.noConfusion ht
    · rcases hc with rfl | rfl | rfl
      · exact absurd rfl e1
      · exact absurd rfl e3
      · exact absurd rfl e2
  rw [if_neg e15] at hH
  by_cases e16 : c = VEH_GET_ACC
  · rw [if_pos e16] at hH
    have hsd2 : sd = false := by
      have hsd := vehGetAccBranch_stepDone sim inp st
      rw [hH] at hsd
      exact hsd
    refine ⟨fun ht => ?_, fun hc => ?_⟩
    · rw [hsd2] at ht; exact Bool.noConfusion ht
    · rcases hc with rfl | rfl | rfl
      · exact absurd rfl e1
      · exact absurd rfl e3
      · exact absurd rfl e2
  rw [if_neg e16] at hH
  by_cases e17 : c = VEH_GET_LEADER
  · rw [if_pos e17] at hH
    have hsd2 : sd = false := by
      have hsd := vehGetLeaderBranch_stepDone sim inp st
      rw [hH] at hsd
      exact hsd
    refine ⟨fun ht => ?_, fun hc => ?_⟩
    · rw [hsd2] at ht; exact Bool.noConfusion ht
    · rcases hc with rfl | rfl | rfl
      · exact absurd rfl e1
      · exact absurd rfl e3
      · exact absurd rfl e2
  rw [if_neg e17] at hH
  by_cases e18 : c = VEH_GET_FOLLOWER
  · rw [if_pos e18] at hH
    have hsd2 : sd = false := by
      have hsd := vehGetFollowerBranch_stepDone sim inp st
      rw [hH] at hsd
      exact hsd
    refine ⟨fun ht => ?_, fun hc => ?_⟩
    · rw [hsd2] at ht; exact Bool.noConfusion ht
    · rcases hc with rfl | rfl | rfl
      · exact absurd rfl e1
      · exact absurd rfl e3
      · exact absurd rfl e2
  rw [if_neg e18] at hH
  by_cases e19 : c = VEH_GET_NEXT_SECTION
  · rw [if_pos e19] at hH
    have hsd2 : sd = false := by
      have hsd := vehGetNextSectionBranch_stepDone sim inp st
      rw [hH] at hsd
      exact hsd
    refine ⟨fun ht => ?_, fun hc => ?_⟩
    · rw [hsd2] at ht; exact Bool.noConfusion ht
    · rcases hc with rfl | rfl | rfl
      · exact absurd rfl e1
      · exact absurd rfl e3
      · exact absurd rfl e2
  rw [if_neg e19] at hH
  by_cases e20 : c = VEH_GET_ROUTE
  · rw [if_pos e20] at hH
    have hsd2 : sd = false := by
      have hsd := vehGetRouteBranch_stepDone st
      rw [hH] at hsd
      exact hsd
    refine ⟨fun ht => ?_, fun hc => ?_⟩
    · rw [hsd2] at ht; exact Bool.noConfusion ht
    · rcases hc with rfl | rfl | rfl
      · exact absurd rfl e1
      · exact absurd rfl e3
      · exact absurd rfl e2
  rw [if_neg e20] at hH
  by_cases e21 : c = VEH_GET_TYPE_NAME
  · rw [if_pos e21] at hH
    have hsd2 : sd = false := by
      have hsd := vehGetTypeNameBranch_stepDone sim inp st
      rw [hH] at hsd
      exact hsd
    refine ⟨fun ht => ?_, fun hc => ?_⟩
    · rw [hsd2] at ht; exact Bool.noConfusion ht
    · rcases hc with rfl | rfl | rfl
      · exact absurd rfl e1
      · exact absurd rfl e3
      · exact absurd rfl e2
  rw [if_neg e21] at hH
  by_cases e22 : c = VEH_GET_LENGTH
  · rw [if_pos e22] at hH
    have hsd2 : sd = false := by
      have hsd := vehGetLengthBranch_stepDone sim inp st
      rw [hH] at hsd
      exact hsd
    refine ⟨fun ht => ?_, fun hc => ?_⟩
    · rw [hsd2] at ht; exact Bool.noConfusion ht
    · rcases hc with rfl | rfl | rfl
      · exact absurd rfl e1
      · exact absurd rfl e3
      · exact absurd rfl e2
  rw [if_neg e22] at hH
  by_cases e23 : c = VEH_SET_TRACKED
  · rw [if_pos e23] at hH
    have hsd2 : sd = false := by
      have hsd := vehSetTrackedBranch_stepDone inp st
      rw [hH] at hsd
      exact hsd
    refine ⟨fun ht => ?_, fun hc => ?_⟩
    · rw [hsd2] at ht; exact Bool.noConfusion ht
    · rcases hc with rfl | rfl | rfl
      · exact absurd rfl e1
      · exact absurd rfl e3
      · exact absurd rfl e2
  rw [if_neg e23] at hH
  by_cases e24 : c = VEH_SET_NO_TRACKED
  · rw [if_pos e24] at hH
    have hsd2 : sd = false := by
      have hsd := vehSetNoTrackedBranch_stepDone inp st
      rw [hH] at hsd
      exact hsd
    refine ⟨fun ht => ?_, fun hc => ?_⟩
    · rw [hsd2] at ht; exact Bool.noConfusion ht
    · rcases hc with rfl | rfl | rfl
      · exact absurd rfl e1
      · exact absurd rfl e3
      · exact absurd rfl e2
  rw [if_neg e24] at hH
  by_cases e25 : c = TL_GET_IDS
  · rw [if_pos e25] at hH
    have hsd2 : sd = false := by
      have hsd := tlGetIdsBranch_stepDone sim inp st
      rw [hH] at hsd
      exact hsd
    refine ⟨fun ht => ?_, fun hc => ?_⟩
    · rw [hsd2] at ht; exact Bool.noConfusion ht
    · rcases hc with rfl | rfl | rfl
      · exact absurd rfl e1
      · exact absurd rfl e3
      · exact absurd rfl e2
  rw [if_neg e25] at hH
  by_cases e26 : c = TL_SET_STATE
  · rw [if_pos e26] at hH
    have hsd2 : sd = false := by
      have hsd := tlSetStateBranch_stepDone inp st
      rw [hH] at hsd
      exact hsd
    refine ⟨fun ht => ?_, fun hc => ?_⟩
    · rw [hsd2] at ht; exact Bool.noConfusion ht
    · rcases hc with rfl | rfl | rfl
      · exact absurd rfl e1
      · exact absurd rfl e3
      · exact absurd rfl e2
  rw [if_neg e26] at hH
  by_cases e27 : c = TL_GET_STATE
  · rw [if_pos e27] at hH
    have hsd2 : sd = false := by
      have hsd := tlGetStateBranch_stepDone sim inp st
      rw [hH] at hsd
      exact hsd
    refine ⟨fun ht => ?_, fun hc => ?_⟩
    · rw [hsd2] at ht; exact Bool.noConfusion ht
    · rcases hc with rfl | rfl | rfl
      · exact absurd rfl e1
      · exact absurd rfl e3
      · exact absurd rfl e2
  rw [if_neg e27] at hH
  have hsd2 : sd = false := by
    have hsd := unknownBranch_stepDone st
    rw [hH] at hsd
    exact hsd
  refine ⟨fun ht => ?_, fun hc => ?_⟩
  · rw [hsd2] at ht; exact Bool.noConfusion ht
  · rcases hc with rfl | rfl | rfl
    · exact absurd rfl e1
    · exact absurd rfl e3
    · exact absurd rfl e2

/-- C6 (witness): at the step opcode with a well-formed inbound list the
branch does not raise and the loop exits. -/
theorem loop_exit_iff_witness :
    (handleCommand simNull SIMULATION_STEP [.ack] ⟨[], [], false⟩).err = false ∧
    ((handleCommand simNull SIMULATION_STEP [.ack] ⟨[], [], false⟩).stepDone = true ↔
      (SIMULATION_STEP = SIMULATION_STEP ∨ SIMULATION_STEP = SIMULATION_TERMINATE
        ∨ SIMULATION_STEP = SIMULATION_RESET)) :=
  ⟨rfl, loop_exit_iff simNull SIMULATION_STEP [.ack] ⟨[], [], false⟩ rfl⟩

/-- Payload sent by `WolfAimsunAPI.set_speed(veh_id, speed)`
(format `'i f'`). -/
def set_speed_payload (veh : Int) (speed : ℚ) : InMsg :=
  .pay (.sc [.i veh, .f speed])

/-- Payload sent by `WolfAimsunAPI.add_vehicle(edge, lane, type_id, pos,
speed, next_section, tracking)` (format `'i i i f f i ?'`). -/
def add_vehicle_payload (edge lane typeId : Int) (pos speed : ℚ)
    (nextSec : Int) (tracking : Bool) : InMsg :=
  .pay (.sc [.i edge, .i lane, .i typeId, .f pos, .f speed, .i nextSec,
    .b tracking])

/-- C10: the `VEH_SET_SPEED` handler commands the simulator with
`3.6 * v` — the silent m/s → km/h conversion — for the client's
`set_speed(veh, v)` payload, and the `ADD_VEHICLE` handler inserts the
vehicle into lane `lane + 1` for the client's `add_vehicle` payload. -/
theorem server_unit_conversions (sim : Sim) (st : ServerState) (veh : Int)
    (v : ℚ) (edge lane typeId : Int) (pos speed : ℚ) (nextSec : Int)
    (tracking : Bool) :
    (handleCommand sim VEH_SET_SPEED [set_speed_payload veh v] st).calls
        = [.vehTrackedModifySpeed veh (3.6 * v)]
    ∧ (handleCommand sim ADD_VEHICLE
          [add_vehicle_payload edge lane typeId pos speed nextSec tracking]
          st).calls
        = [.putVehTrafficFlow edge (lane + 1) typeId pos speed nextSec tracking] := by
  constructor
  · have hv : (handleCommand sim VEH_SET_SPEED [set_speed_payload veh v] st).calls
        = [.vehTrackedModifySpeed veh (v * 3.6)] := rfl
    rw [hv, mul_comm v 3.6]
  · rfl

/-! ## Claim C5: entered/exited vehicle drains -/

theorem mem_intToDec (n : Int) :
    ∀ d ∈ intToDec n, d = 45 ∨ (48 ≤ d ∧ d < 58) := by
  intro d hd
  rw [intToDec] at hd
  split_ifs at hd
  · rcases List.mem_cons.mp hd with rfl | hx
    · exact Or.inl rfl
    · exact Or.inr (natToDec_mem _ d hx)
  · exact Or.inr (natToDec_mem _ d hd)

theorem intToDec_ne_nil (n : Int) : intToDec n ≠ [] := by
  rw [intToDec]
  split_ifs
  · simp
  · exact natToDec_ne_nil _

/-- Round trip of the id-list rendering (`':'.join(str(veh) ...)` / `'-1'`)
through the client decoding (`split(':')` + `int`), for every id list other
than the singleton `[-1]`, whose rendering collides with the empty
sentinel. -/
theorem parse_idsOutput (ids : List Int) (h : ids ≠ [-1]) :
    parseIdsOutput (idsOutput ids) = ids := by
  by_cases hnil : ids = []
  · subst hnil
    rfl
  · rw [idsOutput, if_neg hnil]
    have hsp : (([58] : List Nat).intercalate (ids.map intToDec)).splitOn 58
        = ids.map intToDec := by
      apply List.splitOn_intercalate
      · intro l hl
        obtain ⟨n, _, rfl⟩ := List.mem_map.mp hl
        intro hmem
        rcases mem_intToDec n 58 hmem with h45 | hdig <;> omega
      · simp [hnil]
    have hparse : (ids.map intToDec).map parseDec = ids := by
      rw [List.map_map]
      have : parseDec ∘ intToDec = id := funext parseDec_intToDec
      rw [this, List.map_id]
    rw [parseIdsOutput]
    by_cases heq : ([58] : List Nat).intercalate (ids.map intToDec) = [45, 49]
    · exfalso
      rw [heq] at hsp
      have h49 : (([45, 49] : List Nat)).splitOn 58 = [[45, 49]] := by decide
      rw [h49] at hsp
      have : ids = [-1] := by
        have := congrArg (List.map parseDec) hsp
        rw [hparse] at this
        simp at this
        rw [← this]
        decide
      exact h this
    · rw [if_neg heq, hsp, hparse]

theorem foldl_enter (es : List Int) (st : ServerState) :
    es.foldl (fun s v => aapiEnterVehicle v s) st
      = { st with entered := st.entered ++ es } := by
  induction es generalizing st with
  | nil => simp
  | cons e es ih =>
    rw [List.foldl_cons, ih]
    simp [aapiEnterVehicle]

theorem foldl_exit (fs : List Int) (st : ServerState) :
    fs.foldl (fun s v => aapiExitVehicle v s) st
      = { st with exited := st.exited ++ fs } := by
  induction fs generalizing st with
  | nil => simp
  | cons e fs ih =>
    rw [List.foldl_cons, ih]
    simp [aapiExitVehicle]

/-- C5: after the enter/exit callbacks have recorded the event sequences
`es` and `fs` since the last drain (buffers empty at the start), the
`VEH_GET_ENTERED_IDS` drain answers exactly `es` — as decoded by the
client's `get_entered_ids` — and leaves the entered buffer empty; likewise
for `VEH_GET_EXITED_IDS` and `fs`.  Amended with the side condition that
the recorded sequence is not the singleton `[-1]`, whose rendering collides
with the empty sentinel `'-1'`. -/
theorem entered_exited_drain (sim : Sim) (st0 : ServerState) (es fs : List Int)
    (h0 : st0.entered = []) (h1 : st0.exited = [])
    (hes : es ≠ [-1]) (hfs : fs ≠ [-1]) :
    (parseIdsOutput (idsOutput
        ((fs.foldl (fun s v => aapiExitVehicle v s)
          (es.foldl (fun s v => aapiEnterVehicle v s) st0)).entered)) = es
      ∧ (handleCommand sim VEH_GET_ENTERED_IDS [.ack]
          (fs.foldl (fun s v => aapiExitVehicle v s)
            (es.foldl (fun s v => aapiEnterVehicle v s) st0))).out
        = [.statresp, .msg (.str (idsOutput es))]
      ∧ (handleCommand sim VEH_GET_ENTERED_IDS [.ack]
          (fs.foldl (fun s v => aapiExitVehicle v s)
            (es.foldl (fun s v => aapiEnterVehicle v s) st0))).state.entered
        = [])
    ∧ (parseIdsOutput (idsOutput
        ((fs.foldl (fun s v => aapiExitVehicle v s)
          (es.foldl (fun s v => aapiEnterVehicle v s) st0)).exited)) = fs
      ∧ (handleCommand sim VEH_GET_EXITED_IDS [.ack]
          (fs.foldl (fun s v => aapiExitVehicle v s)
            (es.foldl (fun s v => aapiEnterVehicle v s) st0))).out
        = [.statresp, .msg (.str (idsOutput fs))]
      ∧ (handleCommand sim VEH_GET_EXITED_IDS [.ack]
          (fs.foldl (fun s v => aapiExitVehicle v s)
            (es.foldl (fun s v => aapiEnterVehicle v s) st0))).state.exited
        = []) := by
  have hst : fs.foldl (fun s v => aapiExitVehicle v s)
      (es.foldl (fun s v => aapiEnterVehicle v s) st0)
      = { st0 with entered := st0.entered ++ es, exited := st0.exited ++ fs } := by
    rw [foldl_enter, foldl_exit]
  rw [hst, h0, h1]
  simp only [List.nil_append]
  refine ⟨⟨parse_idsOutput es hes, rfl, rfl⟩,
    ⟨parse_idsOutput fs hfs, rfl, rfl⟩⟩

/-- C5 counterexample: a single entered-vehicle event with id `-1` renders
as `'-1'`, which the client decodes as the empty list: the drain does not
return the recorded ids. -/
theorem entered_drain_counterexample :
    (handleCommand simNull VEH_GET_ENTERED_IDS [.ack]
        (aapiEnterVehicle (-1) ⟨[], [], false⟩)).out
      = [.statresp, .msg (.str (idsOutput [-1]))]
    ∧ parseIdsOutput (idsOutput [-1]) = []
    ∧ ([] : List Int) ≠ [-1] :=
  ⟨rfl, by decide, by decide⟩

/-- C5 (witness): events `[7, -3]` (entered) and `[]` (exited) drain back
exactly, and both buffers are empty afterwards. -/
theorem entered_exited_drain_witness :
    (⟨[], [], false⟩ : ServerState).entered = [] ∧
    (⟨[], [], false⟩ : ServerState).exited = [] ∧
    ([7, -3] : List Int) ≠ [-1] ∧ ([] : List Int) ≠ [-1] ∧
    (parseIdsOutput (idsOutput
        ((([] : List Int).foldl (fun s v => aapiExitVehicle v s)
          (([7, -3] : List Int).foldl (fun s v => aapiEnterVehicle v s)
            ⟨[], [], false⟩)).entered)) = [7, -3]
      ∧ (handleCommand simNull VEH_GET_ENTERED_IDS [.ack]
          (([] : List Int).foldl (fun s v => aapiExitVehicle v s)
            (([7, -3] : List Int).foldl (fun s v => aapiEnterVehicle v s)
              ⟨[], [], false⟩))).state.entered
        = []) :=
  ⟨rfl, rfl, by decide, by decide,
    ((entered_exited_drain simNull ⟨[], [], false⟩ [7, -3] [] rfl rfl
      (by decide) (by decide)).1).imp id (fun h => h.2)⟩

/-! ## Claim C2: client and server per-opcode wire formats

The client declares a fixed `(in_format, out_format)` pair at each
`_send_command` call site in `api.py`; the server uses the format arguments
of its `get_formatted_message`/`send_formatted_message` calls in the
matching branch of `run.py`.  Both are tabulated verbatim; `none` at the
opcode level means no fixed-format sender (client) or no handler branch
(server); `none` inside a pair means no payload (a bare status response) in
that direction. -/

/-- Formats declared by `WolfAimsunAPI` in `api.py`.  `VEH_SET_ROUTE`,
`VEH_SET_COLOR` and `VEH_GET_ROUTE` raise `NotImplementedError` before
sending, and `VEH_GET_TRACKING` builds its output format dynamically from
the bitmap, so they have no fixed table entry. -/
def clientFormats (c : Nat) : Option ((Option String) × (Option String)) :=
  if c = SIMULATION_STEP then some (none, none)
  else if c = SIMULATION_RESET then some (none, none)
  else if c = SIMULATION_TERMINATE then some (none, none)
  else if c = GET_EDGE_NAME then some (some "str", some "i")
  else if c = ADD_VEHICLE then some (some "i i i f f i ?", some "i")
  else if c = REMOVE_VEHICLE then some (some "i", some "i")
  else if c = VEH_SET_SPEED then some (some "i f", some "i")
  else if c = VEH_SET_LANE then some (some "i i", some "i")
  else if c = VEH_GET_ENTERED_IDS then some (none, some "str")
  else if c = VEH_GET_EXITED_IDS then some (none, some "str")
  else if c = VEH_GET_TYPE_ID then some (some "str", some "i")
  else if c = VEH_GET_STATIC then
    some (some "i",
      some "i i i f f f f f f f f f f i i i ? f f f f f i i i i")
  else if c = VEH_GET_LEADER then some (some "i", some "i")
  else if c = VEH_GET_FOLLOWER then some (some "i", some "i")
  else if c = VEH_GET_NEXT_SECTION then some (some "i i", some "i")
  else if c = VEH_GET_TYPE_NAME then some (some "i", some "str")
  else if c = VEH_GET_LENGTH then some (some "i", some "f")
  else if c = VEH_SET_TRACKED then some (some "i", some "i")
  else if c = VEH_SET_NO_TRACKED then some (some "i", some "i")
  else if c = TL_GET_IDS then some (none, some "str")
  else if c = TL_SET_STATE then some (some "i i i", some "i")
  else if c = TL_GET_STATE then some (some "i", some "i")
  else none

/-- Formats used by the dispatcher branches of `simulation_step` in
`run.py`. -/
def serverFormats (c : Nat) : Option ((Option String) × (Option String)) :=
  if c = SIMULATION_STEP then some (none, none)
  else if c = SIMULATION_RESET then some (none, none)
  else if c = SIMULATION_TERMINATE then some (none, none)
  else if c = GET_EDGE_NAME then some (some "str", some "i")
  else if c = ADD_VEHICLE then some (some "i i i f f i ?", some "i")
  else if c = REMOVE_VEHICLE then some (some "i", some "i")
  else if c = VEH_SET_SPEED then some (some "i f", some "i")
  else if c = VEH_SET_LANE then some (some "i i", some "i")
  else if c = VEH_SET_ROUTE then some (none, some "i")
  else if c = VEH_SET_COLOR then some (some "i i i i", some "i")
  else if c = VEH_GET_ENTERED_IDS then some (none, some "str")
  else if c = VEH_GET_EXITED_IDS then some (none, some "str")
  else if c = VEH_GET_TYPE_ID then some (some "str", some "i")
  else if c = VEH_GET_STATIC then some (some "dict", some "dict")
  else if c = VEH_GET_DYNAMIC then some (some "dict", some "dict")
  else if c = VEH_GET_ACC then some (some "dict", some "dict")
  else if c = VEH_GET_LEADER then some (some "i", some "i")
  else if c = VEH_GET_FOLLOWER then some (some "i", some "i")
  else if c = VEH_GET_NEXT_SECTION then some (some "i i", some "i")
  else if c = VEH_GET_ROUTE then some (none, none)
  else if c = VEH_GET_TYPE_NAME then some (some "i", some "str")
  else if c = VEH_GET_LENGTH then some (some "i", some "f")
  else if c = VEH_SET_TRACKED then some (some "i", some "i")
  else if c = VEH_SET_NO_TRACKED then some (some "i", some "i")
  else if c = TL_GET_IDS then some (none, some "str")
  else if c = TL_SET_STATE then some (some "i i i", some "i")
  else if c = TL_GET_STATE then some (some "i", some "i")
  else none

/-- C2: the claim fails on the code at `VEH_GET_STATIC`: the client
(`get_vehicle_static_info`) sends its payload as `'i'` and decodes the
reply as a 26-field struct format, while the server branch reads a `'dict'`
payload and replies with a `'dict'` — the two ends are not in lock-step
for this opcode (they do agree on e.g. `ADD_VEHICLE` and
`VEH_SET_SPEED`). -/
theorem veh_get_static_format_mismatch :
    clientFormats VEH_GET_STATIC
      = some (some "i",
          some "i i i f f f f f f f f f f i i i ? f f f f f i i i i")
    ∧ serverFormats VEH_GET_STATIC = some (some "dict", some "dict")
    ∧ clientFormats VEH_GET_STATIC ≠ serverFormats VEH_GET_STATIC
    ∧ clientFormats ADD_VEHICLE = serverFormats ADD_VEHICLE
    ∧ clientFormats VEH_SET_SPEED = serverFormats VEH_SET_SPEED :=
  ⟨rfl, rfl, by decide, rfl, rfl⟩

/-! ## Claim C7: reset closes the connection and re-accepts -/

/-- A pending inbound connection on the server socket: a fresh socket id
and the identifier bytes its client sends first. -/
structure ConnAttempt where
  id : Nat
  ident : List Nat
deriving DecidableEq

/-- The client session owned by `WolfAimsunAPI`: the current connection,
the connections closed so far, the pending inbound connection attempts on
the server socket, and the trace of (connection, opcode) command sends. -/
structure ClientSession where
  conn : Nat
  closed : List Nat
  pending : List ConnAttempt
  sentCommands : List (Nat × Nat)
deriving DecidableEq

/-- `accept_aimsun_connection(server)` (`api.py`): accept connections,
discarding any whose first message is not `RUN_API_ID`, until one presents
`RUN_API_ID`; `none` models blocking forever when no pending attempt
matches. -/
def accept_aimsun_connection : List ConnAttempt → Option (Nat × List ConnAttempt)
  | [] => none
  | a :: rest =>
    if a.ident = RUN_API_ID then some (a.id, rest)
    else accept_aimsun_connection rest

/-- `WolfAimsunAPI.simulation_reset` (`api.py`): send the reset opcode on
the current connection, close it, and block until a new run-api connection
is accepted, which becomes the session's connection. -/
def simulation_reset (sess : ClientSession) : Option ClientSession :=
  match accept_aimsun_connection sess.pending with
  | some (c, rest) =>
    some { conn := c
           closed := sess.closed ++ [sess.conn]
           pending := rest
           sentCommands := sess.sentCommands ++ [(sess.conn, SIMULATION_RESET)] }
  | none => none

theorem accept_mem :
    ∀ (pending : List ConnAttempt) (c : Nat) (p2 : List ConnAttempt),
      accept_aimsun_connection pending = some (c, p2) →
      ∃ a ∈ pending, a.id = c ∧ a.ident = RUN_API_ID := by
  intro pending
  induction pending with
  | nil => intro c p2 h; exact absurd h (by simp [accept_aimsun_connection])
  | cons a rest ih =>
    intro c p2 h
    rw [accept_aimsun_connection] at h
    split_ifs at h with hid
    · injection h with h1
      injection h1 with h2 h3
      exact ⟨a, by simp, h2, hid⟩
    · obtain ⟨b, hb, hbc⟩ := ih c p2 h
      exact ⟨b, by simp [hb], hbc⟩

/-- C7: when a pending attempt presents the run-api identifier,
`simulation_reset` sends the reset opcode on the old connection, closes it,
and returns with the session bound to the freshly accepted connection — a
connection taken from the pending attempts (so, the server socket's
accepted sockets all being fresh, different from the old one). -/
theorem simulation_reset_spec (sess : ClientSession) (c : Nat)
    (p2 : List ConnAttempt)
    (hacc : accept_aimsun_connection sess.pending = some (c, p2))
    (hfresh : ∀ a ∈ sess.pending, a.id ≠ sess.conn) :
    ∃ sess2, simulation_reset sess = some sess2
      ∧ sess2.sentCommands = sess.sentCommands ++ [(sess.conn, SIMULATION_RESET)]
      ∧ sess.conn ∈ sess2.closed
      ∧ sess2.conn = c
      ∧ (∃ a ∈ sess.pending, a.id = c ∧ a.ident = RUN_API_ID)
      ∧ sess2.conn ≠ sess.conn := by
  have hmem := accept_mem sess.pending c p2 hacc
  refine ⟨_, by rw [simulation_reset, hacc], rfl, by simp, rfl, hmem, ?_⟩
  obtain ⟨a, ha, hid, _⟩ := hmem
  show c ≠ sess.conn
  rw [← hid]
  exact hfresh a ha

/-- C7 (witness): a session on connection 0 with a pending network-loader
attempt (skipped) and a pending run-api attempt (accepted). -/
theorem simulation_reset_spec_witness :
    accept_aimsun_connection [⟨1, NETWORK_LOAD_ID⟩, ⟨2, RUN_API_ID⟩]
        = some (2, []) ∧
    (∀ a ∈ ([⟨1, NETWORK_LOAD_ID⟩, ⟨2, RUN_API_ID⟩] : List ConnAttempt),
        a.id ≠ 0) ∧
    (∃ sess2, simulation_reset ⟨0, [], [⟨1, NETWORK_LOAD_ID⟩, ⟨2, RUN_API_ID⟩], []⟩
        = some sess2
      ∧ sess2.sentCommands = [] ++ [(0, SIMULATION_RESET)]
      ∧ 0 ∈ sess2.closed
      ∧ sess2.conn = 2
      ∧ (∃ a ∈ ([⟨1, NETWORK_LOAD_ID⟩, ⟨2, RUN_API_ID⟩] : List ConnAttempt),
          a.id = 2 ∧ a.ident = RUN_API_ID)
      ∧ sess2.conn ≠ 0) :=
  ⟨by decide, by decide,
   simulation_reset_spec ⟨0, [], [⟨1, NETWORK_LOAD_ID⟩, ⟨2, RUN_API_ID⟩], []⟩
     2 [] (by decide) (by decide)⟩

/-! ## JSON serialization (`json.dumps` / `json.loads`)

The `'dict'` path of the codec serializes the dictionary with
`json.dumps` (default options: `ensure_ascii=True`, separators
`', '`/`': '`) and sends the text through the `'str'` path; the receiver
reads the string and applies `json.loads`.  `json` is the CPython standard
library; it is modelled faithfully on the value space `JVal` (numbers
restricted to integers — float text round-tripping is floating-point
semantics, out of scope — and strings to Unicode scalar values).  The
parser accepts the JSON grammar with arbitrary inter-token whitespace, as
`loads` does. -/

/-- Lowercase hex digit character of `d < 16` (`'%04x'`). -/
def hexDigChar (d : Nat) : Nat := if d < 10 then 48 + d else 87 + d

/-- The four hex characters of `'\u%04x' % n`. -/
def toHex4 (n : Nat) : List Nat :=
  [hexDigChar (n / 4096 % 16), hexDigChar (n / 256 % 16),
   hexDigChar (n / 16 % 16), hexDigChar (n % 16)]

/-- A hex digit character (either case). -/
def HexDig (c : Nat) : Prop :=
  (48 ≤ c ∧ c < 58) ∨ (97 ≤ c ∧ c ≤ 102) ∨ (65 ≤ c ∧ c ≤ 70)

instance (c : Nat) : Decidable (HexDig c) := by unfold HexDig; infer_instance

/-- Value of a hex digit character. -/
def hexVal (c : Nat) : Nat :=
  if c < 58 then c - 48 else if c < 97 then c - 55 else c - 87

/-- Escaping of one character by `json.dumps` with `ensure_ascii=True`:
short escapes for the common controls, `\uXXXX` (surrogate pairs above
`0xFFFF`) for the rest outside printable ASCII. -/
def escChar (c : Nat) : List Nat :=
  if c = 34 then [92, 34]
  else if c = 92 then [92, 92]
  else if c = 8 then [92, 98]
  else if c = 12 then [92, 102]
  else if c = 10 then [92, 110]
  else if c = 13 then [92, 114]
  else if c = 9 then [92, 116]
  else if c < 32 ∨ 127 ≤ c then
    if c < 0x10000 then 92 :: 117 :: toHex4 c
    else (92 :: 117 :: toHex4 (0xD800 + (c - 0x10000) / 0x400))
      ++ (92 :: 117 :: toHex4 (0xDC00 + (c - 0x10000) % 0x400))
  else [c]

/-- Body of a serialized JSON string. -/
def dumpStringBody (s : List Nat) : List Nat := (s.map escChar).flatten

/-- A serialized JSON string, quotes included. -/
def dumpString (s : List Nat) : List Nat := 34 :: (dumpStringBody s ++ [34])

/-- A decimal digit character. -/
def isDigitB (c : Nat) : Bool := decide (48 ≤ c ∧ c < 58)

/-- Leading digit run and remainder (`\d*`). -/
def spanDigits (l : List Nat) : List Nat × List Nat :=
  (l.takeWhile isDigitB, l.dropWhile isDigitB)

/-- The `(\.\d+)?` part of the number token: a fraction is consumed only
when the dot is followed by at least one digit. -/
def scanFrac (l : List Nat) : Option (List Nat) × List Nat :=
  match l with
  | c :: rr =>
    if c = 46 then
      if (spanDigits rr).1 = [] then (none, l)
      else (some (spanDigits rr).1, (spanDigits rr).2)
    else (none, l)
  | [] => (none, l)

/-- The optional sign of the exponent: (is the sign minus, digit part). -/
def scanExpBody (rr : List Nat) : Bool × List Nat :=
  match rr with
  | d2 :: rr2 =>
    if d2 = 43 then (false, rr2)
    else if d2 = 45 then (true, rr2)
    else (false, rr)
  | [] => (false, rr)

/-- The `([eE][-+]?digits)?` part of the number token. -/
def scanExp (l : List Nat) : Option Int × List Nat :=
  match l with
  | c :: rr =>
    if c = 101 ∨ c = 69 then
      if (spanDigits (scanExpBody rr).2).1 = [] then (none, l)
      else
        (some (if (scanExpBody rr).1
            then -(parseNatDigits (spanDigits (scanExpBody rr).2).1 : Int)
            else ((parseNatDigits (spanDigits (scanExpBody rr).2).1 : Nat) : Int)),
          (spanDigits (scanExpBody rr).2).2)
    else (none, l)
  | [] => (none, l)

/-- Number-token scan after an optional leading minus (the body of CPython
json's NUMBER_RE): integer digits, optional fraction, optional exponent;
`none` when no digit starts the token. -/
def scanNumAfterSign (l : List Nat) :
    Option ((Nat × Option (List Nat) × Option Int) × List Nat) :=
  if (spanDigits l).1 = [] then none
  else
    some ((parseNatDigits (spanDigits l).1,
        (scanFrac (spanDigits l).2).1,
        (scanExp (scanFrac (spanDigits l).2).2).1),
      (scanExp (scanFrac (spanDigits l).2).2).2)

/-- Value of a scanned number token: `parse_int` on bare digits,
`parse_float` (CPython `float()`, correctly rounded) when a fraction or an
exponent is present. -/
def numVal (neg : Bool) (ipv : Nat) (fr : Option (List Nat))
    (ex : Option Int) : JVal :=
  match fr, ex with
  | none, none => .int (if neg then -(ipv : Int) else (ipv : Int))
  | _, _ =>
    let fds := fr.getD []
    .float (decToFloat neg (ipv * 10 ^ fds.length + parseNatDigits fds)
      (ex.getD 0 - fds.length))

/-- Exact decimal rendering of the positive dyadic `a * 2^e` (used as the
terminal candidate of the shortest-repr search; every binary64 value has a
finite decimal expansion). -/
def exactDec (a : Nat) (e : Int) : List Nat :=
  if 0 ≤ e then natToDec (a * 2 ^ e.toNat) ++ [46, 48]
  else
    let k := (-e).toNat
    let total := a * 5 ^ k
    let ip := total / 10 ^ k
    let fp := total % 10 ^ k
    natToDec ip ++ 46 :: (List.replicate (k - (natToDec fp).length) 48
      ++ natToDec fp)

/-- Fuel loop for the decimal point position. -/
def decptFuel : Nat → Int → Nat → Nat → Int
  | 0, D, _, _ => D
  | fuel + 1, D, num, den =>
    if (if 0 ≤ D then num < den * 10 ^ D.toNat else num * 10 ^ (-D).toNat < den)
    then D else decptFuel fuel (D + 1) num den

/-- Decimal point position of `num / den`: the least `D` with the value
below `10^D` (well inside the fuel for every double). -/
def decptOf (num den : Nat) : Int := decptFuel 800 (-360) num den

/-- Round `num / den` to `p` significant decimal digits (half to even). -/
def sigDigits (num den : Nat) (decpt : Int) (p : Nat) : Nat :=
  let s : Int := decpt - p
  if 0 ≤ s then rheDiv num (den * 10 ^ s.toNat)
  else rheDiv (num * 10 ^ (-s).toNat) den

/-- Format `p` significant digits `v` whose decimal point sits after
position `decpt`, the way `float.__repr__` formats: fixed notation for
`decpt` in `(-4, 16]`, scientific otherwise with a signed zero-padded
exponent of at least two digits. -/
def fmtG (v : Nat) (decpt : Int) (p : Nat) : List Nat :=
  let ds := natToDec v
  if -4 < decpt ∧ decpt ≤ 16 then
    if decpt ≤ 0 then 48 :: 46 :: (List.replicate (-decpt).toNat 48 ++ ds)
    else if (p : Int) ≤ decpt then
      ds ++ List.replicate (decpt - p).toNat 48 ++ [46, 48]
    else ds.take decpt.toNat ++ 46 :: ds.drop decpt.toNat
  else
    let ex := decpt - 1
    let exd := if ex.natAbs < 10 then 48 :: natToDec ex.natAbs
      else natToDec ex.natAbs
    (match ds with
     | [] => [48]
     | [d1] => [d1]
     | d1 :: ds2 => d1 :: 46 :: ds2) ++ 101 :: (if ex < 0 then 45 else 43) :: exd

/-- `%.pg`-style rendering of the positive value `a * 2^e` at `p`
significant digits. -/
def sigRender (a : Nat) (e : Int) (p : Nat) : List Nat :=
  let num := if 0 ≤ e then a * 2 ^ e.toNat else a
  let den := if 0 ≤ e then 1 else 2 ^ (-e).toNat
  let d0 := decptOf num den
  let v0 := sigDigits num den d0 p
  if v0 = 10 ^ p then fmtG (10 ^ (p - 1)) (d0 + 1) p else fmtG v0 d0 p

/-- Does a candidate rendering scan as one full number token and read back
(through `float()`) to exactly the positive value `a * 2^e`?  The
shortest-repr search keeps the first candidate that does. -/
def checkCand (c : List Nat) (a : Nat) (e : Int) : Bool :=
  match scanNumAfterSign c with
  | some ((ipv, fr, ex), []) =>
    match fr, ex with
    | none, none => false
    | _, _ =>
      let fds := fr.getD []
      decide (decToFloat false (ipv * 10 ^ fds.length + parseNatDigits fds)
        (ex.getD 0 - fds.length) = JFloat.finite ⟨(a : Int), e⟩)
  | _ => false

/-- Try the shortest-repr candidates at 1 up to `p` significant digits,
shortest first. -/
def reprTry (a : Nat) (e : Int) : Nat → Option (List Nat)
  | 0 => none
  | p + 1 =>
    match reprTry a e p with
    | some c => some c
    | none =>
      let c := sigRender a e (p + 1)
      if checkCand c a e then some c else none

/-- `repr` of the positive double `a * 2^e`: the shortest `%.pg`-style
rendering (`p ≤ 17`) that reads back to the same value — CPython's
shortest-repr semantics — with the exact decimal expansion as a terminal
fallback. -/
def reprPos (a : Nat) (e : Int) : List Nat :=
  (reprTry a e 17).getD (exactDec a e)

/-- `json.dumps` on a Python float: `repr` for finite values,
`NaN` / `Infinity` / `-Infinity` (the default `allow_nan=True`) for the
specials. -/
def dumpFloat (f : JFloat) : List Nat :=
  match f with
  | .nan => [78, 97, 78]
  | .inf => [73, 110, 102, 105, 110, 105, 116, 121]
  | .ninf => 45 :: [73, 110, 102, 105, 110, 105, 116, 121]
  | .finite d =>
    if d.m = 0 then [48, 46, 48]
    else if d.m < 0 then 45 :: reprPos d.m.natAbs d.e
    else reprPos d.m.natAbs d.e

mutual
/-- `json.dumps` on a `JVal` (default separators `', '` and `': '`). -/
def dumps : JVal → List Nat
  | .null => [110, 117, 108, 108]
  | .bool true => [116, 114, 117, 101]
  | .bool false => [102, 97, 108, 115, 101]
  | .int n => intToDec n
  | .float f => dumpFloat f
  | .str s => dumpString s
  | .arr xs => 91 :: (dumpItems xs ++ [93])
  | .obj kvs => 123 :: (dumpMembers kvs ++ [125])

/-- Array elements joined with `', '`. -/
def dumpItems : List JVal → List Nat
  | [] => []
  | [x] => dumps x
  | x :: y :: rest => dumps x ++ (44 :: 32 :: dumpItems (y :: rest))

/-- Object members `key: value` joined with `', '`. -/
def dumpMembers : List ((List Nat) × JVal) → List Nat
  | [] => []
  | [(k, v)] => dumpString k ++ (58 :: 32 :: dumps v)
  | (k, v) :: m :: rest =>
    dumpString k ++ (58 :: 32 :: (dumps v ++ (44 :: 32 :: dumpMembers (m :: rest))))
end

/-- JSON whitespace. -/
def isWs (c : Nat) : Bool := c = 32 || c = 9 || c = 10 || c = 13

/-- Skip leading whitespace. -/
def skipWs : List Nat → List Nat
  | [] => []
  | c :: rest => if isWs c then skipWs rest else c :: rest

/-- Parse exactly four hex digits. -/
def parseHex4 : List Nat → Option (Nat × List Nat)
  | a :: b :: c :: d :: rest =>
    if HexDig a ∧ HexDig b ∧ HexDig c ∧ HexDig d then
      some (hexVal a * 4096 + hexVal b * 256 + hexVal c * 16 + hexVal d, rest)
    else none
  | _ => none

/-- Longest leading run of decimal digits and its value (`none` if there is
none). -/
def parseDigits (l : List Nat) : Option (Nat × List Nat) :=
  let ds := l.takeWhile (fun c => decide (48 ≤ c ∧ c < 58))
  if ds = [] then none
  else some (parseNatDigits ds, l.dropWhile (fun c => decide (48 ≤ c ∧ c < 58)))

/-- Fuel-indexed scanner of a JSON string body after the opening quote
(CPython `scanstring`, `strict=True`): literal characters, short escapes,
`\uXXXX` with surrogate-pair recombination; stops at the closing quote. -/
def parseStringBody : Nat → List Nat → Option (List Nat × List Nat)
  | 0, _ => none
  | fuel + 1, l =>
    match l with
    | [] => none
    | c :: rest =>
      if c = 34 then some ([], rest)
      else if c = 92 then
        match rest with
        | [] => none
        | e :: r =>
          if e = 34 then (parseStringBody fuel r).map (fun p => (34 :: p.1, p.2))
          else if e = 92 then (parseStringBody fuel r).map (fun p => (92 :: p.1, p.2))
          else if e = 47 then (parseStringBody fuel r).map (fun p => (47 :: p.1, p.2))
          else if e = 98 then (parseStringBody fuel r).map (fun p => (8 :: p.1, p.2))
          else if e = 102 then (parseStringBody fuel r).map (fun p => (12 :: p.1, p.2))
          else if e = 110 then (parseStringBody fuel r).map (fun p => (10 :: p.1, p.2))
          else if e = 114 then (parseStringBody fuel r).map (fun p => (13 :: p.1, p.2))
          else if e = 116 then (parseStringBody fuel r).map (fun p => (9 :: p.1, p.2))
          else if e = 117 then
            match parseHex4 r with
            | some (h1, r2) =>
              if 0xD800 ≤ h1 ∧ h1 < 0xDC00 then
                match r2 with
                | 92 :: 117 :: r3 =>
                  match parseHex4 r3 with
                  | some (h2, r4) =>
                    if 0xDC00 ≤ h2 ∧ h2 < 0xE000 then
                      (parseStringBody fuel r4).map
                        (fun p => ((0x10000 + (h1 - 0xD800) * 0x400 + (h2 - 0xDC00)) :: p.1, p.2))
                    else (parseStringBody fuel r2).map (fun p => (h1 :: p.1, p.2))
                  | none => (parseStringBody fuel r2).map (fun p => (h1 :: p.1, p.2))
                | _ => (parseStringBody fuel r2).map (fun p => (h1 :: p.1, p.2))
              else (parseStringBody fuel r2).map (fun p => (h1 :: p.1, p.2))
            | none => none
          else none
      else if c < 32 then none
      else (parseStringBody fuel rest).map (fun p => (c :: p.1, p.2))

mutual
/-- Fuel-indexed recursive-descent JSON value scanner (`json.loads`
grammar, numbers restricted to integers). -/
def parseJVal : Nat → List Nat → Option (JVal × List Nat)
  | 0, _ => none
  | fuel + 1, l =>
    match skipWs l with
    | [] => none
    | c :: r =>
      if c = 110 then
        match r with
        | 117 :: 108 :: 108 :: r2 => some (.null, r2)
        | _ => none
      else if c = 116 then
        match r with
        | 114 :: 117 :: 101 :: r2 => some (.bool true, r2)
        | _ => none
      else if c = 102 then
        match r with
        | 97 :: 108 :: 115 :: 101 :: r2 => some (.bool false, r2)
        | _ => none
      else if c = 34 then
        match parseStringBody r.length r with
        | some (s, r2) => some (.str s, r2)
        | none => none
      else if c = 91 then
        match skipWs r with
        | [] => none
        | d :: r2 =>
          if d = 93 then some (.arr [], r2)
          else
            match parseItems fuel (d :: r2) with
            | some (xs, r3) => some (.arr xs, r3)
            | none => none
      else if c = 123 then
        match skipWs r with
        | [] => none
        | d :: r2 =>
          if d = 125 then some (.obj [], r2)
          else
            match parseMembers fuel (d :: r2) with
            | some (ms, r3) => some (.obj ms, r3)
            | none => none
      else if c = 78 then
        match r with
        | 97 :: 78 :: r2 => some (.float .nan, r2)
        | _ => none
      else if c = 73 then
        match r with
        | 110 :: 102 :: 105 :: 110 :: 105 :: 116 :: 121 :: r2 =>
          some (.float .inf, r2)
        | _ => none
      else if c = 45 then
        if r.take 8 = [73, 110, 102, 105, 110, 105, 116, 121] then
          some (.float .ninf, r.drop 8)
        else
          match scanNumAfterSign r with
          | some ((ipv, fr, ex), r2) => some (numVal true ipv fr ex, r2)
          | none => none
      else if 48 ≤ c ∧ c < 58 then
        match scanNumAfterSign (c :: r) with
        | some ((ipv, fr, ex), r2) => some (numVal false ipv fr ex, r2)
        | none => none
      else none

/-- Non-empty array tail: value, then `']'` or `','` and more. -/
def parseItems : Nat → List Nat → Option (List JVal × List Nat)
  | 0, _ => none
  | fuel + 1, l =>
    match parseJVal fuel l with
    | some (v, r) =>
      match skipWs r with
      | [] => none
      | d :: r2 =>
        if d = 93 then some ([v], r2)
        else if d = 44 then
          match parseItems fuel r2 with
          | some (vs, r3) => some (v :: vs, r3)
          | none => none
        else none
    | none => none

/-- Non-empty object tail: key string, `':'`, value, then `'}'` or `','`
and more. -/
def parseMembers : Nat → List Nat → Option (List ((List Nat) × JVal) × List Nat)
  | 0, _ => none
  | fuel + 1, l =>
    match skipWs l with
    | [] => none
    | c :: r =>
      if c = 34 then
        match parseStringBody r.length r with
        | some (k, r2) =>
          match skipWs r2 with
          | [] => none
          | d :: r3 =>
            if d = 58 then
              match parseJVal fuel r3 with
              | some (v, r4) =>
                match skipWs r4 with
                | [] => none
                | e :: r5 =>
                  if e = 125 then some ([(k, v)], r5)
                  else if e = 44 then
                    match parseMembers fuel r5 with
                    | some (ms, r6) => some ((k, v) :: ms, r6)
                    | none => none
                  else none
              | none => none
            else none
        | none => none
      else none
end

/-- `json.loads`: parse one value, allow trailing whitespace only. -/
def loads (l : List Nat) : Option JVal :=
  match parseJVal (l.length + 1) l with
  | some (v, r) => if skipWs r = [] then some v else none
  | none => none

/-- Well-formedness of a `JVal`: every string is a sequence of Unicode
scalar values (what a well-formed Python `str` holds). -/
def jvalid : JVal → Prop
  | .null => True
  | .bool _ => True
  | .int _ => True
  | .float (.finite d) => round64 d = some d
  | .float _ => True
  | .str s => ∀ c ∈ s, ScalarValue c
  | .arr xs => ∀ x ∈ xs, jvalid x
  | .obj kvs => ∀ kv ∈ kvs, (∀ c ∈ kv.1, ScalarValue c) ∧ jvalid kv.2
  termination_by v => sizeOf v
  decreasing_by
  · rename_i hy
    have h1 := List.sizeOf_lt_of_mem hy
    simp at h1 ⊢
    omega
  · rename_i hy
    have h1 := List.sizeOf_lt_of_mem hy
    have h2 : sizeOf kv.2 < sizeOf kv := by
      obtain ⟨a, b⟩ := kv
      simp
    simp at h1 h2 ⊢
    omega

theorem HexDig_hexDigChar (d : Nat) (h : d < 16) : HexDig (hexDigChar d) := by
  unfold HexDig hexDigChar
  split_ifs <;> omega

theorem hexVal_hexDigChar (d : Nat) (h : d < 16) : hexVal (hexDigChar d) = d := by
  unfold hexVal hexDigChar
  split_ifs <;> omega

theorem parseHex4_toHex4 (n : Nat) (h : n < 0x10000) (rest : List Nat) :
    parseHex4 (toHex4 n ++ rest) = some (n, rest) := by
  show parseHex4 (hexDigChar (n / 4096 % 16) :: hexDigChar (n / 256 % 16)
    :: hexDigChar (n / 16 % 16) :: hexDigChar (n % 16) :: rest) = some (n, rest)
  rw [parseHex4]
  rw [if_pos ⟨HexDig_hexDigChar _ (by omega), HexDig_hexDigChar _ (by omega),
    HexDig_hexDigChar _ (by omega), HexDig_hexDigChar _ (by omega)⟩]
  rw [hexVal_hexDigChar _ (by omega), hexVal_hexDigChar _ (by omega),
    hexVal_hexDigChar _ (by omega), hexVal_hexDigChar _ (by omega)]
  congr 2
  omega

theorem dumpStringBody_cons (c : Nat) (s : List Nat) :
    dumpStringBody (c :: s) = escChar c ++ dumpStringBody s := by
  simp [dumpStringBody]

theorem psb_quote (fuel : Nat) (rest : List Nat) :
    parseStringBody (fuel + 1) (34 :: rest) = some ([], rest) := rfl

theorem psb_esc34 (fuel : Nat) (r : List Nat) :
    parseStringBody (fuel + 1) (92 :: 34 :: r)
      = (parseStringBody fuel r).map (fun p => (34 :: p.1, p.2)) := rfl

theorem psb_esc92 (fuel : Nat) (r : List Nat) :
    parseStringBody (fuel + 1) (92 :: 92 :: r)
      = (parseStringBody fuel r).map (fun p => (92 :: p.1, p.2)) := rfl

theorem psb_esc98 (fuel : Nat) (r : List Nat) :
    parseStringBody (fuel + 1) (92 :: 98 :: r)
      = (parseStringBody fuel r).map (fun p => (8 :: p.1, p.2)) := rfl

theorem psb_esc102 (fuel : Nat) (r : List Nat) :
    parseStringBody (fuel + 1) (92 :: 102 :: r)
      = (parseStringBody fuel r).map (fun p => (12 :: p.1, p.2)) := rfl

theorem psb_esc110 (fuel : Nat) (r : List Nat) :
    parseStringBody (fuel + 1) (92 :: 110 :: r)
      = (parseStringBody fuel r).map (fun p => (10 :: p.1, p.2)) := rfl

theorem psb_esc114 (fuel : Nat) (r : List Nat) :
    parseStringBody (fuel + 1) (92 :: 114 :: r)
      = (parseStringBody fuel r).map (fun p => (13 :: p.1, p.2)) := rfl

theorem psb_esc116 (fuel : Nat) (r : List Nat) :
    parseStringBody (fuel + 1) (92 :: 116 :: r)
      = (parseStringBody fuel r).map (fun p => (9 :: p.1, p.2)) := rfl

theorem psb_escU (fuel : Nat) (r : List Nat) :
    parseStringBody (fuel + 1) (92 :: 117 :: r)
      = (match parseHex4 r with
        | some (h1, r2) =>
          if 0xD800 ≤ h1 ∧ h1 < 0xDC00 then
            match r2 with
            | 92 :: 117 :: r3 =>
              match parseHex4 r3 with
              | some (h2, r4) =>
                if 0xDC00 ≤ h2 ∧ h2 < 0xE000 then
                  (parseStringBody fuel r4).map
                    (fun p => ((0x10000 + (h1 - 0xD800) * 0x400 + (h2 - 0xDC00)) :: p.1, p.2))
                else (parseStringBody fuel r2).map (fun p => (h1 :: p.1, p.2))
              | none => (parseStringBody fuel r2).map (fun p => (h1 :: p.1, p.2))
            | _ => (parseStringBody fuel r2).map (fun p => (h1 :: p.1, p.2))
          else (parseStringBody fuel r2).map (fun p => (h1 :: p.1, p.2))
        | none => none) := rfl

theorem psb_escU_val (fuel : Nat) (r r2 : List Nat) (h1 : Nat)
    (hh : parseHex4 r = some (h1, r2)) (hns : ¬(0xD800 ≤ h1 ∧ h1 < 0xDC00)) :
    parseStringBody (fuel + 1) (92 :: 117 :: r)
      = (parseStringBody fuel r2).map (fun p => (h1 :: p.1, p.2)) := by
  rw [psb_escU]
  simp only [hh]
  rw [if_neg hns]

theorem psb_escU_pair (fuel : Nat) (r r3 r4 : List Nat) (h1 h2 : Nat)
    (hh : parseHex4 r = some (h1, 92 :: 117 :: r3))
    (hs1 : 0xD800 ≤ h1 ∧ h1 < 0xDC00)
    (hh2 : parseHex4 r3 = some (h2, r4))
    (hs2 : 0xDC00 ≤ h2 ∧ h2 < 0xE000) :
    parseStringBody (fuel + 1) (92 :: 117 :: r)
      = (parseStringBody fuel r4).map
          (fun p => ((0x10000 + (h1 - 0xD800) * 0x400 + (h2 - 0xDC00)) :: p.1, p.2)) := by
  rw [psb_escU]
  simp only [hh, hh2]
  rw [if_pos hs1]
  rw [if_pos hs2]

theorem psb_plain (fuel : Nat) (c : Nat) (rest : List Nat)
    (h1 : c ≠ 34) (h2 : c ≠ 92) (h3 : ¬c < 32) :
    parseStringBody (fuel + 1) (c :: rest)
      = (parseStringBody fuel rest).map (fun p => (c :: p.1, p.2)) := by
  rw [parseStringBody.eq_def]
  simp only []
  rw [if_neg h1, if_neg h2, if_neg h3]

/-- Round trip of one serialized string body: scanning the escaped body
followed by the closing quote recovers the original characters. -/
theorem parseStringBody_dump :
    ∀ fuel s rest, (∀ c ∈ s, ScalarValue c) →
      (dumpStringBody s).length + 1 ≤ fuel →
      parseStringBody fuel (dumpStringBody s ++ 34 :: rest) = some (s, rest) := by
  intro fuel
  induction fuel with
  | zero =>
    intro s rest _ hlen
    omega
  | succ fuel ih =>
    intro s rest hval hlen
    match s with
    | [] =>
      show parseStringBody (fuel + 1) (34 :: rest) = some ([], rest)
      exact psb_quote fuel rest
    | c :: s2 =>
      have hval2 : ∀ x ∈ s2, ScalarValue x := fun x hx => hval x (by simp [hx])
      have hvc : ScalarValue c := hval c (by simp)
      rw [dumpStringBody_cons] at hlen ⊢
      rw [List.length_append] at hlen
      have hesc1 : 1 ≤ (escChar c).length := by
        unfold escChar
        split_ifs <;> simp
      have hihlen : (dumpStringBody s2).length + 1 ≤ fuel := by omega
      have hih := ih s2 rest hval2 hihlen
      by_cases h34 : c = 34
      · subst h34
        rw [show escChar 34 = [92, 34] from rfl]
        rw [show ([92, 34] : List Nat) ++ dumpStringBody s2 ++ 34 :: rest
          = 92 :: 34 :: (dumpStringBody s2 ++ 34 :: rest) by simp]
        rw [psb_esc34, hih]
        rfl
      · by_cases h92 : c = 92
        · subst h92
          rw [show escChar 92 = [92, 92] from rfl]
          rw [show ([92, 92] : List Nat) ++ dumpStringBody s2 ++ 34 :: rest
            = 92 :: 92 :: (dumpStringBody s2 ++ 34 :: rest) by simp]
          rw [psb_esc92, hih]
          rfl
        · by_cases h8 : c = 8
          · subst h8
            rw [show escChar 8 = [92, 98] from rfl]
            rw [show ([92, 98] : List Nat) ++ dumpStringBody s2 ++ 34 :: rest
              = 92 :: 98 :: (dumpStringBody s2 ++ 34 :: rest) by simp]
            rw [psb_esc98, hih]
            rfl
          · by_cases h12 : c = 12
            · subst h12
              rw [show escChar 12 = [92, 102] from rfl]
              rw [show ([92, 102] : List Nat) ++ dumpStringBody s2 ++ 34 :: rest
                = 92 :: 102 :: (dumpStringBody s2 ++ 34 :: rest) by simp]
              rw [psb_esc102, hih]
              rfl
            · by_cases h10 : c = 10
              · subst h10
                rw [show escChar 10 = [92, 110] from rfl]
                rw [show ([92, 110] : List Nat) ++ dumpStringBody s2 ++ 34 :: rest
                  = 92 :: 110 :: (dumpStringBody s2 ++ 34 :: rest) by simp]
                rw [psb_esc110, hih]
                rfl
              · by_cases h13 : c = 13
                · subst h13
                  rw [show escChar 13 = [92, 114] from rfl]
                  rw [show ([92, 114] : List Nat) ++ dumpStringBody s2 ++ 34 :: rest
                    = 92 :: 114 :: (dumpStringBody s2 ++ 34 :: rest) by simp]
                  rw [psb_esc114, hih]
                  rfl
                · by_cases h9 : c = 9
                  · subst h9
                    rw [show escChar 9 = [92, 116] from rfl]
                    rw [show ([92, 116] : List Nat) ++ dumpStringBody s2 ++ 34 :: rest
                      = 92 :: 116 :: (dumpStringBody s2 ++ 34 :: rest) by simp]
                    rw [psb_esc116, hih]
                    rfl
                  · by_cases huni : c < 32 ∨ 127 ≤ c
                    · by_cases hbmp : c < 0x10000
                      · have hesc : escChar c = 92 :: 117 :: toHex4 c := by
                          unfold escChar
                          rw [if_neg h34, if_neg h92, if_neg h8, if_neg h12,
                            if_neg h10, if_neg h13, if_neg h9, if_pos huni,
                            if_pos hbmp]
                        rw [hesc]
                        rw [show (92 :: 117 :: toHex4 c) ++ dumpStringBody s2 ++ 34 :: rest
                          = 92 :: 117 :: (toHex4 c ++ (dumpStringBody s2 ++ 34 :: rest)) by simp]
                        have hns : ¬(0xD800 ≤ c ∧ c < 0xDC00) := by
                          obtain ⟨hc1, hc2⟩ := hvc
                          omega
                        rw [psb_escU_val fuel _ _ c
                          (parseHex4_toHex4 c hbmp (dumpStringBody s2 ++ 34 :: rest)) hns]
                        rw [hih]
                        rfl
                      · have hc17 : c < 0x110000 := hvc.1
                        have hdivlt : (c - 0x10000) / 0x400 < 0x400 := by omega
                        have hesc : escChar c
                            = (92 :: 117 :: toHex4 (0xD800 + (c - 0x10000) / 0x400))
                              ++ (92 :: 117 :: toHex4 (0xDC00 + (c - 0x10000) % 0x400)) := by
                          unfold escChar
                          rw [if_neg h34, if_neg h92, if_neg h8, if_neg h12,
                            if_neg h10, if_neg h13, if_neg h9, if_pos huni,
                            if_neg hbmp]
                        rw [hesc]
                        rw [show ((92 :: 117 :: toHex4 (0xD800 + (c - 0x10000) / 0x400))
                              ++ (92 :: 117 :: toHex4 (0xDC00 + (c - 0x10000) % 0x400)))
                              ++ dumpStringBody s2 ++ 34 :: rest
                          = 92 :: 117 :: (toHex4 (0xD800 + (c - 0x10000) / 0x400)
                              ++ (92 :: 117 :: (toHex4 (0xDC00 + (c - 0x10000) % 0x400)
                                ++ (dumpStringBody s2 ++ 34 :: rest)))) by simp]
                        have hhx1 := parseHex4_toHex4 (0xD800 + (c - 0x10000) / 0x400)
                          (by omega)
                          (92 :: 117 :: (toHex4 (0xDC00 + (c - 0x10000) % 0x400)
                            ++ (dumpStringBody s2 ++ 34 :: rest)))
                        have hhx2 := parseHex4_toHex4 (0xDC00 + (c - 0x10000) % 0x400)
                          (by omega) (dumpStringBody s2 ++ 34 :: rest)
                        rw [psb_escU_pair fuel
                          (toHex4 (0xD800 + (c - 0x10000) / 0x400)
                            ++ (92 :: 117 :: (toHex4 (0xDC00 + (c - 0x10000) % 0x400)
                              ++ (dumpStringBody s2 ++ 34 :: rest))))
                          (toHex4 (0xDC00 + (c - 0x10000) % 0x400)
                            ++ (dumpStringBody s2 ++ 34 :: rest))
                          (dumpStringBody s2 ++ 34 :: rest)
                          (0xD800 + (c - 0x10000) / 0x400)
                          (0xDC00 + (c - 0x10000) % 0x400)
                          hhx1 (by omega) hhx2 (by omega)]
                        rw [hih]
                        rw [show 0x10000 + (0xD800 + (c - 0x10000) / 0x400 - 0xD800) * 0x400
                          + (0xDC00 + (c - 0x10000) % 0x400 - 0xDC00) = c by omega]
                        rfl
                    · have hesc : escChar c = [c] := by
                        unfold escChar
                        rw [if_neg h34, if_neg h92, if_neg h8, if_neg h12,
                          if_neg h10, if_neg h13, if_neg h9, if_neg huni]
                      rw [hesc]
                      rw [show ([c] : List Nat) ++ dumpStringBody s2 ++ 34 :: rest
                        = c :: (dumpStringBody s2 ++ 34 :: rest) by simp]
                      rw [psb_plain fuel c _ h34 h92 (by omega), hih]
                      rfl

/-! ## Claim C8: dictionary round trip through the `'dict'` path -/

theorem skipWs_cons_nonws (c : Nat) (t : List Nat) (h : isWs c = false) :
    skipWs (c :: t) = c :: t := by
  simp [skipWs, h]

theorem skipWs_cons_ws (c : Nat) (t : List Nat) (h : isWs c = true) :
    skipWs (c :: t) = skipWs t := by
  simp [skipWs, h]

theorem hexDigChar_lt (d : Nat) (h : d < 16) : hexDigChar d < 0x80 := by
  unfold hexDigChar
  split <;> omega

theorem toHex4_mem (n : Nat) : ∀ b ∈ toHex4 n, b < 0x80 := by
  intro b hb
  simp only [toHex4, List.mem_cons, List.not_mem_nil, or_false] at hb
  have h1 := hexDigChar_lt (n / 4096 % 16) (Nat.mod_lt _ (by omega))
  have h2 := hexDigChar_lt (n / 256 % 16) (Nat.mod_lt _ (by omega))
  have h3 := hexDigChar_lt (n / 16 % 16) (Nat.mod_lt _ (by omega))
  have h4 := hexDigChar_lt (n % 16) (Nat.mod_lt _ (by omega))
  rcases hb with rfl | rfl | rfl | rfl <;> assumption

theorem escChar_ascii (c : Nat) : ∀ b ∈ escChar c, b < 0x80 := by
  intro b hb
  have ht1 := toHex4_mem c
  have ht2 := toHex4_mem (0xD800 + (c - 0x10000) / 0x400)
  have ht3 := toHex4_mem (0xDC00 + (c - 0x10000) % 0x400)
  unfold escChar at hb
  split_ifs at hb with h1 h2 h3 h4 h5 h6 h7 h8 h9
  · simp at hb; omega
  · simp at hb; omega
  · simp at hb; omega
  · simp at hb; omega
  · simp at hb; omega
  · simp at hb; omega
  · simp at hb; omega
  · simp only [List.mem_cons] at hb
    rcases hb with rfl | rfl | hb
    · omega
    · omega
    · exact ht1 b hb
  · simp only [List.mem_append, List.mem_cons] at hb
    rcases hb with (rfl | rfl | hb) | (rfl | rfl | hb)
    · omega
    · omega
    · exact ht2 b hb
    · omega
    · omega
    · exact ht3 b hb
  · simp only [List.mem_singleton] at hb
    omega

theorem dumpStringBody_ascii (s : List Nat) :
    ∀ b ∈ dumpStringBody s, b < 0x80 := by
  intro b hb
  simp only [dumpStringBody, List.mem_flatten, List.mem_map] at hb
  obtain ⟨t, ⟨c, hc, rfl⟩, hbt⟩ := hb
  exact escChar_ascii c b hbt

theorem dumpString_ascii (s : List Nat) : ∀ b ∈ dumpString s, b < 0x80 := by
  intro b hb
  simp only [dumpString, List.mem_cons, List.mem_append,
    List.mem_singleton, List.not_mem_nil, or_false] at hb
  rcases hb with rfl | hb | rfl
  · omega
  · exact dumpStringBody_ascii s b hb
  · omega

theorem intToDec_ascii (n : Int) : ∀ b ∈ intToDec n, b < 0x80 := by
  intro b hb
  unfold intToDec at hb
  split_ifs at hb
  · simp only [List.mem_cons] at hb
    rcases hb with rfl | hb
    · omega
    · have := natToDec_mem _ b hb
      omega
  · have := natToDec_mem _ b hb
    omega

theorem takeWhile_append_all2 (p : Nat → Bool) (a b : List Nat)
    (h : ∀ x ∈ a, p x = true) :
    (a ++ b).takeWhile p = a ++ b.takeWhile p := by
  induction a with
  | nil => simp
  | cons x a ih =>
    rw [List.cons_append, List.takeWhile_cons_of_pos (h x (by simp)),
      ih (fun y hy => h y (by simp [hy])), List.cons_append]

theorem dropWhile_append_all2 (p : Nat → Bool) (a b : List Nat)
    (h : ∀ x ∈ a, p x = true) :
    (a ++ b).dropWhile p = b.dropWhile p := by
  induction a with
  | nil => simp
  | cons x a ih =>
    rw [List.cons_append, List.dropWhile_cons_of_pos (h x (by simp)),
      ih (fun y hy => h y (by simp [hy]))]

/-- The head of the remainder, if any, is not a decimal digit. -/
def headNotDigit : List Nat → Prop
  | [] => True
  | c :: _ => isDigitB c = false

theorem headNotDigit_nil : headNotDigit [] := trivial

theorem headNotDigit_cons (c : Nat) (t : List Nat)
    (h : isDigitB c = false) : headNotDigit (c :: t) := h

theorem spanDigits_stop (b : List Nat) (h : headNotDigit b) :
    b.takeWhile isDigitB = [] ∧ b.dropWhile isDigitB = b := by
  rcases b with _ | ⟨c, t⟩
  · exact ⟨rfl, rfl⟩
  · have hc : isDigitB c = false := h
    exact ⟨List.takeWhile_cons_of_neg (by simp [hc]),
      List.dropWhile_cons_of_neg (by simp [hc])⟩

theorem spanDigits_nil_of (b : List Nat) (h : headNotDigit b) :
    spanDigits b = ([], b) := by
  obtain ⟨h1, h2⟩ := spanDigits_stop b h
  rw [spanDigits, h1, h2]

theorem spanDigits_all_append (ds rest : List Nat)
    (hds : ∀ x ∈ ds, isDigitB x = true) (h : headNotDigit rest) :
    spanDigits (ds ++ rest) = (ds, rest) := by
  obtain ⟨h1, h2⟩ := spanDigits_stop rest h
  rw [spanDigits, takeWhile_append_all2 _ _ _ hds, dropWhile_append_all2 _ _ _ hds,
    h1, h2, List.append_nil]

theorem dropWhile_head_false (p : Nat → Bool) :
    ∀ l : List Nat, (match l.dropWhile p with
      | [] => True
      | c :: _ => p c = false : Prop) := by
  intro l
  induction l with
  | nil => trivial
  | cons x t ih =>
    by_cases hx : p x = true
    · rw [List.dropWhile_cons_of_pos hx]
      exact ih
    · rw [List.dropWhile_cons_of_neg hx]
      simp at hx
      exact hx

theorem mem_takeWhile_digit (l : List Nat) :
    ∀ x ∈ l.takeWhile isDigitB, isDigitB x = true :=
  fun x hx => List.mem_takeWhile_imp hx

/-- Appending a suffix does not change the digit span as long as the span
was already closed, or the suffix does not begin with a digit. -/
theorem spanDigits_append_suffix (x rest : List Nat)
    (h : x.dropWhile isDigitB ≠ [] ∨ headNotDigit rest) :
    spanDigits (x ++ rest)
      = (x.takeWhile isDigitB, x.dropWhile isDigitB ++ rest) := by
  have hx : x = x.takeWhile isDigitB ++ x.dropWhile isDigitB :=
    (List.takeWhile_append_dropWhile isDigitB x).symm
  rw [show x ++ rest = x.takeWhile isDigitB ++ (x.dropWhile isDigitB ++ rest) by
    rw [← List.append_assoc, ← hx]]
  rcases hd : x.dropWhile isDigitB with _ | ⟨c, t⟩
  · rcases h with h | h
    · exact absurd hd h
    · rw [List.nil_append]
      obtain ⟨h1, h2⟩ := spanDigits_stop rest h
      rw [spanDigits, takeWhile_append_all2 _ _ _ (mem_takeWhile_digit x),
        dropWhile_append_all2 _ _ _ (mem_takeWhile_digit x), h1, h2,
        List.append_nil]
  · have hc : isDigitB c = false := by
      have := dropWhile_head_false isDigitB x
      rw [hd] at this
      exact this
    rw [spanDigits, List.cons_append,
      takeWhile_append_all2 _ _ _ (mem_takeWhile_digit x),
      dropWhile_append_all2 _ _ _ (mem_takeWhile_digit x),
      List.takeWhile_cons_of_neg (show ¬ isDigitB c = true by simp [hc]),
      List.dropWhile_cons_of_neg (show ¬ isDigitB c = true by simp [hc]),
      List.append_nil]

/-- The remainder after a number token must not begin with a digit, a dot,
or an exponent letter (true of every separator the serializer emits). -/
def NumSep : List Nat → Prop
  | [] => True
  | c :: _ => ¬(48 ≤ c ∧ c < 58) ∧ ¬(c = 46 ∨ c = 101 ∨ c = 69)

instance (l : List Nat) : Decidable (NumSep l) := by
  rcases l with _ | ⟨c, t⟩ <;> (unfold NumSep; infer_instance)

theorem numSep_cons (c : Nat) (t : List Nat)
    (h : ¬(48 ≤ c ∧ c < 58) ∧ ¬(c = 46 ∨ c = 101 ∨ c = 69)) :
    NumSep (c :: t) := h

theorem headNotDigit_of_numSep (l : List Nat) (h : NumSep l) :
    headNotDigit l := by
  rcases l with _ | ⟨c, t⟩
  · trivial
  · have h2 : ¬(48 ≤ c ∧ c < 58) ∧ ¬(c = 46 ∨ c = 101 ∨ c = 69) := h
    show isDigitB c = false
    simp [isDigitB]
    omega

theorem scanFrac_of_numSep (l : List Nat) (h : NumSep l) :
    scanFrac l = (none, l) := by
  rcases l with _ | ⟨c, t⟩
  · rfl
  · have h2 : ¬(48 ≤ c ∧ c < 58) ∧ ¬(c = 46 ∨ c = 101 ∨ c = 69) := h
    rw [scanFrac]
    rw [if_neg (by omega : ¬ c = 46)]

theorem scanExp_of_numSep (l : List Nat) (h : NumSep l) :
    scanExp l = (none, l) := by
  rcases l with _ | ⟨c, t⟩
  · rfl
  · have h2 : ¬(48 ≤ c ∧ c < 58) ∧ ¬(c = 46 ∨ c = 101 ∨ c = 69) := h
    rw [scanExp]
    rw [if_neg (by omega : ¬ (c = 101 ∨ c = 69))]

/-- An all-digit token followed by a separator scans as a bare integer. -/
theorem scanNum_intToken (n : Nat) (rest : List Nat) (h : NumSep rest) :
    scanNumAfterSign (natToDec n ++ rest) = some ((n, none, none), rest) := by
  have hdig : ∀ x ∈ natToDec n, isDigitB x = true := by
    intro x hx
    have := natToDec_mem n x hx
    simp [isDigitB]
    omega
  have hspan := spanDigits_all_append (natToDec n) rest hdig
    (headNotDigit_of_numSep rest h)
  rw [scanNumAfterSign, hspan]
  simp only []
  rw [if_neg (by simp [natToDec_ne_nil n])]
  rw [scanFrac_of_numSep rest h]
  simp only []
  rw [scanExp_of_numSep rest h]
  simp only []
  rw [parseNatDigits_natToDec]

theorem scanNum_zero (rest : List Nat) (h : NumSep rest) :
    scanNumAfterSign (48 :: 46 :: 48 :: rest)
      = some ((0, some [48], none), rest) := by
  have hnd := headNotDigit_of_numSep rest h
  obtain ⟨h1, h2⟩ := spanDigits_stop rest hnd
  have hsd2 : spanDigits (48 :: rest) = ([48], rest) := by
    rw [spanDigits, List.takeWhile_cons_of_pos (by decide), h1,
      List.dropWhile_cons_of_pos (by decide), h2]
  have hsd1 : spanDigits (48 :: 46 :: 48 :: rest)
      = ([48], 46 :: 48 :: rest) := by
    rw [spanDigits,
      List.takeWhile_cons_of_pos (by decide),
      List.takeWhile_cons_of_neg (by decide),
      List.dropWhile_cons_of_pos (by decide),
      List.dropWhile_cons_of_neg (by decide)]
  have hfr : scanFrac (46 :: 48 :: rest) = (some [48], rest) := by
    rw [scanFrac, if_pos rfl, hsd2]
    simp only []
    rw [if_neg (by simp)]
  have hex := scanExp_of_numSep rest h
  rw [scanNumAfterSign, hsd1]
  simp only []
  rw [if_neg (by simp)]
  rw [hfr]
  simp only []
  rw [hex]
  rfl

theorem scanFrac_suffix (r1 rest : List Nat) (hns : NumSep rest) :
    scanFrac (r1 ++ rest) = ((scanFrac r1).1, (scanFrac r1).2 ++ rest) := by
  have hnd := headNotDigit_of_numSep rest hns
  rcases r1 with _ | ⟨c1, rr⟩
  · rw [List.nil_append, scanFrac_of_numSep rest hns]
    rfl
  · rw [List.cons_append, scanFrac, scanFrac]
    by_cases h46 : c1 = 46
    · rw [if_pos h46, if_pos h46,
        spanDigits_append_suffix rr rest (Or.inr hnd)]
      simp only [spanDigits]
      by_cases he : rr.takeWhile isDigitB = []
      · rw [if_pos he, if_pos he]
        rfl
      · rw [if_neg he, if_neg he]
    · rw [if_neg h46, if_neg h46]
      rfl

theorem scanExp_consumed_suffix (r2 rest : List Nat) (ex : Option Int)
    (h : scanExp r2 = (ex, [])) (hns : NumSep rest) :
    scanExp (r2 ++ rest) = (ex, rest) := by
  have hnd := headNotDigit_of_numSep rest hns
  rcases r2 with _ | ⟨c3, rr⟩
  · rw [scanExp] at h
    obtain ⟨rfl, _⟩ := Prod.mk.injEq .. |>.mp h
    rw [List.nil_append, scanExp_of_numSep rest hns]
  · rw [scanExp] at h
    by_cases hee : c3 = 101 ∨ c3 = 69
    · rw [if_pos hee] at h
      rw [List.cons_append, scanExp, if_pos hee]
      rcases rr with _ | ⟨d2, rr2⟩
      · rw [show scanExpBody [] = (false, []) from rfl] at h
        simp only [spanDigits, List.takeWhile_nil] at h
        rw [if_pos trivial] at h
        exact absurd (congrArg Prod.snd h) (by simp)
      · by_cases h43 : d2 = 43
        · subst h43
          rw [show scanExpBody (43 :: rr2) = (false, rr2) from rfl] at h
          rw [show ((43 :: rr2) ++ rest : List Nat) = 43 :: (rr2 ++ rest)
              from rfl,
            show scanExpBody (43 :: (rr2 ++ rest)) = (false, rr2 ++ rest)
              from rfl]
          simp only [] at h ⊢
          rw [spanDigits_append_suffix rr2 rest (Or.inr hnd)]
          simp only [spanDigits] at h ⊢
          by_cases he : rr2.takeWhile isDigitB = []
          · rw [if_pos he] at h
            exact absurd (congrArg Prod.snd h) (by simp)
          · rw [if_neg he] at h
            rw [if_neg he]
            have h2 := congrArg Prod.snd h
            simp only [] at h2
            have h1 := congrArg Prod.fst h
            simp only [] at h1
            rw [h2, List.nil_append, ← h1]
        · by_cases h45 : d2 = 45
          · subst h45
            rw [show scanExpBody (45 :: rr2) = (true, rr2) from rfl] at h
            rw [show ((45 :: rr2) ++ rest : List Nat) = 45 :: (rr2 ++ rest)
                from rfl,
              show scanExpBody (45 :: (rr2 ++ rest)) = (true, rr2 ++ rest)
                from rfl]
            simp only [] at h ⊢
            rw [spanDigits_append_suffix rr2 rest (Or.inr hnd)]
            simp only [spanDigits] at h ⊢
            by_cases he : rr2.takeWhile isDigitB = []
            · rw [if_pos he] at h
              exact absurd (congrArg Prod.snd h) (by simp)
            · rw [if_neg he] at h
              rw [if_neg he]
              have h2 := congrArg Prod.snd h
              simp only [] at h2
              have h1 := congrArg Prod.fst h
              simp only [] at h1
              rw [h2, List.nil_append, ← h1]
          · have hbody : scanExpBody (d2 :: rr2) = (false, d2 :: rr2) := by
              rw [scanExpBody, if_neg h43, if_neg h45]
            rw [hbody] at h
            have hbody2 : scanExpBody ((d2 :: rr2) ++ rest)
                = (false, (d2 :: rr2) ++ rest) := by
              rw [List.cons_append, scanExpBody, if_neg h43, if_neg h45]
            rw [hbody2]
            simp only [] at h ⊢
            rw [spanDigits_append_suffix (d2 :: rr2) rest (Or.inr hnd)]
            simp only [spanDigits] at h ⊢
            by_cases he : (d2 :: rr2).takeWhile isDigitB = []
            · rw [if_pos he] at h
              exact absurd (congrArg Prod.snd h) (by simp)
            · rw [if_neg he] at h
              rw [if_neg he]
              have h2 := congrArg Prod.snd h
              simp only [] at h2
              have h1 := congrArg Prod.fst h
              simp only [] at h1
              rw [h2, List.nil_append, ← h1]
    · rw [if_neg hee] at h
      exact absurd (congrArg Prod.snd h) (by simp)

/-- Token locality: a fully-consumed number token scans identically with a
separator-led remainder appended. -/
theorem scanNum_suffix (c rest : List Nat)
    (tok : Nat × Option (List Nat) × Option Int)
    (h : scanNumAfterSign c = some (tok, []))
    (hns : NumSep rest) :
    scanNumAfterSign (c ++ rest) = some (tok, rest) := by
  have hnd := headNotDigit_of_numSep rest hns
  rw [scanNumAfterSign] at h
  by_cases h0 : (spanDigits c).1 = []
  · rw [if_pos h0] at h
    exact absurd h (by simp)
  rw [if_neg h0] at h
  have hspan2 : spanDigits (c ++ rest)
      = ((spanDigits c).1, (spanDigits c).2 ++ rest) :=
    spanDigits_append_suffix c rest (Or.inr hnd)
  rcases hsf : scanFrac (spanDigits c).2 with ⟨fr, r2⟩
  rw [hsf] at h
  simp only [] at h
  rcases hse : scanExp r2 with ⟨ex, r3⟩
  rw [hse] at h
  simp only [] at h
  have h' := Option.some.inj h
  have htok := congrArg Prod.fst h'
  have hr3 : r3 = [] := congrArg Prod.snd h'
  subst hr3
  rw [scanNumAfterSign, hspan2]
  simp only []
  rw [if_neg h0]
  rw [scanFrac_suffix (spanDigits c).2 rest hns, hsf]
  simp only []
  rw [scanExp_consumed_suffix r2 rest ex hse hns]
  simp only [] at htok ⊢
  rw [htok]

theorem bitlenFuel_congr2 :
    ∀ f1 f2 n, n ≤ f1 → n ≤ f2 → bitlenFuel f1 n = bitlenFuel f2 n := by
  intro f1
  induction f1 with
  | zero =>
    intro f2 n h1 h2
    have : n = 0 := by omega
    subst this
    cases f2 <;> simp [bitlenFuel]
  | succ f1 ih =>
    intro f2 n h1 h2
    by_cases hn : n = 0
    · subst hn
      cases f2 <;> simp [bitlenFuel]
    · cases f2 with
      | zero => omega
      | succ g2 =>
        simp only [bitlenFuel, if_neg hn]
        rw [ih g2 (n / 2) (by omega) (by omega)]

theorem bitlen_pos_eq (n : Nat) (h : 0 < n) :
    bitlen n = bitlen (n / 2) + 1 := by
  show bitlenFuel n n = bitlenFuel (n / 2) (n / 2) + 1
  obtain ⟨m, rfl⟩ : ∃ m, n = m + 1 := ⟨n - 1, by omega⟩
  simp only [bitlenFuel, if_neg (by omega : ¬ m + 1 = 0)]
  rw [bitlenFuel_congr2 m ((m + 1) / 2) ((m + 1) / 2) (by omega) le_rfl]

theorem bitlen_bounds (n : Nat) (h : 0 < n) :
    2 ^ (bitlen n - 1) ≤ n ∧ n < 2 ^ bitlen n := by
  induction n using Nat.strong_induction_on with
  | _ n ih =>
    by_cases h1 : n = 1
    · subst h1
      constructor <;> decide
    · have h2 : 2 ≤ n := by omega
      have hd : 0 < n / 2 := by omega
      have hlt : n / 2 < n := Nat.div_lt_self (by omega) (by omega)
      obtain ⟨ihl, ihr⟩ := ih (n / 2) hlt hd
      rw [bitlen_pos_eq n (by omega)]
      have hb : 0 < bitlen (n / 2) := by
        by_contra hb0
        have hb1 : bitlen (n / 2) = 0 := by omega
        rw [hb1] at ihr
        omega
      constructor
      · have : 2 ^ (bitlen (n / 2) + 1 - 1) = 2 * 2 ^ (bitlen (n / 2) - 1) := by
          rw [show bitlen (n / 2) + 1 - 1 = (bitlen (n / 2) - 1) + 1 by omega,
            pow_succ]
          ring
        rw [this]
        omega
      · have : 2 ^ (bitlen (n / 2) + 1) = 2 * 2 ^ bitlen (n / 2) := by
          rw [pow_succ]
          ring
        rw [this]
        omega

theorem bitlen_pos (n : Nat) (h : 0 < n) : 0 < bitlen n := by
  rw [bitlen_pos_eq n h]
  omega


/-- Structure of a canonical (fixed-point) binary64 dyadic: 53-bit mantissa
for normals, minimal exponent for subnormals, value below `2^1024`. -/
theorem round64_fixed (m e : Int) (hm : ¬ m = 0)
    (h : round64 ⟨m, e⟩ = some ⟨m, e⟩) :
    ((bitlen m.natAbs : Int) = 53
        ∧ -1022 ≤ (bitlen m.natAbs : Int) - 1 + e
      ∨ e = -1074 ∧ (bitlen m.natAbs : Int) ≤ 52)
    ∧ (bitlen m.natAbs : Int) + e ≤ 1024 := by
  have ha : 0 < m.natAbs := by omega
  rw [round64, if_neg (show ¬ (Dyadic.mk m e).m = 0 from hm)] at h
  simp only [] at h
  split_ifs at h with h1 h2 h3 h4 h5 h6 h7 h8 h9 h10 h11 h12 <;>
    try exact Option.noConfusion h
  all_goals (
    have hinj := Option.some.inj h
    have hTe := congrArg Dyadic.e hinj
    simp only [] at hTe)
  all_goals try omega
  all_goals (
    have hb53 : (bitlen m.natAbs : Int) = 53 := by omega
    have hz : (e - ((bitlen m.natAbs : Int) - 1 + e - 52)) = 0 := by omega
    rw [hz] at h3
    simp only [Int.toNat_zero, pow_zero, mul_one] at h3
    omega)

theorem bitlen_boundsQ (n : Nat) (h : 0 < n) :
    (2:ℚ) ^ ((bitlen n : Int) - 1) ≤ (n : ℚ)
      ∧ ((n : ℚ)) < (2:ℚ) ^ ((bitlen n : Int)) := by
  obtain ⟨h1, h2⟩ := bitlen_bounds n h
  have hp := bitlen_pos n h
  constructor
  · rw [show (bitlen n : Int) - 1 = ((bitlen n - 1 : Nat) : Int) by omega,
      zpow_natCast]
    exact_mod_cast h1
  · rw [zpow_natCast]
    exact_mod_cast h2

theorem rheDiv_exact (D a : Nat) (hD : 0 < D) : rheDiv (D * a) D = a := by
  have hq : D * a / D = a := by
    rw [mul_comm]
    exact Nat.mul_div_cancel a hD
  have hr : D * a % D = 0 := by
    rw [mul_comm]
    exact Nat.mul_mod_left a D
  rw [rheDiv]
  simp only [hq, hr]
  rw [if_neg (by omega)]

theorem roundWithT_exact (a : Nat) (e : Int) (num den : Nat)
    (ha : 0 < a) (hden : 0 < den) (h53 : a < 2 ^ 53)
    (hov : (bitlen a : Int) + e ≤ 1024)
    (hval : num * 2 ^ (-e).toNat = den * (a * 2 ^ e.toNat)) :
    roundWithT num den e = some (a, e) := by
  simp only [roundWithT]
  by_cases het : 0 ≤ e
  · rw [if_pos het]
    have hz : (-e).toNat = 0 := by omega
    rw [hz, pow_zero, mul_one] at hval
    have hnum_eq : num = (den * 2 ^ e.toNat) * a := by
      rw [hval]
      ring
    rw [hnum_eq, rheDiv_exact _ a (Nat.mul_pos hden (pow_pos (by omega) _))]
    simp only [if_neg (by omega : ¬ a = 2 ^ 53)]
    rw [if_neg (by omega : ¬ 1024 < (bitlen a : Int) + e)]
  · rw [if_neg het]
    have hz : e.toNat = 0 := by omega
    rw [hz, pow_zero, mul_one] at hval
    have hN : num * 2 ^ (-e).toNat = den * a := hval
    rw [hN, rheDiv_exact den a hden]
    simp only [if_neg (by omega : ¬ a = 2 ^ 53)]
    rw [if_neg (by omega : ¬ 1024 < (bitlen a : Int) + e)]

theorem roundPosRat64_exact (a : Nat) (e : Int) (num den : Nat)
    (ha : 0 < a) (hden : 0 < den)
    (hshape : (bitlen a : Int) = 53 ∧ -1022 ≤ (bitlen a : Int) - 1 + e
      ∨ e = -1074 ∧ (bitlen a : Int) ≤ 52)
    (hov : (bitlen a : Int) + e ≤ 1024)
    (hval : num * 2 ^ (-e).toNat = den * (a * 2 ^ e.toNat)) :
    roundPosRat64 num den = some (a, e) := by
  have hpe : 0 < 2 ^ e.toNat := pow_pos (by omega) _
  have hpne : 0 < 2 ^ (-e).toNat := pow_pos (by omega) _
  have hrhs : 0 < den * (a * 2 ^ e.toNat) :=
    Nat.mul_pos hden (Nat.mul_pos ha hpe)
  have hnum : 0 < num := by
    rcases Nat.eq_zero_or_pos num with h0 | h
    · rw [h0] at hval
      simp at hval
      omega
    · exact h
  have hnL := bitlen_pos num hnum
  have hdM := bitlen_pos den hden
  have haL := bitlen_pos a ha
  obtain ⟨ha1n, ha2n⟩ := bitlen_bounds a ha
  obtain ⟨hnQ1, hnQ2⟩ := bitlen_boundsQ num hnum
  obtain ⟨hdQ1, hdQ2⟩ := bitlen_boundsQ den hden
  obtain ⟨haQ1, haQ2⟩ := bitlen_boundsQ a ha
  have hdenQ : (0:ℚ) < den := by exact_mod_cast hden
  have h2ne : ((2:ℚ)) ≠ 0 := by norm_num
  have hkey : (num : ℚ) * 2 ^ (((-e).toNat : Int))
      = den * ((a : ℚ) * 2 ^ ((e.toNat : Int))) := by
    have hcast := congrArg (fun n : Nat => (n : ℚ)) hval
    push_cast at hcast
    rw [← zpow_natCast (2:ℚ) (-e).toNat, ← zpow_natCast (2:ℚ) e.toNat] at hcast
    exact hcast
  have hx : (num : ℚ) / den = (a : ℚ) * (2:ℚ) ^ e := by
    rw [div_eq_iff (ne_of_gt hdenQ)]
    have hsplit : ((e.toNat : Int)) = e + ((-e).toNat : Int) := by omega
    rw [hsplit, zpow_add₀ h2ne] at hkey
    have h2p : ((2:ℚ) ^ (((-e).toNat : Int))) ≠ 0 := zpow_ne_zero _ h2ne
    have hkey2 : (num : ℚ) * 2 ^ (((-e).toNat : Int))
        = ((a : ℚ) * 2 ^ e * den) * 2 ^ (((-e).toNat : Int)) := by
      rw [hkey]
      ring
    exact mul_right_cancel₀ h2p hkey2
  have hxlow : (2:ℚ) ^ ((bitlen num : Int) - (bitlen den : Int) - 1)
      < (num : ℚ) / den := by
    rw [lt_div_iff hdenQ]
    calc (2:ℚ) ^ ((bitlen num : Int) - (bitlen den : Int) - 1) * den
        < 2 ^ ((bitlen num : Int) - (bitlen den : Int) - 1)
            * 2 ^ ((bitlen den : Int)) :=
          mul_lt_mul_of_pos_left hdQ2 (zpow_pos (by norm_num) _)
      _ = 2 ^ ((bitlen num : Int) - 1) := by
          rw [← zpow_add₀ h2ne]
          congr 1
          ring
      _ ≤ num := hnQ1
  have hxhigh : (num : ℚ) / den
      < (2:ℚ) ^ ((bitlen num : Int) - (bitlen den : Int) + 1) := by
    rw [div_lt_iff hdenQ]
    calc (num : ℚ) < 2 ^ ((bitlen num : Int)) := hnQ2
      _ = 2 ^ ((bitlen num : Int) - (bitlen den : Int) + 1)
          * 2 ^ ((bitlen den : Int) - 1) := by
          rw [← zpow_add₀ h2ne]
          congr 1
          ring
      _ ≤ 2 ^ ((bitlen num : Int) - (bitlen den : Int) + 1) * den :=
          mul_le_mul_of_nonneg_left hdQ1 (le_of_lt (zpow_pos (by norm_num) _))
  have haxlow : (2:ℚ) ^ ((bitlen a : Int) - 1 + e) ≤ (num : ℚ) / den := by
    rw [hx, zpow_add₀ h2ne]
    exact mul_le_mul_of_nonneg_right haQ1 (le_of_lt (zpow_pos (by norm_num) _))
  have haxhigh : (num : ℚ) / den < (2:ℚ) ^ ((bitlen a : Int) + e) := by
    rw [hx, zpow_add₀ h2ne]
    exact mul_lt_mul_of_pos_right haQ2 (zpow_pos (by norm_num) _)
  have hmono : ∀ F G : Int, (2:ℚ) ^ F < (2:ℚ) ^ G → F < G := by
    intro F G h
    exact (zpow_lt_zpow_iff_right₀ (by norm_num)).mp h
  have hEs : (bitlen a : Int) - 1 + e ≤ (bitlen num : Int) - bitlen den := by
    have := hmono _ _ (lt_of_le_of_lt haxlow hxhigh)
    omega
  have hsE : (bitlen num : Int) - bitlen den - 1 ≤ (bitlen a : Int) - 1 + e := by
    have := hmono _ _ (lt_trans hxlow haxhigh)
    omega
  have hsnn : ∀ s : Int, 0 ≤ s →
      (den * 2 ^ s.toNat ≤ num ↔ (2:ℚ) ^ s * den ≤ num) := by
    intro s hs
    have hss : (2:ℚ) ^ s * den = ((den * 2 ^ s.toNat : Nat) : ℚ) := by
      push_cast
      rw [show (2:ℚ) ^ s = 2 ^ ((s.toNat : Nat)) by
        rw [← zpow_natCast (2:ℚ) s.toNat]
        congr 1
        omega]
      ring
    rw [hss]
    exact ⟨fun h => by exact_mod_cast h, fun h => by exact_mod_cast h⟩
  have hsneg : ∀ s : Int, s < 0 →
      (den ≤ num * 2 ^ (-s).toNat ↔ (2:ℚ) ^ s * den ≤ num) := by
    intro s hs
    have hpk : (0:ℚ) < 2 ^ ((-s).toNat) := by positivity
    have hss : (2:ℚ) ^ s * den = (den : ℚ) / 2 ^ ((-s).toNat) := by
      rw [show (2:ℚ) ^ s = ((2:ℚ) ^ (((-s).toNat : Int)))⁻¹ by
          rw [← zpow_neg]
          congr 1
          omega,
        zpow_natCast]
      ring
    rw [hss, div_le_iff hpk]
    exact ⟨fun h => by exact_mod_cast h, fun h => by exact_mod_cast h⟩
  -- evaluate the exponent estimate of the algorithm
  rw [roundPosRat64]
  have hEeq : (if 0 ≤ (bitlen num : Int) - bitlen den then
        (if den * 2 ^ ((bitlen num : Int) - bitlen den).toNat ≤ num
          then (bitlen num : Int) - bitlen den
          else (bitlen num : Int) - bitlen den - 1)
      else
        (if den ≤ num * 2 ^ (-((bitlen num : Int) - bitlen den)).toNat
          then (bitlen num : Int) - bitlen den
          else (bitlen num : Int) - bitlen den - 1))
      = (bitlen a : Int) - 1 + e := by
    by_cases hs0 : 0 ≤ (bitlen num : Int) - bitlen den
    · rw [if_pos hs0]
      by_cases hT : den * 2 ^ ((bitlen num : Int) - bitlen den).toNat ≤ num
      · rw [if_pos hT]
        have hTx : (2:ℚ) ^ ((bitlen num : Int) - bitlen den) ≤ (num:ℚ)/den :=
          (le_div_iff hdenQ).mpr ((hsnn _ hs0).mp hT)
        have h1 := hmono _ _ (lt_of_le_of_lt hTx haxhigh)
        omega
      · rw [if_neg hT]
        have hTx : (num:ℚ)/den < (2:ℚ) ^ ((bitlen num : Int) - bitlen den) := by
          by_contra hc
          push_neg at hc
          exact hT ((hsnn _ hs0).mpr ((le_div_iff hdenQ).mp hc))
        have h1 := hmono _ _ (lt_of_le_of_lt haxlow hTx)
        omega
    · rw [if_neg hs0]
      by_cases hT : den ≤ num * 2 ^ (-((bitlen num : Int) - bitlen den)).toNat
      · rw [if_pos hT]
        have hTx : (2:ℚ) ^ ((bitlen num : Int) - bitlen den) ≤ (num:ℚ)/den :=
          (le_div_iff hdenQ).mpr ((hsneg _ (by omega)).mp hT)
        have h1 := hmono _ _ (lt_of_le_of_lt hTx haxhigh)
        omega
      · rw [if_neg hT]
        have hTx : (num:ℚ)/den < (2:ℚ) ^ ((bitlen num : Int) - bitlen den) := by
          by_contra hc
          push_neg at hc
          exact hT ((hsneg _ (by omega)).mpr ((le_div_iff hdenQ).mp hc))
        have h1 := hmono _ _ (lt_of_le_of_lt haxlow hTx)
        omega
  rw [hEeq]
  have h53 : a < 2 ^ 53 := by
    have hb : bitlen a ≤ 53 := by omega
    exact lt_of_lt_of_le ha2n (Nat.pow_le_pow_right (by omega) hb)
  rcases hshape with ⟨hb53, hnorm⟩ | ⟨he74, hsub⟩
  · rw [if_pos (by omega : (-1022 : Int) ≤ (bitlen a : Int) - 1 + e)]
    rw [show (bitlen a : Int) - 1 + e - 52 = e by omega]
    exact roundWithT_exact a e num den ha hden h53 hov hval
  · rw [if_neg (by omega : ¬ (-1022 : Int) ≤ (bitlen a : Int) - 1 + e)]
    rw [show (-1074 : Int) = e by omega]
    exact roundWithT_exact a e num den ha hden h53 hov hval

theorem parseNatDigits_replicate_zero (j : Nat) (l : List Nat) :
    parseNatDigits (List.replicate j 48 ++ l) = parseNatDigits l := by
  induction j with
  | zero => rfl
  | succ j ih =>
    rw [List.replicate_succ, List.cons_append]
    show parseNatDigits (List.replicate j 48 ++ l) = _
    exact ih

theorem natToDec_length_le (k : Nat) :
    ∀ n, n < 10 ^ (k + 1) → (natToDec n).length ≤ k + 1 := by
  induction k with
  | zero =>
    intro n h
    rw [natToDec_lt n (by simpa using h)]
    simp
  | succ k ih =>
    intro n h
    by_cases h10 : n < 10
    · rw [natToDec_lt n h10]
      simp
    · rw [natToDec_ge n (by omega), List.length_append]
      have := ih (n / 10) (by rw [pow_succ] at h; omega)
      simp only [List.length_cons, List.length_nil]
      omega

theorem natToDec_digits (n : Nat) : ∀ x ∈ natToDec n, isDigitB x = true := by
  intro x hx
  have := natToDec_mem n x hx
  simp [isDigitB]
  omega

/-- Scan of the exact decimal expansion of a positive dyadic: one full
number token with a fraction and no exponent, reading back (through
`float()`) to the exact value. -/
theorem exactDec_parses (a : Nat) (e : Int) (ha : 0 < a)
    (hshape : (bitlen a : Int) = 53 ∧ -1022 ≤ (bitlen a : Int) - 1 + e
      ∨ e = -1074 ∧ (bitlen a : Int) ≤ 52)
    (hov : (bitlen a : Int) + e ≤ 1024)
    (rest : List Nat) (hns : NumSep rest) :
    ∃ ipv fds, scanNumAfterSign (exactDec a e ++ rest)
        = some ((ipv, some fds, none), rest)
      ∧ decToFloat false (ipv * 10 ^ fds.length + parseNatDigits fds)
          (0 - (fds.length : Int)) = JFloat.finite ⟨(a : Int), e⟩ := by
  rcases le_or_lt 0 e with hepos | heneg
  · -- integral value: `N.0`
    refine ⟨a * 2 ^ e.toNat, [48], ?_, ?_⟩
    · rw [exactDec, if_pos hepos]
      rw [show (natToDec (a * 2 ^ e.toNat) ++ [46, 48]) ++ rest
          = natToDec (a * 2 ^ e.toNat) ++ (46 :: 48 :: rest) by simp]
      rw [scanNumAfterSign,
        spanDigits_all_append _ _ (natToDec_digits _)
          (headNotDigit_cons 46 _ (by decide))]
      simp only []
      rw [if_neg (by simp [natToDec_ne_nil])]
      rw [scanFrac]
      rw [if_pos rfl]
      rw [show (48 :: rest : List Nat) = [48] ++ rest from rfl,
        spanDigits_all_append [48] rest (by decide)
          (headNotDigit_of_numSep rest hns)]
      simp only []
      rw [if_neg (by simp)]
      rw [scanExp_of_numSep rest hns]
      simp only []
      rw [parseNatDigits_natToDec]
    · rw [show parseNatDigits [48] = 0 from rfl,
        show ([48] : List Nat).length = 1 from rfl]
      rw [decToFloat]
      rw [if_neg (by
        have hmp : 0 < a * 2 ^ e.toNat * 10 ^ 1 :=
          Nat.mul_pos (Nat.mul_pos ha (pow_pos (by omega) _)) (by omega)
        omega)]
      simp only []
      simp only [if_neg (by omega : ¬ (0:Int) ≤ 0 - ((1:Nat) : Int))]
      rw [show (-(0 - ((1:Nat) : Int))).toNat = 1 by omega]
      have hr := roundPosRat64_exact a e (a * 2 ^ e.toNat * 10 ^ 1 + 0)
        (10 ^ 1) ha (by omega) hshape hov (by
          rw [show (-e).toNat = 0 by omega]
          ring)
      rw [hr]
      simp only []
      rw [if_neg (by omega : ¬ a = 0)]
      rfl
  · -- fractional value: `ip.frac` with (-e).toNat decimals
    have hk : 1 ≤ (-e).toNat := by omega
    have h10 : (0:Nat) < 10 ^ (-e).toNat := pow_pos (by omega) _
    have hfp : a * 5 ^ (-e).toNat % 10 ^ (-e).toNat < 10 ^ (-e).toNat :=
      Nat.mod_lt _ h10
    have hlen : (natToDec (a * 5 ^ (-e).toNat % 10 ^ (-e).toNat)).length
        ≤ (-e).toNat := by
      have := natToDec_length_le ((-e).toNat - 1)
        (a * 5 ^ (-e).toNat % 10 ^ (-e).toNat)
        (by rw [show (-e).toNat - 1 + 1 = (-e).toNat by omega]; exact hfp)
      omega
    refine ⟨a * 5 ^ (-e).toNat / 10 ^ (-e).toNat,
      List.replicate ((-e).toNat
          - (natToDec (a * 5 ^ (-e).toNat % 10 ^ (-e).toNat)).length) 48
        ++ natToDec (a * 5 ^ (-e).toNat % 10 ^ (-e).toNat), ?_, ?_⟩
    · rw [exactDec, if_neg (by omega : ¬ (0:Int) ≤ e)]
      simp only []
      rw [show (natToDec (a * 5 ^ (-e).toNat / 10 ^ (-e).toNat)
            ++ 46 :: (List.replicate ((-e).toNat
                - (natToDec (a * 5 ^ (-e).toNat % 10 ^ (-e).toNat)).length) 48
              ++ natToDec (a * 5 ^ (-e).toNat % 10 ^ (-e).toNat))) ++ rest
          = natToDec (a * 5 ^ (-e).toNat / 10 ^ (-e).toNat)
            ++ (46 :: ((List.replicate ((-e).toNat
                - (natToDec (a * 5 ^ (-e).toNat % 10 ^ (-e).toNat)).length) 48
              ++ natToDec (a * 5 ^ (-e).toNat % 10 ^ (-e).toNat)) ++ rest))
          by simp]
      rw [scanNumAfterSign,
        spanDigits_all_append _ _ (natToDec_digits _)
          (headNotDigit_cons 46 _ (by decide))]
      simp only []
      rw [if_neg (by simp [natToDec_ne_nil])]
      rw [scanFrac]
      rw [if_pos rfl]
      rw [spanDigits_all_append _ rest (by
          intro x hx
          rcases List.mem_append.mp hx with hx | hx
          · have := List.eq_of_mem_replicate hx
            subst this
            decide
          · exact natToDec_digits _ x hx)
        (headNotDigit_of_numSep rest hns)]
      simp only []
      rw [if_neg (by simp [natToDec_ne_nil])]
      rw [scanExp_of_numSep rest hns]
      simp only []
      rw [parseNatDigits_natToDec]
    · rw [parseNatDigits_replicate_zero, parseNatDigits_natToDec]
      have hlen2 : (List.replicate ((-e).toNat
            - (natToDec (a * 5 ^ (-e).toNat % 10 ^ (-e).toNat)).length) 48
          ++ natToDec (a * 5 ^ (-e).toNat % 10 ^ (-e).toNat)).length
          = (-e).toNat := by
        rw [List.length_append, List.length_replicate]
        omega
      rw [hlen2]
      have hmant : a * 5 ^ (-e).toNat / 10 ^ (-e).toNat * 10 ^ (-e).toNat
          + a * 5 ^ (-e).toNat % 10 ^ (-e).toNat = a * 5 ^ (-e).toNat := by
        rw [mul_comm (a * 5 ^ (-e).toNat / 10 ^ (-e).toNat) (10 ^ (-e).toNat)]
        exact Nat.div_add_mod _ _
      rw [hmant]
      rw [decToFloat]
      rw [if_neg (by
        have hmp : 0 < a * 5 ^ (-e).toNat :=
          Nat.mul_pos ha (pow_pos (by omega) _)
        omega)]
      simp only []
      simp only [if_neg (by omega : ¬ (0:Int) ≤ 0 - (((-e).toNat : Nat) : Int))]
      rw [show (-(0 - (((-e).toNat : Nat) : Int))).toNat = (-e).toNat by omega]
      have hr := roundPosRat64_exact a e (a * 5 ^ (-e).toNat)
        (10 ^ (-e).toNat) ha h10 hshape hov (by
          rw [show e.toNat = 0 by omega, pow_zero, mul_one,
            show (10:Nat) = 5 * 2 from rfl, mul_pow]
          ring)
      rw [hr]
      simp only []
      rw [if_neg (by omega : ¬ a = 0)]
      rfl

theorem checkCand_spec (c : List Nat) (a : Nat) (e : Int)
    (h : checkCand c a e = true) :
    ∃ ipv fds ex, scanNumAfterSign c = some ((ipv, fds, ex), [])
      ∧ ¬(fds = none ∧ ex = none)
      ∧ decToFloat false (ipv * 10 ^ (fds.getD []).length
            + parseNatDigits (fds.getD []))
          (ex.getD 0 - (fds.getD []).length) = JFloat.finite ⟨(a : Int), e⟩ := by
  rw [checkCand] at h
  rcases hsc : scanNumAfterSign c with _ | ⟨⟨ipv, fr, ex⟩, r3⟩
  · rw [hsc] at h
    exact absurd h (by simp)
  · rw [hsc] at h
    rcases r3 with _ | ⟨x, r3⟩
    · rcases hfr : fr with _ | fds <;> rcases hex : ex with _ | xv <;>
        subst hfr <;> subst hex
      · exact absurd h (by simp)
      · refine ⟨ipv, none, some xv, rfl, by simp, ?_⟩
        simpa using of_decide_eq_true h
      · refine ⟨ipv, some fds, none, rfl, by simp, ?_⟩
        simpa using of_decide_eq_true h
      · refine ⟨ipv, some fds, some xv, rfl, by simp, ?_⟩
        simpa using of_decide_eq_true h
    · exact absurd h (by simp)

theorem reprTry_check (a : Nat) (e : Int) :
    ∀ p c, reprTry a e p = some c → checkCand c a e = true := by
  intro p
  induction p with
  | zero => intro c h; exact absurd h (by simp [reprTry])
  | succ p ih =>
    intro c h
    rw [reprTry] at h
    rcases hp : reprTry a e p with _ | c2
    · rw [hp] at h
      simp only [] at h
      by_cases hchk : checkCand (sigRender a e (p + 1)) a e
      · rw [if_pos hchk] at h
        obtain rfl := Option.some.inj h
        exact hchk
      · rw [if_neg hchk] at h
        exact absurd h (by simp)
    · rw [hp] at h
      obtain rfl := Option.some.inj h
      exact ih c2 hp

theorem scanNum_head (c : List Nat)
    (tok : Nat × Option (List Nat) × Option Int) (r3 : List Nat)
    (h : scanNumAfterSign c = some (tok, r3)) :
    ∃ d t, c = d :: t ∧ isDigitB d = true := by
  rw [scanNumAfterSign] at h
  by_cases h0 : (spanDigits c).1 = []
  · rw [if_pos h0] at h
    exact absurd h (by simp)
  · have hid : c.takeWhile isDigitB = (spanDigits c).1 := rfl
    have hr1 : c.dropWhile isDigitB = (spanDigits c).2 := rfl
    rcases hids : (spanDigits c).1 with _ | ⟨d, t1⟩
    · exact absurd hids h0
    · refine ⟨d, t1 ++ c.dropWhile isDigitB, ?_, ?_⟩
      · conv_lhs => rw [← List.takeWhile_append_dropWhile isDigitB c]
        rw [hid, hids, List.cons_append]
      · exact List.mem_takeWhile_imp (by rw [hid, hids]; simp)

theorem decToFloat_neg (mant : Nat) (e10 : Int) (a : Nat) (e : Int)
    (ha : 0 < a)
    (h : decToFloat false mant e10 = JFloat.finite ⟨(a : Int), e⟩) :
    decToFloat true mant e10 = JFloat.finite ⟨-(a : Int), e⟩ := by
  by_cases hm : mant = 0
  · rw [decToFloat, if_pos hm] at h
    have hma := congrArg Dyadic.m (JFloat.finite.inj h)
    simp only [] at hma
    omega
  · rcases hrr : roundPosRat64 (if 0 ≤ e10 then mant * 10 ^ e10.toNat else mant)
        (if 0 ≤ e10 then 1 else 10 ^ (-e10).toNat) with _ | ⟨mr, t⟩
    · rw [decToFloat, if_neg hm] at h
      simp only [] at h
      rw [hrr] at h
      simp only [] at h
      exact absurd h (by simp)
    · rw [decToFloat, if_neg hm] at h
      simp only [] at h
      rw [hrr] at h
      simp only [] at h
      rw [decToFloat, if_neg hm]
      simp only []
      rw [hrr]
      simp only []
      by_cases hmr : mr = 0
      · rw [if_pos hmr] at h
        have hma := congrArg Dyadic.m (JFloat.finite.inj h)
        simp only [] at hma
        omega
      · rw [if_neg hmr] at h
        rw [if_neg hmr]
        rw [if_neg (by simp : ¬ false = true)] at h
        rw [if_pos trivial]
        have hma := congrArg Dyadic.m (JFloat.finite.inj h)
        have hte := congrArg Dyadic.e (JFloat.finite.inj h)
        simp only [] at hma hte
        rw [show (⟨-(a : Int), e⟩ : Dyadic) = ⟨-(mr : Int), t⟩ by
          rw [show ((a : Int)) = mr by omega, hte]]

theorem numVal_int (neg : Bool) (ipv : Nat) :
    numVal neg ipv none none
      = .int (if neg then -(ipv : Int) else (ipv : Int)) := rfl

theorem numVal_float (neg : Bool) (ipv : Nat) (fr : Option (List Nat))
    (ex : Option Int) (h : ¬(fr = none ∧ ex = none)) :
    numVal neg ipv fr ex
      = .float (decToFloat neg (ipv * 10 ^ (fr.getD []).length
            + parseNatDigits (fr.getD [])) (ex.getD 0 - (fr.getD []).length)) := by
  rcases fr with _ | fds <;> rcases ex with _ | xv
  · exact absurd ⟨rfl, rfl⟩ h
  · rfl
  · rfl
  · rfl

theorem reprPos_head (a : Nat) (e : Int) (ha : 0 < a) :
    ∃ d t, reprPos a e = d :: t ∧ isDigitB d = true := by
  rw [reprPos]
  rcases htry : reprTry a e 17 with _ | c
  · rw [Option.getD_none, exactDec]
    by_cases hep : (0:Int) ≤ e
    · rw [if_pos hep]
      have hne := natToDec_ne_nil (a * 2 ^ e.toNat)
      rcases hd : natToDec (a * 2 ^ e.toNat) with _ | ⟨d, t⟩
      · exact absurd hd hne
      · exact ⟨d, t ++ [46, 48], by rw [List.cons_append],
          natToDec_digits _ d (by rw [hd]; simp)⟩
    · rw [if_neg hep]
      simp only []
      have hne := natToDec_ne_nil
        (a * 5 ^ (-e).toNat / 10 ^ (-e).toNat)
      rcases hd : natToDec (a * 5 ^ (-e).toNat / 10 ^ (-e).toNat)
        with _ | ⟨d, t⟩
      · exact absurd hd hne
      · refine ⟨d, _, by rw [List.cons_append],
          natToDec_digits _ d (by rw [hd]; simp)⟩
  · rw [Option.getD_some]
    have hchk := reprTry_check a e 17 c htry
    obtain ⟨ipv, fds, ex, hsc, _, _⟩ := checkCand_spec c a e hchk
    obtain ⟨d, t, hct, hdig⟩ := scanNum_head c _ _ hsc
    exact ⟨d, t, hct, hdig⟩

/-- The serialized form of a positive finite double scans as one number
token that reads back to exactly that double, under either sign. -/
theorem reprPos_parses (a : Nat) (e : Int) (ha : 0 < a)
    (hshape : (bitlen a : Int) = 53 ∧ -1022 ≤ (bitlen a : Int) - 1 + e
      ∨ e = -1074 ∧ (bitlen a : Int) ≤ 52)
    (hov : (bitlen a : Int) + e ≤ 1024)
    (rest : List Nat) (hns : NumSep rest) :
    ∃ ipv fds ex, scanNumAfterSign (reprPos a e ++ rest)
        = some ((ipv, fds, ex), rest)
      ∧ numVal false ipv fds ex = .float (.finite ⟨(a : Int), e⟩)
      ∧ numVal true ipv fds ex = .float (.finite ⟨-(a : Int), e⟩) := by
  rw [reprPos]
  rcases htry : reprTry a e 17 with _ | c
  · rw [Option.getD_none]
    obtain ⟨ipv, fds, hsc, hdec⟩ := exactDec_parses a e ha hshape hov rest hns
    refine ⟨ipv, some fds, none, hsc, ?_, ?_⟩
    · rw [numVal_float false ipv (some fds) none (by simp)]
      rw [show ((some fds).getD [] : List Nat) = fds from rfl,
        show ((none : Option Int).getD 0) = 0 from rfl]
      rw [hdec]
    · rw [numVal_float true ipv (some fds) none (by simp)]
      rw [show ((some fds).getD [] : List Nat) = fds from rfl,
        show ((none : Option Int).getD 0) = 0 from rfl]
      rw [decToFloat_neg _ _ a e ha hdec]
  · rw [Option.getD_some]
    have hchk := reprTry_check a e 17 c htry
    obtain ⟨ipv, fds, ex, hsc, hne, hdec⟩ := checkCand_spec c a e hchk
    refine ⟨ipv, fds, ex, ?_, ?_, ?_⟩
    · exact scanNum_suffix c rest _ hsc hns
    · rw [numVal_float false ipv fds ex hne, hdec]
    · rw [numVal_float true ipv fds ex hne,
        decToFloat_neg _ _ a e ha hdec]

theorem fmtG_ascii (v : Nat) (decpt : Int) (p : Nat) :
    ∀ b ∈ fmtG v decpt p, b < 0x80 := by
  have hds : ∀ b ∈ natToDec v, b < 0x80 := fun b hb => by
    have := natToDec_mem v b hb
    omega
  have hrep : ∀ j, ∀ b ∈ List.replicate j (48:Nat), b < 0x80 := by
    intro j b hb
    have := List.eq_of_mem_replicate hb
    omega
  have happ : ∀ (l1 l2 : List Nat), (∀ b ∈ l1, b < 0x80)
      → (∀ b ∈ l2, b < 0x80) → ∀ b ∈ l1 ++ l2, b < 0x80 := by
    intro l1 l2 h1 h2 b hb
    rcases List.mem_append.mp hb with hb | hb
    · exact h1 b hb
    · exact h2 b hb
  have hcons : ∀ (c : Nat) (l : List Nat), c < 0x80
      → (∀ b ∈ l, b < 0x80) → ∀ b ∈ c :: l, b < 0x80 := by
    intro c l h1 h2 b hb
    rcases List.mem_cons.mp hb with rfl | hb
    · exact h1
    · exact h2 b hb
  rw [fmtG]
  simp only []
  split_ifs
  · exact hcons _ _ (by omega) (hcons _ _ (by omega) (happ _ _ (hrep _) hds))
  · exact happ _ _ (happ _ _ hds (hrep _))
      (by intro b hb; simp at hb; omega)
  · exact happ _ _ (fun b hb => hds b (List.take_subset _ _ hb))
      (hcons _ _ (by omega) (fun b hb => hds b (List.drop_subset _ _ hb)))
  all_goals (
    refine happ _ _ ?_ (hcons _ _ (by omega) (hcons _ _ (by omega) ?_))
    · rcases hdd : natToDec v with _ | ⟨d1, ds2⟩
      · intro b hb
        simp at hb
        omega
      · rcases ds2 with _ | ⟨d2, ds3⟩
        · intro b hb
          simp only [List.mem_cons, List.not_mem_nil, or_false] at hb
          rw [hb]
          exact hds d1 (by rw [hdd]; simp)
        · exact hcons _ _ (hds d1 (by rw [hdd]; simp))
            (hcons _ _ (by omega)
              (fun b hb => hds b (by rw [hdd]; simp [hb])))
    · first
        | exact hcons _ _ (by omega)
            (fun b hb => by have := natToDec_mem _ b hb; omega)
        | exact fun b hb => by have := natToDec_mem _ b hb; omega)

theorem sigRender_ascii (a : Nat) (e : Int) (p : Nat) :
    ∀ b ∈ sigRender a e p, b < 0x80 := by
  intro b hb
  rw [sigRender] at hb
  split_ifs at hb
  all_goals exact fmtG_ascii _ _ _ b hb

theorem exactDec_ascii (a : Nat) (e : Int) :
    ∀ b ∈ exactDec a e, b < 0x80 := by
  intro b hb
  rw [exactDec] at hb
  split_ifs at hb
  · simp only [List.mem_append, List.mem_cons, List.not_mem_nil,
      or_false] at hb
    rcases hb with hb | rfl | rfl
    · have := natToDec_mem _ b hb
      omega
    · omega
    · omega
  · simp only [] at hb
    simp only [List.mem_append, List.mem_cons] at hb
    rcases hb with hb | rfl | hb | hb
    · have := natToDec_mem _ b hb
      omega
    · omega
    · have := List.eq_of_mem_replicate hb
      omega
    · have := natToDec_mem _ b hb
      omega

theorem reprTry_render (a : Nat) (e : Int) :
    ∀ p c, reprTry a e p = some c → ∃ q, c = sigRender a e q := by
  intro p
  induction p with
  | zero => intro c h; exact absurd h (by simp [reprTry])
  | succ p ih =>
    intro c h
    rw [reprTry] at h
    rcases hp : reprTry a e p with _ | c2
    · rw [hp] at h
      simp only [] at h
      by_cases hchk : checkCand (sigRender a e (p + 1)) a e
      · rw [if_pos hchk] at h
        exact ⟨p + 1, (Option.some.inj h).symm⟩
      · rw [if_neg hchk] at h
        exact absurd h (by simp)
    · rw [hp] at h
      obtain rfl := Option.some.inj h
      exact ih c2 hp

theorem reprPos_ascii (a : Nat) (e : Int) : ∀ b ∈ reprPos a e, b < 0x80 := by
  intro b hb
  rw [reprPos] at hb
  rcases htry : reprTry a e 17 with _ | c
  · rw [htry, Option.getD_none] at hb
    exact exactDec_ascii a e b hb
  · rw [htry, Option.getD_some] at hb
    obtain ⟨q, rfl⟩ := reprTry_render a e 17 c htry
    exact sigRender_ascii a e q b hb

theorem dumpFloat_ascii (f : JFloat) : ∀ b ∈ dumpFloat f, b < 0x80 := by
  intro b hb
  match f with
  | .nan =>
    rw [show dumpFloat .nan = [78, 97, 78] from rfl] at hb
    simp at hb
    omega
  | .inf =>
    rw [show dumpFloat .inf = [73, 110, 102, 105, 110, 105, 116, 121]
      from rfl] at hb
    simp at hb
    omega
  | .ninf =>
    rw [show dumpFloat .ninf
      = 45 :: [73, 110, 102, 105, 110, 105, 116, 121] from rfl] at hb
    simp at hb
    omega
  | .finite d =>
    rw [dumpFloat] at hb
    split_ifs at hb
    · simp at hb
      omega
    · simp only [List.mem_cons] at hb
      rcases hb with rfl | hb
      · omega
      · exact reprPos_ascii _ _ b hb
    · exact reprPos_ascii _ _ b hb

theorem dumps_null_eq : dumps .null = [110, 117, 108, 108] := rfl

theorem dumps_true_eq : dumps (.bool true) = [116, 114, 117, 101] := rfl

theorem dumps_false_eq : dumps (.bool false) = [102, 97, 108, 115, 101] := rfl

theorem dumps_int_eq (n : Int) : dumps (.int n) = intToDec n := rfl

theorem dumps_float_eq (f : JFloat) : dumps (.float f) = dumpFloat f := rfl

theorem dumps_str_eq (s : List Nat) : dumps (.str s) = dumpString s := rfl

theorem dumps_arr_eq (xs : List JVal) :
    dumps (.arr xs) = 91 :: (dumpItems xs ++ [93]) := rfl

theorem dumps_obj_eq (kvs : List ((List Nat) × JVal)) :
    dumps (.obj kvs) = 123 :: (dumpMembers kvs ++ [125]) := rfl

theorem dumpItems_nil_eq : dumpItems [] = [] := rfl

theorem dumpItems_one_eq (x : JVal) : dumpItems [x] = dumps x := rfl

theorem dumpItems_cons2_eq (x y : JVal) (rest : List JVal) :
    dumpItems (x :: y :: rest) = dumps x ++ (44 :: 32 :: dumpItems (y :: rest)) := rfl

theorem dumpMembers_one_eq (k : List Nat) (v : JVal) :
    dumpMembers [(k, v)] = dumpString k ++ (58 :: 32 :: dumps v) := rfl

theorem dumpMembers_cons2_eq (k : List Nat) (v : JVal)
    (m : (List Nat) × JVal) (rest : List ((List Nat) × JVal)) :
    dumpMembers ((k, v) :: m :: rest)
      = dumpString k ++ (58 :: 32 :: (dumps v ++ (44 :: 32 :: dumpMembers (m :: rest)))) := rfl

theorem dumpItems_ascii_of (xs : List JVal)
    (h : ∀ x ∈ xs, ∀ b ∈ dumps x, b < 0x80) :
    ∀ b ∈ dumpItems xs, b < 0x80 := by
  induction xs with
  | nil => intro b hb; simp [dumpItems_nil_eq] at hb
  | cons x xs ih =>
    intro b hb
    rcases xs with _ | ⟨y, ys⟩
    · rw [dumpItems_one_eq] at hb
      exact h x (by simp) b hb
    · rw [dumpItems_cons2_eq] at hb
      simp only [List.mem_append, List.mem_cons] at hb
      rcases hb with hb | rfl | rfl | hb
      · exact h x (by simp) b hb
      · omega
      · omega
      · exact ih (fun z hz => h z (by simp [hz])) b hb

theorem dumpMembers_ascii_of (kvs : List ((List Nat) × JVal))
    (h : ∀ kv ∈ kvs, ∀ b ∈ dumps kv.2, b < 0x80) :
    ∀ b ∈ dumpMembers kvs, b < 0x80 := by
  induction kvs with
  | nil => intro b hb; simp [dumpMembers] at hb
  | cons kv kvs ih =>
    obtain ⟨k, v⟩ := kv
    rcases kvs with _ | ⟨m, ms⟩
    · intro b hb
      rw [dumpMembers_one_eq] at hb
      simp only [List.mem_append, List.mem_cons] at hb
      rcases hb with hb | rfl | rfl | hb
      · exact dumpString_ascii k b hb
      · omega
      · omega
      · exact h (k, v) (by simp) b hb
    · intro b hb
      rw [dumpMembers_cons2_eq] at hb
      simp only [List.mem_append, List.mem_cons] at hb
      rcases hb with hb | rfl | rfl | hb | rfl | rfl | hb
      · exact dumpString_ascii k b hb
      · omega
      · omega
      · exact h (k, v) (by simp) b hb
      · omega
      · omega
      · exact ih (fun z hz => h z (by simp [hz])) b hb

theorem dumps_ascii : ∀ v : JVal, ∀ b ∈ dumps v, b < 0x80 := by
  have H : ∀ n : Nat, ∀ v : JVal, sizeOf v ≤ n → ∀ b ∈ dumps v, b < 0x80 := by
    intro n
    induction n using Nat.strong_induction_on with
    | _ n ih =>
      intro v hn b hb
      match v with
      | .null => rw [dumps_null_eq] at hb; simp at hb; omega
      | .bool true => rw [dumps_true_eq] at hb; simp at hb; omega
      | .bool false => rw [dumps_false_eq] at hb; simp at hb; omega
      | .int m => rw [dumps_int_eq] at hb; exact intToDec_ascii m b hb
      | .float f => rw [dumps_float_eq] at hb; exact dumpFloat_ascii f b hb
      | .str s => rw [dumps_str_eq] at hb; exact dumpString_ascii s b hb
      | .arr xs =>
        rw [dumps_arr_eq] at hb
        simp only [List.mem_cons, List.mem_append, List.mem_singleton,
          List.not_mem_nil, or_false] at hb
        rcases hb with rfl | hb | rfl
        · omega
        · refine dumpItems_ascii_of xs (fun x hx => ?_) b hb
          have h1 := List.sizeOf_lt_of_mem hx
          refine ih (sizeOf x) ?_ x le_rfl
          simp at hn
          omega
        · omega
      | .obj kvs =>
        rw [dumps_obj_eq] at hb
        simp only [List.mem_cons, List.mem_append, List.mem_singleton,
          List.not_mem_nil, or_false] at hb
        rcases hb with rfl | hb | rfl
        · omega
        · refine dumpMembers_ascii_of kvs (fun kv hkv => ?_) b hb
          have h1 := List.sizeOf_lt_of_mem hkv
          have h2 : sizeOf kv.2 < sizeOf kv := by
            obtain ⟨a, c⟩ := kv
            simp
          refine ih (sizeOf kv.2) ?_ kv.2 le_rfl
          simp at hn
          omega
        · omega
  exact fun v => H (sizeOf v) v le_rfl

theorem dumps_head (v : JVal) :
    ∃ c t, dumps v = c :: t ∧ isWs c = false ∧ c ≠ 93 := by
  match v with
  | .null => exact ⟨110, _, dumps_null_eq, by decide, by decide⟩
  | .bool true => exact ⟨116, _, dumps_true_eq, by decide, by decide⟩
  | .bool false => exact ⟨102, _, dumps_false_eq, by decide, by decide⟩
  | .int n =>
    rw [dumps_int_eq]
    unfold intToDec
    split_ifs with h
    · exact ⟨45, _, rfl, by decide, by decide⟩
    · have hne := natToDec_ne_nil n.toNat
      have hmem := natToDec_mem n.toNat
      rcases hd : natToDec n.toNat with _ | ⟨d, t⟩
      · exact absurd hd hne
      · have hdm : 48 ≤ d ∧ d < 58 := hmem d (by rw [hd]; simp)
        refine ⟨d, t, rfl, ?_, by omega⟩
        simp [isWs]
        omega
  | .float .nan => exact ⟨78, _, rfl, by decide, by decide⟩
  | .float .inf => exact ⟨73, _, rfl, by decide, by decide⟩
  | .float .ninf => exact ⟨45, _, rfl, by decide, by decide⟩
  | .float (.finite d) =>
    rw [dumps_float_eq]
    simp only [dumpFloat]
    split_ifs with h0 hneg
    · exact ⟨48, _, rfl, by decide, by decide⟩
    · exact ⟨45, _, rfl, by decide, by decide⟩
    · have ha : 0 < d.m.natAbs := by omega
      obtain ⟨c, t, he, hdig⟩ := reprPos_head d.m.natAbs d.e ha
      have hc : 48 ≤ c ∧ c < 58 := by
        simpa [isDigitB] using hdig
      refine ⟨c, t, he, ?_, by omega⟩
      simp [isWs]
      omega
  | .str s => exact ⟨34, _, dumps_str_eq s, by decide, by decide⟩
  | .arr xs => exact ⟨91, _, dumps_arr_eq xs, by decide, by decide⟩
  | .obj kvs => exact ⟨123, _, dumps_obj_eq kvs, by decide, by decide⟩

theorem dumps_ne_nil (v : JVal) : dumps v ≠ [] := by
  obtain ⟨c, t, he, _, _⟩ := dumps_head v
  simp [he]

theorem dumps_len_pos (v : JVal) : 0 < (dumps v).length :=
  List.length_pos.mpr (dumps_ne_nil v)

theorem skipWs_dumps_append (v : JVal) (r : List Nat) :
    skipWs (dumps v ++ r) = dumps v ++ r := by
  obtain ⟨c, t, he, hw, _⟩ := dumps_head v
  rw [he, List.cons_append]
  exact skipWs_cons_nonws c (t ++ r) hw

theorem dumpItems_head (x : JVal) (xs : List JVal) :
    ∃ c T, dumpItems (x :: xs) = c :: T ∧ isWs c = false ∧ c ≠ 93 := by
  obtain ⟨c, t, he, hw, h93⟩ := dumps_head x
  rcases xs with _ | ⟨y, ys⟩
  · exact ⟨c, t, by rw [dumpItems_one_eq, he], hw, h93⟩
  · refine ⟨c, t ++ (44 :: 32 :: dumpItems (y :: ys)), ?_, hw, h93⟩
    rw [dumpItems_cons2_eq, he, List.cons_append]

theorem dumpMembers_head (kv : (List Nat) × JVal)
    (kvs : List ((List Nat) × JVal)) :
    ∃ T, dumpMembers (kv :: kvs) = 34 :: T := by
  obtain ⟨k, v⟩ := kv
  rcases kvs with _ | ⟨m, ms⟩
  · exact ⟨(dumpStringBody k ++ [34]) ++ (58 :: 32 :: dumps v), by
      rw [dumpMembers_one_eq, dumpString, List.cons_append]⟩
  · exact ⟨(dumpStringBody k ++ [34])
        ++ (58 :: 32 :: (dumps v ++ (44 :: 32 :: dumpMembers (m :: ms)))), by
      rw [dumpMembers_cons2_eq, dumpString, List.cons_append]⟩

theorem takeWhile_append_all (p : Nat → Bool) (a b : List Nat)
    (h : ∀ x ∈ a, p x = true) :
    (a ++ b).takeWhile p = a ++ b.takeWhile p := by
  induction a with
  | nil => simp
  | cons x a ih =>
    rw [List.cons_append, List.takeWhile_cons_of_pos (h x (by simp)),
      ih (fun y hy => h y (by simp [hy])), List.cons_append]

theorem dropWhile_append_all (p : Nat → Bool) (a b : List Nat)
    (h : ∀ x ∈ a, p x = true) :
    (a ++ b).dropWhile p = b.dropWhile p := by
  induction a with
  | nil => simp
  | cons x a ih =>
    rw [List.cons_append, List.dropWhile_cons_of_pos (h x (by simp)),
      ih (fun y hy => h y (by simp [hy]))]

theorem parseDigits_natToDec_append (n : Nat) (rest : List Nat)
    (hr : NumSep rest) :
    parseDigits (natToDec n ++ rest) = some (n, rest) := by
  have hmem : ∀ x ∈ natToDec n, (decide (48 ≤ x ∧ x < 58)) = true := by
    intro x hx
    have := natToDec_mem n x hx
    simp
    omega
  have htake : rest.takeWhile (fun c => decide (48 ≤ c ∧ c < 58)) = [] := by
    rcases rest with _ | ⟨c, t⟩
    · rfl
    · rw [List.takeWhile_cons_of_neg]
      unfold NumSep at hr
      simp
      omega
  have hdrop : rest.dropWhile (fun c => decide (48 ≤ c ∧ c < 58)) = rest := by
    rcases rest with _ | ⟨c, t⟩
    · rfl
    · rw [List.dropWhile_cons_of_neg]
      unfold NumSep at hr
      simp
      omega
  unfold parseDigits
  simp only [takeWhile_append_all _ _ _ hmem, dropWhile_append_all _ _ _ hmem,
    htake, hdrop, List.append_nil]
  rw [if_neg (natToDec_ne_nil n), parseNatDigits_natToDec]

theorem pjv_step (fuel : Nat) (l : List Nat) :
    parseJVal (fuel + 1) l = (match skipWs l with
    | [] => none
    | c :: r =>
      if c = 110 then
        match r with
        | 117 :: 108 :: 108 :: r2 => some (.null, r2)
        | _ => none
      else if c = 116 then
        match r with
        | 114 :: 117 :: 101 :: r2 => some (.bool true, r2)
        | _ => none
      else if c = 102 then
        match r with
        | 97 :: 108 :: 115 :: 101 :: r2 => some (.bool false, r2)
        | _ => none
      else if c = 34 then
        match parseStringBody r.length r with
        | some (s, r2) => some (.str s, r2)
        | none => none
      else if c = 91 then
        match skipWs r with
        | [] => none
        | d :: r2 =>
          if d = 93 then some (.arr [], r2)
          else
            match parseItems fuel (d :: r2) with
            | some (xs, r3) => some (.arr xs, r3)
            | none => none
      else if c = 123 then
        match skipWs r with
        | [] => none
        | d :: r2 =>
          if d = 125 then some (.obj [], r2)
          else
            match parseMembers fuel (d :: r2) with
            | some (ms, r3) => some (.obj ms, r3)
            | none => none
      else if c = 78 then
        match r with
        | 97 :: 78 :: r2 => some (.float .nan, r2)
        | _ => none
      else if c = 73 then
        match r with
        | 110 :: 102 :: 105 :: 110 :: 105 :: 116 :: 121 :: r2 =>
          some (.float .inf, r2)
        | _ => none
      else if c = 45 then
        if r.take 8 = [73, 110, 102, 105, 110, 105, 116, 121] then
          some (.float .ninf, r.drop 8)
        else
          match scanNumAfterSign r with
          | some ((ipv, fr, ex), r2) => some (numVal true ipv fr ex, r2)
          | none => none
      else if 48 ≤ c ∧ c < 58 then
        match scanNumAfterSign (c :: r) with
        | some ((ipv, fr, ex), r2) => some (numVal false ipv fr ex, r2)
        | none => none
      else none) := rfl

theorem pitems_step (fuel : Nat) (l : List Nat) :
    parseItems (fuel + 1) l = (match parseJVal fuel l with
    | some (v, r) =>
      match skipWs r with
      | [] => none
      | d :: r2 =>
        if d = 93 then some ([v], r2)
        else if d = 44 then
          match parseItems fuel r2 with
          | some (vs, r3) => some (v :: vs, r3)
          | none => none
        else none
    | none => none) := rfl

theorem pmem_step (fuel : Nat) (l : List Nat) :
    parseMembers (fuel + 1) l = (match skipWs l with
    | [] => none
    | c :: r =>
      if c = 34 then
        match parseStringBody r.length r with
        | some (k, r2) =>
          match skipWs r2 with
          | [] => none
          | d :: r3 =>
            if d = 58 then
              match parseJVal fuel r3 with
              | some (v, r4) =>
                match skipWs r4 with
                | [] => none
                | e :: r5 =>
                  if e = 125 then some ([(k, v)], r5)
                  else if e = 44 then
                    match parseMembers fuel r5 with
                    | some (ms, r6) => some ((k, v) :: ms, r6)
                    | none => none
                  else none
              | none => none
            else none
        | none => none
      else none) := rfl

theorem dumpMembers_nil_eq : dumpMembers [] = [] := rfl

/-- Parsing inverts serialization: on `dumps v` followed by a remainder that
cannot extend a numeric literal, the scanner returns exactly `v`; likewise
for serialized array items up to `']'` and object members up to `'}'`. -/
theorem parse_dumps_all : ∀ fuel : Nat,
    (∀ v : JVal, ∀ l rest : List Nat, jvalid v → (dumps v).length < fuel →
      NumSep rest → skipWs l = dumps v ++ rest →
      parseJVal fuel l = some (v, rest)) ∧
    (∀ xs : List JVal, ∀ l rest : List Nat, xs ≠ [] → (∀ x ∈ xs, jvalid x) →
      (dumpItems xs).length + 1 < fuel →
      skipWs l = dumpItems xs ++ 93 :: rest →
      parseItems fuel l = some (xs, rest)) ∧
    (∀ kvs : List ((List Nat) × JVal), ∀ l rest : List Nat, kvs ≠ [] →
      (∀ kv ∈ kvs, (∀ c ∈ kv.1, ScalarValue c) ∧ jvalid kv.2) →
      (dumpMembers kvs).length + 1 < fuel →
      skipWs l = dumpMembers kvs ++ 125 :: rest →
      parseMembers fuel l = some (kvs, rest)) := by
  intro fuel
  induction fuel with
  | zero =>
    refine ⟨?_, ?_, ?_⟩
    · intro v l rest _ hfuel _ _
      have := dumps_len_pos v
      omega
    · intro xs l rest _ _ hfuel _
      omega
    · intro kvs l rest _ _ hfuel _
      omega
  | succ f ih =>
    obtain ⟨ihA, ihB, ihC⟩ := ih
    refine ⟨?_, ?_, ?_⟩
    · intro v l rest hv hfuel hns hl
      match v with
      | .null =>
        rw [dumps_null_eq] at hl
        simp only [List.cons_append, List.nil_append] at hl
        rw [pjv_step, hl]
        rfl
      | .bool true =>
        rw [dumps_true_eq] at hl
        simp only [List.cons_append, List.nil_append] at hl
        rw [pjv_step, hl]
        rfl
      | .bool false =>
        rw [dumps_false_eq] at hl
        simp only [List.cons_append, List.nil_append] at hl
        rw [pjv_step, hl]
        rfl
      | .int n =>
        rw [dumps_int_eq] at hl
        rcases lt_or_le n 0 with hneg | hpos
        · rw [intToDec, if_pos hneg, List.cons_append] at hl
          rw [pjv_step, hl]
          simp only []
          rw [if_neg (by decide), if_neg (by decide), if_neg (by decide),
            if_neg (by decide), if_neg (by decide), if_neg (by decide),
            if_neg (by decide), if_neg (by decide), if_pos trivial]
          have hne := natToDec_ne_nil n.natAbs
          have hmem := natToDec_mem n.natAbs
          rcases hd : natToDec n.natAbs with _ | ⟨d, t⟩
          · exact absurd hd hne
          · have hdm : 48 ≤ d ∧ d < 58 := hmem d (by rw [hd]; simp)
            rw [if_neg (show ¬(((d :: t) ++ rest).take 8
                = [73, 110, 102, 105, 110, 105, 116, 121]) by
              rw [List.cons_append, show (8:Nat) = 7 + 1 from rfl,
                List.take_succ_cons]
              intro hq
              injection hq with hq1 _
              omega)]
            rw [show (d :: t) ++ rest = natToDec n.natAbs ++ rest by
              rw [hd]]
            rw [scanNum_intToken n.natAbs rest hns]
            simp only []
            rw [numVal_int true n.natAbs, if_pos rfl]
            rw [show (-(n.natAbs : Int)) = n by omega]
        · rw [intToDec, if_neg (by omega)] at hl
          have hne := natToDec_ne_nil n.toNat
          have hmem := natToDec_mem n.toNat
          rcases hd : natToDec n.toNat with _ | ⟨d, t⟩
          · exact absurd hd hne
          · have hdm : 48 ≤ d ∧ d < 58 := hmem d (by rw [hd]; simp)
            rw [hd, List.cons_append] at hl
            rw [pjv_step, hl]
            simp only []
            rw [if_neg (by omega), if_neg (fun h => by omega),
              if_neg (by omega), if_neg (fun h => by omega),
              if_neg (by omega), if_neg (fun h => by omega),
              if_neg (by omega), if_neg (fun h => by omega),
              if_neg (by omega), if_pos hdm]
            rw [show d :: (t ++ rest) = natToDec n.toNat ++ rest by
              rw [hd]; rfl]
            rw [scanNum_intToken n.toNat rest hns]
            simp only []
            rw [numVal_int false n.toNat, if_neg (by decide)]
            rw [show ((n.toNat : Int)) = n by omega]
      | .float .nan =>
        rw [dumps_float_eq,
          show dumpFloat .nan = [78, 97, 78] from rfl] at hl
        simp only [List.cons_append, List.nil_append] at hl
        rw [pjv_step, hl]
        rfl
      | .float .inf =>
        rw [dumps_float_eq,
          show dumpFloat .inf
            = [73, 110, 102, 105, 110, 105, 116, 121] from rfl] at hl
        simp only [List.cons_append, List.nil_append] at hl
        rw [pjv_step, hl]
        rfl
      | .float .ninf =>
        rw [dumps_float_eq,
          show dumpFloat .ninf
            = 45 :: [73, 110, 102, 105, 110, 105, 116, 121] from rfl] at hl
        simp only [List.cons_append, List.nil_append] at hl
        rw [pjv_step, hl]
        rfl
      | .float (.finite d) =>
        have hcanon : round64 d = some d := by
          simp only [jvalid] at hv
          exact hv
        rw [dumps_float_eq] at hl
        by_cases h0 : d.m = 0
        · have hd00 : d = ⟨0, 0⟩ := by
            rw [round64, if_pos h0] at hcanon
            exact (Option.some.inj hcanon).symm
          simp only [dumpFloat] at hl
          rw [if_pos h0] at hl
          simp only [List.cons_append, List.nil_append] at hl
          rw [pjv_step, hl]
          simp only []
          rw [if_neg (by decide), if_neg (by decide), if_neg (by decide),
            if_neg (by decide), if_neg (by decide), if_neg (by decide),
            if_neg (by decide), if_neg (by decide), if_neg (by decide),
            if_pos (by decide)]
          rw [scanNum_zero rest hns]
          simp only []
          rw [hd00]
          rfl
        · obtain ⟨hshape, hov⟩ := round64_fixed d.m d.e h0 hcanon
          have ha : 0 < d.m.natAbs := by omega
          obtain ⟨c0, t0, he, hdig⟩ := reprPos_head d.m.natAbs d.e ha
          have hc0 : 48 ≤ c0 ∧ c0 < 58 := by simpa [isDigitB] using hdig
          rcases lt_or_le d.m 0 with hneg | hpos
          · simp only [dumpFloat] at hl
            rw [if_neg h0, if_pos hneg, List.cons_append] at hl
            rw [pjv_step, hl]
            simp only []
            rw [if_neg (by decide), if_neg (by decide), if_neg (by decide),
              if_neg (by decide), if_neg (by decide), if_neg (by decide),
              if_neg (by decide), if_neg (by decide), if_pos trivial]
            rw [if_neg (show ¬((reprPos d.m.natAbs d.e ++ rest).take 8
                = [73, 110, 102, 105, 110, 105, 116, 121]) by
              rw [he, List.cons_append, show (8:Nat) = 7 + 1 from rfl,
                List.take_succ_cons]
              intro hq
              injection hq with hq1 _
              omega)]
            obtain ⟨ipv, fds, ex, hsc, _, hnv⟩ :=
              reprPos_parses d.m.natAbs d.e ha hshape hov rest hns
            rw [hsc]
            simp only []
            rw [hnv]
            rw [show (-(d.m.natAbs : Int)) = d.m by omega]
          · simp only [dumpFloat] at hl
            rw [if_neg h0, if_neg (by omega)] at hl
            rw [he, List.cons_append] at hl
            rw [pjv_step, hl]
            simp only []
            rw [if_neg (by omega), if_neg (fun h => by omega),
              if_neg (by omega), if_neg (fun h => by omega),
              if_neg (by omega), if_neg (fun h => by omega),
              if_neg (by omega), if_neg (fun h => by omega),
              if_neg (by omega), if_pos hc0]
            obtain ⟨ipv, fds, ex, hsc, hnv, _⟩ :=
              reprPos_parses d.m.natAbs d.e ha hshape hov rest hns
            rw [show c0 :: (t0 ++ rest) = reprPos d.m.natAbs d.e ++ rest by
              rw [he]; rfl]
            rw [hsc]
            simp only []
            rw [hnv]
            rw [show ((d.m.natAbs : Int)) = d.m by omega]
      | .str s =>
        have hsc : ∀ c ∈ s, ScalarValue c := by
          simp only [jvalid] at hv
          exact hv
        rw [dumps_str_eq, dumpString] at hl
        simp only [List.cons_append, List.append_assoc,
          List.singleton_append, List.nil_append] at hl
        rw [pjv_step, hl]
        simp only []
        rw [if_neg (by decide), if_neg (by decide), if_neg (by decide),
          if_pos trivial]
        rw [parseStringBody_dump _ s rest hsc
          (by simp only [List.length_append, List.length_cons]; omega)]
      | .arr [] =>
        rw [dumps_arr_eq, dumpItems_nil_eq] at hl
        simp only [List.cons_append, List.nil_append,
          List.singleton_append] at hl
        rw [pjv_step, hl]
        rfl
      | .arr (x :: xs) =>
        have hvx : ∀ z ∈ x :: xs, jvalid z := by
          simp only [jvalid] at hv
          exact hv
        have hflen : (dumpItems (x :: xs)).length + 1 < f := by
          rw [dumps_arr_eq] at hfuel
          simp only [List.length_cons, List.length_append,
            List.length_singleton, List.length_nil] at hfuel
          omega
        rw [dumps_arr_eq] at hl
        simp only [List.cons_append, List.append_assoc,
          List.singleton_append, List.nil_append] at hl
        obtain ⟨c0, T, hDI, hw0, h93⟩ := dumpItems_head x xs
        rw [hDI, List.cons_append] at hl
        rw [pjv_step, hl]
        simp only []
        rw [if_neg (by decide), if_neg (by decide), if_neg (by decide),
          if_neg (by decide), if_pos trivial]
        rw [skipWs_cons_nonws c0 _ hw0]
        simp only []
        rw [if_neg h93]
        rw [ihB (x :: xs) (c0 :: (T ++ 93 :: rest)) rest (by simp) hvx hflen
          (by rw [skipWs_cons_nonws c0 _ hw0, hDI, List.cons_append])]
      | .obj [] =>
        rw [dumps_obj_eq, dumpMembers_nil_eq] at hl
        simp only [List.cons_append, List.nil_append,
          List.singleton_append] at hl
        rw [pjv_step, hl]
        rfl
      | .obj (kv :: kvs) =>
        have hvk : ∀ z ∈ kv :: kvs, (∀ c ∈ z.1, ScalarValue c) ∧ jvalid z.2 := by
          simp only [jvalid] at hv
          exact hv
        have hflen : (dumpMembers (kv :: kvs)).length + 1 < f := by
          rw [dumps_obj_eq] at hfuel
          simp only [List.length_cons, List.length_append,
            List.length_singleton, List.length_nil] at hfuel
          omega
        rw [dumps_obj_eq] at hl
        simp only [List.cons_append, List.append_assoc,
          List.singleton_append, List.nil_append] at hl
        obtain ⟨T, hDM⟩ := dumpMembers_head kv kvs
        rw [hDM, List.cons_append] at hl
        rw [pjv_step, hl]
        simp only []
        rw [if_neg (by decide), if_neg (by decide), if_neg (by decide),
          if_neg (by decide), if_neg (by decide), if_pos trivial]
        rw [skipWs_cons_nonws 34 _ (by decide)]
        simp only []
        rw [if_neg (by decide)]
        rw [ihC (kv :: kvs) (34 :: (T ++ 125 :: rest)) rest (by simp) hvk hflen
          (by rw [skipWs_cons_nonws 34 _ (by decide), hDM, List.cons_append])]
    · intro xs l rest hne hvx hfuel hl
      match xs with
      | [] => exact absurd rfl hne
      | [x] =>
        rw [dumpItems_one_eq] at hl
        have hlen : (dumps x).length < f := by
          rw [dumpItems_one_eq] at hfuel
          omega
        rw [pitems_step,
          ihA x l (93 :: rest) (hvx x (by simp)) hlen
            (numSep_cons 93 rest (by omega)) hl]
        simp only []
        rw [skipWs_cons_nonws 93 rest (by decide)]
        rfl
      | x :: y :: ys =>
        rw [dumpItems_cons2_eq] at hl
        simp only [List.append_assoc, List.cons_append] at hl
        have hpos := dumps_len_pos x
        have hfx : (dumps x).length < f := by
          rw [dumpItems_cons2_eq] at hfuel
          simp only [List.length_append, List.length_cons] at hfuel
          omega
        have hfy : (dumpItems (y :: ys)).length + 1 < f := by
          rw [dumpItems_cons2_eq] at hfuel
          simp only [List.length_append, List.length_cons] at hfuel
          omega
        rw [pitems_step,
          ihA x l (44 :: 32 :: (dumpItems (y :: ys) ++ 93 :: rest))
            (hvx x (by simp)) hfx (numSep_cons 44 _ (by omega)) hl]
        simp only []
        rw [skipWs_cons_nonws 44 _ (by decide)]
        simp only []
        rw [if_neg (by decide), if_pos trivial]
        obtain ⟨c1, T1, hDI1, hw1, _⟩ := dumpItems_head y ys
        rw [ihB (y :: ys) (32 :: (dumpItems (y :: ys) ++ 93 :: rest)) rest
          (by simp) (fun z hz => hvx z (by simp [hz])) hfy
          (by rw [skipWs_cons_ws 32 _ (by decide), hDI1, List.cons_append,
            skipWs_cons_nonws c1 _ hw1])]
    · intro kvs l rest hne hvk hfuel hl
      match kvs with
      | [] => exact absurd rfl hne
      | [(k, v)] =>
        have hkv := hvk (k, v) (by simp)
        rw [dumpMembers_one_eq, dumpString] at hl
        simp only [List.cons_append, List.append_assoc,
          List.singleton_append, List.nil_append] at hl
        have hfv : (dumps v).length < f := by
          rw [dumpMembers_one_eq] at hfuel
          simp only [List.length_append, List.length_cons] at hfuel
          omega
        rw [pmem_step, hl]
        simp only []
        rw [if_pos trivial]
        rw [parseStringBody_dump _ k _ hkv.1
          (by simp only [List.length_append, List.length_cons]; omega)]
        simp only []
        rw [skipWs_cons_nonws 58 _ (by decide)]
        simp only []
        rw [if_pos trivial]
        rw [ihA v (32 :: (dumps v ++ 125 :: rest)) (125 :: rest) hkv.2 hfv
          (numSep_cons 125 _ (by omega))
          (by rw [skipWs_cons_ws 32 _ (by decide), skipWs_dumps_append])]
        simp only []
        rw [skipWs_cons_nonws 125 _ (by decide)]
        rfl
      | (k, v) :: m :: ms =>
        have hkv := hvk (k, v) (by simp)
        rw [dumpMembers_cons2_eq, dumpString] at hl
        simp only [List.cons_append, List.append_assoc,
          List.singleton_append, List.nil_append] at hl
        have hpos := dumps_len_pos v
        have hfv : (dumps v).length < f := by
          rw [dumpMembers_cons2_eq] at hfuel
          simp only [List.length_append, List.length_cons,
            dumpString] at hfuel
          omega
        have hfm : (dumpMembers (m :: ms)).length + 1 < f := by
          rw [dumpMembers_cons2_eq] at hfuel
          simp only [List.length_append, List.length_cons,
            dumpString] at hfuel
          omega
        rw [pmem_step, hl]
        simp only []
        rw [if_pos trivial]
        rw [parseStringBody_dump _ k _ hkv.1
          (by simp only [List.length_append, List.length_cons]; omega)]
        simp only []
        rw [skipWs_cons_nonws 58 _ (by decide)]
        simp only []
        rw [if_pos trivial]
        rw [ihA v (32 :: (dumps v ++ 44 :: 32 :: (dumpMembers (m :: ms) ++ 125 :: rest)))
          (44 :: 32 :: (dumpMembers (m :: ms) ++ 125 :: rest)) hkv.2 hfv
          (numSep_cons 44 _ (by omega))
          (by rw [skipWs_cons_ws 32 _ (by decide), skipWs_dumps_append])]
        simp only []
        rw [skipWs_cons_nonws 44 _ (by decide)]
        simp only []
        rw [if_neg (by decide), if_pos trivial]
        obtain ⟨T1, hDM1⟩ := dumpMembers_head m ms
        rw [ihC (m :: ms) (32 :: (dumpMembers (m :: ms) ++ 125 :: rest)) rest
          (by simp) (fun z hz => hvk z (by simp [hz])) hfm
          (by rw [skipWs_cons_ws 32 _ (by decide), hDM1, List.cons_append,
            skipWs_cons_nonws 34 _ (by decide)])]

theorem skipWs_dumps (v : JVal) : skipWs (dumps v) = dumps v := by
  obtain ⟨c, t, he, hw, _⟩ := dumps_head v
  rw [he, skipWs_cons_nonws c t hw]

/-- `json.loads` inverts `json.dumps` on every well-formed value. -/
theorem loads_dumps (v : JVal) (hv : jvalid v) : loads (dumps v) = some v := by
  unfold loads
  rw [(parse_dumps_all ((dumps v).length + 1)).1 v (dumps v) [] hv (by omega)
    trivial (by rw [skipWs_dumps, List.append_nil])]
  rfl

theorem utf8Decode_of_ascii (l : List Nat) (h : ∀ b ∈ l, b < 0x80) :
    utf8Decode l = some l := by
  have hsc : ∀ b ∈ l, ScalarValue b := fun b hb =>
    ⟨by have := h b hb; omega, Or.inl (by have := h b hb; omega)⟩
  calc utf8Decode l = utf8Decode (utf8Encode l) := by rw [utf8Encode_ascii l h]
    _ = some l := utf8Decode_encode l hsc

/-- The receive loop inverts the chunking loop on any ASCII byte string:
every chunk decodes on its own, so no boundary can break a character. -/
theorem getStrLoop_chunks_ascii :
    ∀ n msg, msg.length ≤ n → (∀ b ∈ msg, b < 0x80) →
      getStrLoop (sendStrChunks msg) = some msg := by
  intro n
  induction n with
  | zero =>
    intro msg h1 h2
    have hmsg : msg = [] := List.length_eq_zero.mp (by omega)
    subst hmsg
    rw [sendStrChunks_short [] (by simp)]
    rw [getStrLoop, utf8Decode_of_ascii [] (by simp)]
    rfl
  | succ n ih =>
    intro msg h1 h2
    by_cases hlong : PACKET_SIZE < msg.length
    · have hp := PACKET_SIZE_pos
      rw [sendStrChunks_long msg hlong]
      rw [getStrLoop,
        utf8Decode_of_ascii (msg.take PACKET_SIZE)
          (fun b hb => h2 b (List.take_subset _ _ hb))]
      simp only []
      rw [if_neg (by decide : ¬ TRANSFER_CONTINUE = TRANSFER_DONE)]
      rw [ih (msg.drop PACKET_SIZE)
        (by simp only [List.length_drop]; omega)
        (fun b hb => h2 b (List.drop_subset _ _ hb))]
      show some (List.take PACKET_SIZE msg ++ List.drop PACKET_SIZE msg)
        = some msg
      rw [List.take_append_drop]
    · rw [sendStrChunks_short msg hlong]
      rw [getStrLoop, utf8Decode_of_ascii msg h2]
      rfl

theorem getStrLoop_sendStr_ascii (s : List Nat) (h : ∀ b ∈ s, b < 0x80) :
    getStrLoop (sendStr s) = some s := by
  rw [sendStr, utf8Encode_ascii s h]
  exact getStrLoop_chunks_ascii s.length s le_rfl h

/-- Wire trace of `send_formatted_message(conn, 'dict', d)`: serialize with
`json.dumps` (ASCII output by default), then send over the chunked string
path. -/
def send_dict (v : JVal) : List (List Nat × List Nat) := sendStr (dumps v)

/-- `get_formatted_message(conn, 'dict')`: receive over the chunked string
path, then `json.loads` the text. -/
def get_dict (wire : List (List Nat × List Nat)) : Option JVal :=
  match getStrLoop wire with
  | some s => loads s
  | none => none

/-- No NaN occurs anywhere in the value. `float('nan')` is the one
default-serializable value that is not `==` to itself, so it is the one
value the dict round trip cannot reproduce up to Python equality. -/
def noNaN : JVal → Prop
  | .null => True
  | .bool _ => True
  | .int _ => True
  | .float (.finite _) => True
  | .float .inf => True
  | .float .ninf => True
  | .float .nan => False
  | .str _ => True
  | .arr xs => ∀ x ∈ xs, noNaN x
  | .obj kvs => ∀ kv ∈ kvs, noNaN kv.2
  termination_by v => sizeOf v
  decreasing_by
  · rename_i hy
    have h1 := List.sizeOf_lt_of_mem hy
    simp at h1 ⊢
    omega
  · rename_i hy
    have h1 := List.sizeOf_lt_of_mem hy
    have h2 : sizeOf kv.2 < sizeOf kv := by
      obtain ⟨a, b⟩ := kv
      simp
    simp at h1 h2 ⊢
    omega

/-- Python `==` on two floats as `json.loads` produces them: value
comparison, where the canonical dyadics of this model are equal in value
exactly when they are equal as pairs, infinities compare by sign, and
`nan` compares unequal to everything, itself included. -/
def JFloat.eqPy : JFloat → JFloat → Bool
  | .finite a, .finite b => decide (a = b)
  | .inf, .inf => true
  | .ninf, .ninf => true
  | _, _ => false

/-- Python `==` between an int and a float: true exactly when the float
is finite and has the same numeric value. -/
def intFloatEq (n : Int) : JFloat → Bool
  | .finite d =>
    if 0 ≤ d.e then decide (d.m * 2 ^ d.e.toNat = n)
    else decide (d.m = n * 2 ^ (-d.e).toNat)
  | _ => false

/-- `int(b)` of a Python bool (`bool` is a subclass of `int`). -/
def boolInt (b : Bool) : Int := if b then 1 else 0

mutual
/-- Python `==` on two parsed-JSON values: `None`, strings and containers
compare structurally, numbers (`bool`, `int`, `float`) compare by value
(so `True == 1` and `5 == 5.0` hold while `nan` differs from itself), and
a dict comparison walks the two association lists keywise — the form
Python dict equality takes when both key sequences agree, as they do on a
value and its decoded copy. -/
def pyEq : JVal → JVal → Bool
  | .null, .null => true
  | .bool a, .bool b => decide (a = b)
  | .bool a, .int b => decide (boolInt a = b)
  | .int a, .bool b => decide (a = boolInt b)
  | .bool a, .float f => intFloatEq (boolInt a) f
  | .float f, .bool a => intFloatEq (boolInt a) f
  | .int a, .int b => decide (a = b)
  | .int a, .float f => intFloatEq a f
  | .float f, .int a => intFloatEq a f
  | .float a, .float b => JFloat.eqPy a b
  | .str a, .str b => decide (a = b)
  | .arr xs, .arr ys => pyEqItems xs ys
  | .obj xs, .obj ys => pyEqMembers xs ys
  | _, _ => false

/-- Python `==` on two lists: same length and elementwise `==`. -/
def pyEqItems : List JVal → List JVal → Bool
  | [], [] => true
  | x :: xs, y :: ys => pyEq x y && pyEqItems xs ys
  | _, _ => false

/-- Keywise Python `==` on two association lists of dict members. -/
def pyEqMembers : List (List Nat × JVal) → List (List Nat × JVal) → Bool
  | [], [] => true
  | (k1, v1) :: xs, (k2, v2) :: ys =>
    decide (k1 = k2) && pyEq v1 v2 && pyEqMembers xs ys
  | _, _ => false
end

theorem pyEqItems_refl (xs : List JVal) (h : ∀ x ∈ xs, pyEq x x = true) :
    pyEqItems xs xs = true := by
  induction xs with
  | nil => rfl
  | cons a as iha =>
    show (pyEq a a && pyEqItems as as) = true
    rw [h a (by simp), iha (fun x hx => h x (by simp [hx]))]
    rfl

theorem pyEqMembers_refl (kvs : List (List Nat × JVal))
    (h : ∀ kv ∈ kvs, pyEq kv.2 kv.2 = true) :
    pyEqMembers kvs kvs = true := by
  induction kvs with
  | nil => rfl
  | cons a as iha =>
    obtain ⟨k, v⟩ := a
    show (decide (k = k) && pyEq v v && pyEqMembers as as) = true
    rw [h ⟨k, v⟩ (by simp), iha (fun kv hkv => h kv (by simp [hkv]))]
    simp

/-- Python `==` is reflexive on every value that holds no NaN. -/
theorem pyEq_refl : ∀ v : JVal, noNaN v → pyEq v v = true := by
  have H : ∀ n : Nat, ∀ v : JVal, sizeOf v ≤ n → noNaN v
      → pyEq v v = true := by
    intro n
    induction n using Nat.strong_induction_on with
    | _ n ih =>
      intro v hn hnn
      match v with
      | .null => rfl
      | .bool b => show decide (b = b) = true; simp
      | .int m => show decide (m = m) = true; simp
      | .float (.finite d) => show decide (d = d) = true; simp
      | .float .inf => rfl
      | .float .ninf => rfl
      | .float .nan =>
        simp only [noNaN] at hnn
      | .str s => show decide (s = s) = true; simp
      | .arr xs =>
        simp only [noNaN] at hnn
        show pyEqItems xs xs = true
        refine pyEqItems_refl xs (fun x hx => ?_)
        have h1 := List.sizeOf_lt_of_mem hx
        refine ih (sizeOf x) ?_ x le_rfl (hnn x hx)
        simp at hn
        omega
      | .obj kvs =>
        simp only [noNaN] at hnn
        show pyEqMembers kvs kvs = true
        refine pyEqMembers_refl kvs (fun kv hkv => ?_)
        have h1 := List.sizeOf_lt_of_mem hkv
        have h2 : sizeOf kv.2 < sizeOf kv := by
          obtain ⟨a, b⟩ := kv
          simp
        refine ih (sizeOf kv.2) ?_ kv.2 le_rfl (hnn kv hkv)
        simp at hn
        omega
  exact fun v h => H (sizeOf v) v le_rfl h

/-- The received value is structurally identical to the sent one: the
chunked wire and the JSON codec lose nothing, NaN payloads included. -/
theorem dict_roundtrip_structural (v : JVal) (hv : jvalid v) :
    get_dict (send_dict v) = some v := by
  rw [send_dict]
  unfold get_dict
  rw [getStrLoop_sendStr_ascii (dumps v) (dumps_ascii v)]
  simp only []
  exact loads_dumps v hv

/-- C8 (corrected): sending a dictionary of JSON-serializable values with
`send_formatted_message(conn, 'dict', d)` and receiving it with
`get_formatted_message(conn, 'dict')` yields a structurally identical
dictionary, and the received dictionary equals the sent one under Python
`==` provided no NaN occurs among the values. The original claim fails
for NaN payloads: `json.dumps` serializes `float('nan')` by default, the
value survives the wire, yet `received == d` is false since
`nan != nan`. -/
theorem dict_roundtrip (v : JVal) (hv : jvalid v) (hn : noNaN v) :
    get_dict (send_dict v) = some v ∧ pyEq v v = true :=
  ⟨dict_roundtrip_structural v hv, pyEq_refl v hn⟩

/-- C8 (counterexample to the original claim): `{"k": float('nan')}` is
serialized by default (`json.dumps` emits `NaN` unless `allow_nan` is
disabled) and is received structurally intact, yet the received
dictionary is not `==` to the sent one, because `nan != nan`. -/
theorem dict_roundtrip_nan_counterexample :
    jvalid (JVal.obj [([107], JVal.float JFloat.nan)])
    ∧ get_dict (send_dict (JVal.obj [([107], JVal.float JFloat.nan)]))
        = some (JVal.obj [([107], JVal.float JFloat.nan)])
    ∧ pyEq (JVal.obj [([107], JVal.float JFloat.nan)])
        (JVal.obj [([107], JVal.float JFloat.nan)]) = false := by
  have hv : jvalid (JVal.obj [([107], JVal.float JFloat.nan)]) := by
    simp only [jvalid]
    intro kv hkv
    simp only [List.mem_cons, List.not_mem_nil, or_false] at hkv
    subst hkv
    refine ⟨?_, ?_⟩
    · intro c hc
      simp only [List.mem_cons, List.not_mem_nil, or_false] at hc
      subst hc
      decide
    · simp only [jvalid]
  exact ⟨hv, dict_roundtrip_structural _ hv, rfl⟩

/-- C8 (witness): the round trip and the Python equality of the result at
the concrete dictionary `{"x": 0.5, "n": 5}` (0.5 is the canonical dyadic
4503599627370496 * 2 ^ -53). -/
theorem dict_roundtrip_witness :
    get_dict (send_dict (JVal.obj
        [([120], JVal.float (JFloat.finite ⟨4503599627370496, -53⟩)),
          ([110], JVal.int 5)]))
      = some (JVal.obj
        [([120], JVal.float (JFloat.finite ⟨4503599627370496, -53⟩)),
          ([110], JVal.int 5)])
    ∧ pyEq (JVal.obj
        [([120], JVal.float (JFloat.finite ⟨4503599627370496, -53⟩)),
          ([110], JVal.int 5)])
      (JVal.obj
        [([120], JVal.float (JFloat.finite ⟨4503599627370496, -53⟩)),
          ([110], JVal.int 5)]) = true :=
  dict_roundtrip _ (by
      simp only [jvalid]
      intro kv hkv
      simp only [List.mem_cons, List.not_mem_nil, or_false] at hkv
      rcases hkv with rfl | rfl
      · refine ⟨?_, ?_⟩
        · intro c hc
          simp only [List.mem_cons, List.not_mem_nil, or_false] at hc
          subst hc
          decide
        · simp only [jvalid]
          decide
      · refine ⟨?_, ?_⟩
        · intro c hc
          simp only [List.mem_cons, List.not_mem_nil, or_false] at hc
          subst hc
          decide
        · simp only [jvalid])
    (by
      simp only [noNaN]
      intro kv hkv
      simp only [List.mem_cons, List.not_mem_nil, or_false] at hkv
      rcases hkv with rfl | rfl
      · simp only [noNaN]
      · simp only [noNaN])
